import Mathlib

/-!
MINIX VM server, i386 page tables (servers/vm/i386/pagetable.c)

A shallow embedding of the page-table code of the MINIX virtual-memory server
and theorems about it.

Modelling conventions
* `u32_t`, `vir_bytes`, `phys_bytes` values are natural numbers below `2^32`;
  every C addition and subtraction on them is followed by `% 2^32` (`U32`).
* A `pt_t` owns its directory and the pages its second-level pointers refer
  to: the directory contents are `pt_dir`, the pointer stored in slot `i` is
  `pt_pt i` (0 is `NULL`), and `pt_tab p` are the 1024 words of the page at the
  address `p`, so that `pt_pt[i][j]` is `pt_tab (pt_pt i) j`.  Two slots of a
  table that hold the same pointer share their words, as they do in memory.
  The pages of different tables are kept apart: a page that two tables point
  to is not modelled as shared between them.
* A call either returns (`Run.done`), stops the server (`Run.fatal`: `vm_panic`
  or a failed `vm_assert`), dereferences a `NULL` pointer (`Run.crash`) or, for
  the one unbounded loop, runs out of the iteration budget (`Run.fuel_out`).
* The header files are not part of the sources at hand.  The i386 architecture
  constants are written out; the values chosen by MINIX headers (`NO_MEM`,
  `MAP_NONE`, whether `vm_assert` and `SANITYCHECKS` are compiled in, ...) are
  fields of `Build` and the theorems quantify over them.
* A `pt_t *` argument is the slot of the process in `vmproc` whose table it
  points to; the manager's own table is slot `VM_PROC_NR`.
* The external frame allocator is a script of the results of the coming
  `ALLOC_MEM` calls together with a log of the `ALLOC_MEM` and `FREE_MEM` calls
  made.  The server-wide `SANITYCHECK(SCL_DETAIL)` inside `PT_SANE` lives in
  other files and is taken to pass.
* `vm_allocpages`, `pt_ptalloc` and `pt_writemap` call each other; the models
  take the nesting depth `d` they may use (two levels are all the code uses)
  and the iteration budget `fh` of the `findhole` loop.
-/

namespace Minix

/-! ## Constants -/

/-- Wrap a natural number to 32 bits, as C unsigned arithmetic does. -/
def U32 (n : Nat) : Nat := n % 4294967296

/-- The i386 page size in bytes (`I386_PAGE_SIZE`). -/
def I386_PAGE_SIZE : Nat := 4096

/-- Number of entries of a second-level table (`I386_VM_PT_ENTRIES`). -/
def I386_VM_PT_ENTRIES : Nat := 1024

/-- Number of entries of a page directory (`I386_VM_DIR_ENTRIES`). -/
def I386_VM_DIR_ENTRIES : Nat := 1024

/-- Present bit of a directory or leaf entry (`I386_VM_PRESENT`). -/
def I386_VM_PRESENT : Nat := 1

/-- Writable bit (`I386_VM_WRITE`). -/
def I386_VM_WRITE : Nat := 2

/-- User-accessible bit (`I386_VM_USER`). -/
def I386_VM_USER : Nat := 4

/-- Big-page bit of a directory entry (`I386_VM_BIGPAGE`). -/
def I386_VM_BIGPAGE : Nat := 128

/-- Global bit (`I386_VM_GLOBAL`). -/
def I386_VM_GLOBAL : Nat := 256

/-- Frame-address bits of an entry (`I386_VM_ADDR_MASK`). -/
def I386_VM_ADDR_MASK : Nat := 4294963200

/-- Directory index of a virtual address (`I386_VM_PDE`): the top ten bits. -/
def I386_VM_PDE (a : Nat) : Nat := a / 4194304

/-- Leaf index of a virtual address (`I386_VM_PTE`): bits 12 to 21. -/
def I386_VM_PTE (a : Nat) : Nat := (a / 4096) % 1024

/-- Frame address of an entry (`I386_VM_PFA`). -/
def I386_VM_PFA (e : Nat) : Nat := e &&& I386_VM_ADDR_MASK

/-- Bytes of virtual address space one directory entry controls. -/
def BYTESPERPDE : Nat := I386_VM_PT_ENTRIES * I386_PAGE_SIZE

/-- Size of the spare-page pool (`SPAREPAGES`). -/
def SPAREPAGES : Nat := 5

/-- The values that come from MINIX header files outside the sources at hand. -/
structure Build where
  /-- The "no memory" value returned by `findhole` and `ALLOC_MEM`. -/
  NO_MEM : Nat
  /-- The physical address that asks `pt_writemap` to clear a mapping. -/
  MAP_NONE : Nat
  /-- The `pt_writemap` flag that allows replacing a present entry. -/
  WMF_OVERWRITE : Nat
  /-- The entry flags callers may pass (`PTF_ALLFLAGS`). -/
  PTF_ALLFLAGS : Nat
  /-- Whether the `#if SANITYCHECKS` blocks are compiled in. -/
  SANITYCHECKS : Bool
  /-- Whether `vm_assert(c)` checks `c` (otherwise it expands to nothing). -/
  vm_assert_on : Bool
  /-- Slot of the memory manager itself in `vmproc` (`VM_PROC_NR`). -/
  VM_PROC_NR : Nat
  /-- The macro `arch_vir2map(vmp, v)`: from an address of the manager to an
  offset in its page table. -/
  arch_vir2map : Nat → Nat
  /-- The macro `arch_map2vir(vmp, v)`: the inverse direction. -/
  arch_map2vir : Nat → Nat

/-- Return codes of the functions that can fail without stopping the server. -/
inductive Status where
  /-- Success. -/
  | OK : Status
  /-- No memory for a directory or a second-level table. -/
  | ENOMEM : Status
deriving DecidableEq

/-! ## Outcomes -/

/-- How a call ends. -/
inductive Run (α : Type) where
  /-- The call returns. -/
  | done (a : α) : Run α
  /-- The server stops: `vm_panic` or a failed `vm_assert`. -/
  | fatal : Run α
  /-- A `NULL` pointer is dereferenced. -/
  | crash : Run α
  /-- The iteration budget of the model is used up. -/
  | fuel_out : Run α

/-- Sequencing of calls. -/
def Run.bind {α β : Type} (r : Run α) (f : α → Run β) : Run β :=
  match r with
  | Run.done a => f a
  | Run.fatal => Run.fatal
  | Run.crash => Run.crash
  | Run.fuel_out => Run.fuel_out

/-- The statement `vm_assert(c)`, followed by the rest of the function. -/
def vm_assert {α : Type} (b : Build) (c : Bool) (k : Run α) : Run α :=
  if b.vm_assert_on && !c then Run.fatal else k

/-! ## Page tables -/

/-- The page table of one process (`pt_t`). -/
structure pt_t where
  /-- The pointer `pt_dir` itself; 0 is `NULL`. -/
  pt_dir_ptr : Nat
  /-- The 1024 directory entries `pt_dir[i]`. -/
  pt_dir : Nat → Nat
  /-- The pointers `pt_pt[i]`; 0 is `NULL`. -/
  pt_pt : Nat → Nat
  /-- The words of the pages that second-level pointers refer to, by the
  address of the page: `pt_pt[i][j]` is `pt_tab (pt_pt i) j`. -/
  pt_tab : Nat → Nat → Nat
  /-- Physical address of the directory. -/
  pt_dir_phys : Nat
  /-- Where `findhole` starts looking next time. -/
  pt_virtop : Nat

/-- Replace entry `i` of an array by `x`. -/
def upd (f : Nat → Nat) (i x : Nat) : Nat → Nat :=
  fun j => if j = i then x else f j

/-- Replace word `j` of the page at address `i` by `x`. -/
def upd2 (f : Nat → Nat → Nat) (i j x : Nat) : Nat → Nat → Nat :=
  fun i2 j2 => if i2 = i ∧ j2 = j then x else f i2 j2

/-- Whether an entry has its present bit set. -/
def present (e : Nat) : Bool := e &&& I386_VM_PRESENT != 0

/-! ## findhole -/

/-- One iteration of the scan of `findhole`, lines 180 to 196: the new `curv`,
`freefound` and `freestart`, or `none` when `pt_pt[pde]` is `NULL` although the
directory entry is present. -/
def findhole_scan (pt : pt_t) (curv freefound freestart : Nat) : Option (Nat × Nat × Nat) :=
  let pde := I386_VM_PDE curv
  let pte := I386_VM_PTE curv
  if !present (pt.pt_dir pde) then
    let rempte := I386_VM_PT_ENTRIES - pte
    some (U32 (curv + rempte * I386_PAGE_SIZE), U32 (freefound + rempte), freestart)
  else if pt.pt_pt pde = 0 then
    none
  else if present (pt.pt_tab (pt.pt_pt pde) pte) then
    some (U32 (curv + I386_PAGE_SIZE), 0, U32 (curv + I386_PAGE_SIZE))
  else
    some (U32 (curv + I386_PAGE_SIZE), U32 (freefound + 1), freestart)

/-- The successful exit of `findhole`, lines 199 to 208. -/
def findhole_found (b : Build) (pt : pt_t) (virbytes vmin vmax v : Nat) : Run (Nat × pt_t) :=
  vm_assert b (v != b.NO_MEM) <|
  vm_assert b (decide (v ≥ vmin)) <|
  vm_assert b (decide (v < vmax)) <|
  Run.done (v, { pt with pt_virtop := U32 (v + virbytes) })

/-- The scan loop of `findhole` (lines 178 to 219).  Each unit of `fuel` is one
iteration.  The state of the loop is `curv`, `freefound`, `freestart` and
`try_restart`. -/
def findhole_loop (b : Build) (pt : pt_t) (virbytes vmin vmax freeneeded : Nat) :
    Nat → Nat → Nat → Nat → Bool → Run (Nat × pt_t)
  | 0, curv, _, _, _ =>
    if curv < vmax then Run.fuel_out else Run.done (b.NO_MEM, pt)
  | fuel + 1, curv, freefound, freestart, try_restart =>
    if curv < vmax then
      match findhole_scan pt curv freefound freestart with
      | none => Run.crash
      | some (curv1, freefound1, freestart1) =>
        if freefound1 ≥ freeneeded then
          findhole_found b pt virbytes vmin vmax freestart1
        else if decide (curv1 ≥ vmax) && try_restart then
          findhole_loop b pt virbytes vmin vmax freeneeded fuel vmin freefound1 freestart1 false
        else
          findhole_loop b pt virbytes vmin vmax freeneeded fuel curv1 freefound1 freestart1
            try_restart
    else
      Run.done (b.NO_MEM, pt)

/-- The function `findhole(pt, virbytes, vmin, vmax)`: the result and the page
table afterwards (only the cursor `pt_virtop` can differ). -/
def findhole (b : Build) (fuel : Nat) (pt : pt_t) (virbytes vmin vmax : Nat) :
    Run (Nat × pt_t) :=
  vm_assert b (decide (U32 (vmin + virbytes) ≥ vmin)) <|
  vm_assert b (decide (vmax ≥ U32 (vmin + virbytes))) <|
  vm_assert b (virbytes % I386_PAGE_SIZE == 0) <|
  vm_assert b (vmin % I386_PAGE_SIZE == 0) <|
  vm_assert b (vmax % I386_PAGE_SIZE == 0) <|
  let freeneeded := virbytes / I386_PAGE_SIZE
  if pt.pt_virtop ≥ vmin ∧ pt.pt_virtop ≤ U32 (vmax + 4294967296 - virbytes) then
    findhole_loop b pt virbytes vmin vmax freeneeded fuel pt.pt_virtop 0 pt.pt_virtop true
  else
    findhole_loop b pt virbytes vmin vmax freeneeded fuel vmin 0 vmin false

/-- The leaf entry `pt_pt[pde][pte]` of a table, read through the pointer in
slot `pde`. -/
def pt_t.leaf (pt : pt_t) (pde pte : Nat) : Nat := pt.pt_tab (pt.pt_pt pde) pte

/-- Whether the page at virtual address `a` is unmapped in `pt`: its directory
entry lacks the present bit, or its leaf entry lacks the present bit. -/
def unmapped (pt : pt_t) (a : Nat) : Bool :=
  !present (pt.pt_dir (I386_VM_PDE a)) || !present (pt.leaf (I386_VM_PDE a) (I386_VM_PTE a))

/-! ## The state of the memory manager -/

/-- The global variables of the file and the parts of `vmproc` it uses. -/
structure vm_state where
  /-- The page tables `vmproc[slot].vm_pt`. -/
  vmproc_pt : Nat → pt_t
  /-- Whether `vmp->vm_flags` has `VMF_HASPT`. -/
  vm_haspt : Bool
  /-- Whether `vmproc[VMP_SYSTEM].vm_flags` has `VMF_INUSE`. -/
  system_inuse : Bool
  /-- The field `vmp->vm_stacktop`. -/
  vm_stacktop : Nat
  /-- The field `vmp->vm_arch.vm_data_top`. -/
  vm_data_top : Nat
  /-- The directory slot of the kernel, -1 before `pt_init`. -/
  kernel_pde : Int
  /-- The directory slot of the page-directory table, -1 before `pt_init`. -/
  pagedir_pde : Int
  /-- The directory entry that maps the kernel. -/
  kern_pde_val : Nat
  /-- The directory entry that maps the page directories. -/
  pagedir_pde_val : Nat
  /-- The first directory slot in use by processes. -/
  proc_pde : Int
  /-- Whether the hardware has 4 MiB pages. -/
  bigpage_ok : Bool
  /-- The counter `missing_spares`. -/
  missing_spares : Int
  /-- The fields `sparepages[s].page`; 0 is `NULL`. -/
  spare_page : Nat → Nat
  /-- The fields `sparepages[s].phys`. -/
  spare_phys : Nat → Nat
  /-- The static nesting counter `level` of `vm_allocpages`.  It starts at 0 and
  is decremented only after an increment, so it is a natural number. -/
  level : Nat
  /-- The results of the coming `ALLOC_MEM` calls; `NO_MEM` once used up. -/
  alloc_script : List Nat
  /-- The `ALLOC_MEM` calls that returned a frame: the frame and the count. -/
  alloc_log : List (Nat × Nat)
  /-- The `FREE_MEM` calls made: the frame and the count. -/
  free_log : List (Nat × Nat)

/-- Store a page table in slot `who`. -/
def vm_state.set_pt (st : vm_state) (who : Nat) (pt : pt_t) : vm_state :=
  { st with vmproc_pt := fun j => if j = who then pt else st.vmproc_pt j }

/-- The checks of `pt_sanitycheck`: the directory pointer and its physical
address are set, and from `proc_pde` on a slot has a second-level pointer exactly
when its directory entry is present. -/
def pt_sanitycheck (st : vm_state) (who : Nat) : Bool :=
  let pt := st.vmproc_pt who
  pt.pt_dir_ptr != 0 && pt.pt_dir_phys != 0 &&
    (List.range I386_VM_DIR_ENTRIES).all fun i =>
      decide ((i : Int) < st.proc_pde) ||
        (if pt.pt_pt i != 0 then present (pt.pt_dir i) else !present (pt.pt_dir i))

/-- The macro `PT_SANE(pt)`, followed by the rest of the function. -/
def PT_SANE {α : Type} (b : Build) (st : vm_state) (who : Nat) (k : Run α) : Run α :=
  if b.SANITYCHECKS && !pt_sanitycheck st who then Run.fatal else k

/-! ## The spare pages -/

/-- The loop of `vm_getsparepage` from slot `s` on, `n` slots to go. -/
def vm_getsparepage_loop (b : Build) (st : vm_state) : Nat → Nat → Run (Nat × Nat × vm_state)
  | 0, _ => Run.fatal
  | n + 1, s =>
    if st.spare_page s ≠ 0 then
      let sp := st.spare_page s
      let phys := st.spare_phys s
      let st1 := { st with spare_page := upd st.spare_page s 0
                           missing_spares := st.missing_spares + 1 }
      vm_assert b (decide (st1.missing_spares ≥ 0) && decide (st1.missing_spares ≤ (SPAREPAGES : Int))) <|
      Run.done (sp, phys, st1)
    else
      vm_getsparepage_loop b st n (s + 1)

/-- The function `vm_getsparepage(phys)`: the page, the value stored in `*phys`
and the state afterwards. -/
def vm_getsparepage (b : Build) (st : vm_state) : Run (Nat × Nat × vm_state) :=
  vm_assert b (decide (st.missing_spares ≥ 0) && decide (st.missing_spares ≤ (SPAREPAGES : Int))) <|
  vm_getsparepage_loop b st SPAREPAGES 0

/-! ## The frame allocator -/

/-- The call `ALLOC_MEM(clicks, 0)`: the frame, or `NO_MEM`. -/
def ALLOC_MEM (b : Build) (st : vm_state) (clicks : Nat) : Nat × vm_state :=
  match st.alloc_script with
  | [] => (b.NO_MEM, st)
  | x :: rest =>
    if x = b.NO_MEM then (x, { st with alloc_script := rest })
    else (x, { st with alloc_script := rest, alloc_log := st.alloc_log ++ [(x, clicks)] })

/-- The call `FREE_MEM(frame, clicks)`. -/
def FREE_MEM (st : vm_state) (frame clicks : Nat) : vm_state :=
  { st with free_log := st.free_log ++ [(frame, clicks)] }

/-! ## pt_ptalloc and pt_writemap -/

/-- What `vm_allocpages(phys, pages, reason)` gives back: the pointer (0 is
`NULL`), the value written to `*phys` if any, and the state afterwards. -/
abbrev Allocator : Type := vm_state → Nat → Run (Nat × Option Nat × vm_state)

/-- The table after line 374 of `pt_ptalloc` stored a `NULL` result. -/
def pt_ptalloc_null (pt : pt_t) (pde : Nat) : pt_t :=
  { pt with pt_pt := upd pt.pt_pt pde 0 }

/-- The table after lines 374 to 385 of `pt_ptalloc`: the pointer `ptr` to the
new second-level table is stored in slot `pde`, the 1024 words of the page at
`ptr` are set to zero (the `memset` through the pointer) and the directory
entry is written. -/
def pt_ptalloc_table (pt : pt_t) (pde ptr pt_phys flags : Nat) : pt_t :=
  { pt with
    pt_pt := upd pt.pt_pt pde ptr
    pt_tab := fun p j => if p = ptr ∧ j < I386_VM_PT_ENTRIES then 0 else pt.pt_tab p j
    pt_dir := upd pt.pt_dir pde
      ((pt_phys &&& I386_VM_ADDR_MASK) ||| flags ||| I386_VM_PRESENT ||| I386_VM_USER
        ||| I386_VM_WRITE) }

/-- The function `pt_ptalloc(pt, pde, flags)`, calling `alloc` for
`vm_allocpages`. -/
def pt_ptalloc (b : Build) (alloc : Allocator) (st : vm_state) (who pde flags : Nat) :
    Run (Status × vm_state) :=
  let pt := st.vmproc_pt who
  vm_assert b (decide (pde < I386_VM_DIR_ENTRIES)) <|
  vm_assert b (flags &&& (4294967295 ^^^ b.PTF_ALLFLAGS) == 0) <|
  vm_assert b (!present (pt.pt_dir pde)) <|
  vm_assert b (pt.pt_pt pde == 0) <|
  PT_SANE b st who <|
  (alloc st 1).bind fun r =>
    let st1 := r.2.2
    if r.1 = 0 then
      Run.done (Status.ENOMEM, st1.set_pt who (pt_ptalloc_null (st1.vmproc_pt who) pde))
    else
      let st2 := st1.set_pt who
        (pt_ptalloc_table (st1.vmproc_pt who) pde r.1 (r.2.1.getD 0) flags)
      vm_assert b (present flags) <|
      PT_SANE b st2 who <|
      Run.done (Status.OK, st2)

/-- The first loop of `pt_writemap`, lines 430 to 450: `n` directory slots from
`pde` on. -/
def pt_writemap_tables (b : Build) (alloc : Allocator) (who flags : Nat) :
    Nat → Nat → vm_state → Run (Status × vm_state)
  | 0, _, st => Run.done (Status.OK, st)
  | n + 1, pde, st =>
    let pt := st.vmproc_pt who
    vm_assert b (decide (pde < I386_VM_DIR_ENTRIES)) <|
    if pt.pt_dir pde &&& I386_VM_BIGPAGE ≠ 0 then Run.fatal
    else if !present (pt.pt_dir pde) then
      vm_assert b (pt.pt_dir pde == 0) <|
      (pt_ptalloc b alloc st who pde flags).bind fun r =>
        if r.1 ≠ Status.OK then Run.done (r.1, r.2)
        else
          vm_assert b (present ((r.2.vmproc_pt who).pt_dir pde)) <|
          pt_writemap_tables b alloc who flags n (pde + 1) r.2
    else
      vm_assert b (present (pt.pt_dir pde)) <|
      pt_writemap_tables b alloc who flags n (pde + 1) st

/-- The second loop of `pt_writemap`, lines 455 to 485: `n` pages from `v` on.
The leaf entry is read and written through the pointer `pt_pt[pde]`. -/
def pt_writemap_pages (b : Build) (who flags writemapflags : Nat) :
    Nat → Nat → Nat → vm_state → Run vm_state
  | 0, _, _, st => Run.done st
  | n + 1, v, physaddr, st =>
    let pt := st.vmproc_pt who
    let pde := I386_VM_PDE v
    let pte := I386_VM_PTE v
    PT_SANE b st who <|
    vm_assert b (v % I386_PAGE_SIZE == 0) <|
    vm_assert b (decide (pte < I386_VM_PT_ENTRIES)) <|
    vm_assert b (decide (pde < I386_VM_DIR_ENTRIES)) <|
    vm_assert b (present (pt.pt_dir pde)) <|
    vm_assert b (present (pt.pt_dir pde) && pt.pt_pt pde != 0) <|
    PT_SANE b st who <|
    vm_assert b (!(b.SANITYCHECKS && (writemapflags &&& b.WMF_OVERWRITE == 0))
        || !present (pt.pt_tab (pt.pt_pt pde) pte)) <|
    if pt.pt_pt pde = 0 then Run.crash
    else
      let st1 := st.set_pt who
        { pt with
          pt_tab := upd2 pt.pt_tab (pt.pt_pt pde) pte
            ((physaddr &&& I386_VM_ADDR_MASK) ||| flags) }
      PT_SANE b st1 who <|
      pt_writemap_pages b who flags writemapflags n (U32 (v + I386_PAGE_SIZE))
        (U32 (physaddr + I386_PAGE_SIZE)) st1

/-- The function `pt_writemap(pt, v, physaddr, bytes, flags, writemapflags)`,
calling `alloc` for `vm_allocpages`. -/
def pt_writemap_with (b : Build) (alloc : Allocator) (st : vm_state)
    (who v physaddr bytes flags writemapflags : Nat) : Run (Status × vm_state) :=
  vm_assert b (bytes % I386_PAGE_SIZE == 0) <|
  vm_assert b (flags &&& (4294967295 ^^^ b.PTF_ALLFLAGS) == 0) <|
  let pages := bytes / I386_PAGE_SIZE
  if b.SANITYCHECKS && (physaddr != b.MAP_NONE && !present flags) then Run.fatal
  else if b.SANITYCHECKS && (physaddr == b.MAP_NONE && flags != 0) then Run.fatal
  else
    PT_SANE b st who <|
    let finalpde := I386_VM_PDE (U32 (v + I386_PAGE_SIZE * pages))
    (pt_writemap_tables b alloc who flags (finalpde + 1 - I386_VM_PDE v) (I386_VM_PDE v) st).bind
      fun r =>
        if r.1 ≠ Status.OK then Run.done (r.1, r.2)
        else
          PT_SANE b r.2 who <|
          (pt_writemap_pages b who flags writemapflags pages v physaddr r.2).bind fun st2 =>
            PT_SANE b st2 who <|
            Run.done (Status.OK, st2)

/-! ## vm_allocpages -/

/-- The function `vm_allocpages(phys, pages, reason)` with `d` levels of nesting
available; `fh` is the iteration budget of `findhole`.  The argument `reason`
only feeds an assertion and the write-only array `reasons`; every caller
passes a constant, so it is left out. -/
def vm_allocpages (b : Build) (fh : Nat) : Nat → Allocator
  | 0, _, _ => Run.fuel_out
  | d + 1, st, pages =>
    let bytes := U32 (pages * I386_PAGE_SIZE)
    vm_assert b (decide (pages > 0)) <|
    let st1 := { st with level := st.level + 1 }
    vm_assert b (decide (st1.level ≥ 1)) <|
    vm_assert b (decide (st1.level ≤ 2)) <|
    if st1.level > 1 ∨ st1.vm_haspt = false then
      vm_assert b (decide (pages = 1)) <|
      (vm_getsparepage b st1).bind fun r =>
        Run.done (r.1, some r.2.1, { r.2.2 with level := r.2.2.level - 1 })
    else
      (findhole b fh (st1.vmproc_pt b.VM_PROC_NR) (U32 (I386_PAGE_SIZE * pages))
          (b.arch_vir2map st1.vm_stacktop) st1.vm_data_top).bind fun h =>
        let loc := h.1
        let st2 := st1.set_pt b.VM_PROC_NR h.2
        if loc = b.NO_MEM then
          Run.done (0, none, { st2 with level := st2.level - 1 })
        else
          let a := ALLOC_MEM b st2 pages
          let newpage := a.1
          let st3 := a.2
          if newpage = b.NO_MEM then
            Run.done (0, none, { st3 with level := st3.level - 1 })
          else
            let phys := U32 (newpage * I386_PAGE_SIZE)
            (pt_writemap_with b (vm_allocpages b fh d) st3 b.VM_PROC_NR loc phys bytes
                (I386_VM_PRESENT ||| I386_VM_USER ||| I386_VM_WRITE) 0).bind fun w =>
              if w.1 ≠ Status.OK then
                Run.done (0, some phys, FREE_MEM w.2 newpage (pages / I386_PAGE_SIZE))
              else
                Run.done (b.arch_map2vir loc, some phys, { w.2 with level := w.2.level - 1 })

/-- The function `pt_writemap`. -/
def pt_writemap (b : Build) (fh d : Nat) (st : vm_state)
    (who v physaddr bytes flags writemapflags : Nat) : Run (Status × vm_state) :=
  pt_writemap_with b (vm_allocpages b fh d) st who v physaddr bytes flags writemapflags

/-! ## Creating and destroying page tables -/

/-- The table after lines 809 and 828 of `pt_mapkernel` wrote the directory
entry of the kernel and, if there is one, that of the page directories. -/
def pt_mapkernel_table (st : vm_state) (pt : pt_t) : pt_t :=
  let pt1 : pt_t := { pt with pt_dir := upd pt.pt_dir st.kernel_pde.toNat st.kern_pde_val }
  if st.pagedir_pde ≥ 0 then
    { pt1 with pt_dir := upd pt1.pt_dir st.pagedir_pde.toNat st.pagedir_pde_val }
  else pt1

/-- The function `pt_mapkernel(pt)`. -/
def pt_mapkernel (b : Build) (st : vm_state) (who : Nat) : Run (Status × vm_state) :=
  vm_assert b st.system_inuse <|
  if st.bigpage_ok then
    if st.kernel_pde ≥ 0 then
      Run.done (Status.OK, st.set_pt who (pt_mapkernel_table st (st.vmproc_pt who)))
    else Run.fatal
  else Run.fatal

/-- The table after lines 515 to 521 of `pt_new`: all directory entries zero,
all second-level pointers `NULL`, the cursor at 0. -/
def pt_new_table (pt : pt_t) : pt_t :=
  { pt with
    pt_dir := fun i => if i < I386_VM_DIR_ENTRIES then 0 else pt.pt_dir i
    pt_pt := fun i => if i < I386_VM_DIR_ENTRIES then 0 else pt.pt_pt i
    pt_virtop := 0 }

/-- Lines 515 to 531 of `pt_new`, once the directory is there. -/
def pt_new_clear (b : Build) (st : vm_state) (who : Nat) : Run (Status × vm_state) :=
  let st2 := st.set_pt who (pt_new_table (st.vmproc_pt who))
  PT_SANE b st2 who <|
  (pt_mapkernel b st2 who).bind fun m =>
    if m.1 ≠ Status.OK then Run.fatal
    else
      PT_SANE b m.2 who <|
      Run.done (Status.OK, m.2)

/-- The function `pt_new(pt)`. -/
def pt_new (b : Build) (fh d : Nat) (st : vm_state) (who : Nat) : Run (Status × vm_state) :=
  if (st.vmproc_pt who).pt_dir_ptr = 0 then
    (vm_allocpages b fh d st 1).bind fun r =>
      let pt0 := r.2.2.vmproc_pt who
      let st1 := r.2.2.set_pt who
        { pt0 with pt_dir_ptr := r.1, pt_dir_phys := r.2.1.getD pt0.pt_dir_phys }
      if r.1 = 0 then Run.done (Status.ENOMEM, st1) else pt_new_clear b st1 who
  else pt_new_clear b st who

/-- The function `vm_freepages(vir, phys, pages, reason)`; the assertion on the
constant `reason` is left out. -/
def vm_freepages (b : Build) (fh d : Nat) (st : vm_state) (vir phys pages : Nat) :
    Run vm_state :=
  if vir ≥ st.vm_stacktop then
    vm_assert b (vir % I386_PAGE_SIZE == 0) <|
    vm_assert b (phys % I386_PAGE_SIZE == 0) <|
    let st1 := FREE_MEM st (phys / I386_PAGE_SIZE) pages
    (pt_writemap b fh d st1 b.VM_PROC_NR (b.arch_vir2map vir) b.MAP_NONE
        (U32 (pages * I386_PAGE_SIZE)) 0 b.WMF_OVERWRITE).bind fun w =>
      if w.1 ≠ Status.OK then Run.fatal else Run.done w.2
  else Run.done st

/-- The loop of `pt_free`: `n` directory slots from `i` on. -/
def pt_free_loop (b : Build) (fh d : Nat) (who : Nat) : Nat → Nat → vm_state → Run vm_state
  | 0, _, st => Run.done st
  | n + 1, i, st =>
    let pt := st.vmproc_pt who
    if pt.pt_pt i ≠ 0 then
      (vm_freepages b fh d st (pt.pt_pt i) (I386_VM_PFA (pt.pt_dir i)) 1).bind fun st1 =>
        pt_free_loop b fh d who n (i + 1) st1
    else
      pt_free_loop b fh d who n (i + 1) st

/-- The function `pt_free(pt)`. -/
def pt_free (b : Build) (fh d : Nat) (st : vm_state) (who : Nat) : Run vm_state :=
  PT_SANE b st who <|
  pt_free_loop b fh d who I386_VM_DIR_ENTRIES 0 st

/-! ## Sequences of calls -/

/-- A call of one of the operations on page tables. -/
inductive Call where
  /-- The call `pt_writemap(pt, v, physaddr, bytes, flags, writemapflags)`. -/
  | writemap (who v physaddr bytes flags writemapflags : Nat) : Call
  /-- The call `pt_mapkernel(pt)`. -/
  | mapkernel (who : Nat) : Call
  /-- The call `pt_free(pt)`. -/
  | free (who : Nat) : Call
  /-- The call `findhole(pt, virbytes, vmin, vmax)`. -/
  | findhole (who virbytes vmin vmax : Nat) : Call
  /-- The call `pt_new(pt)`. -/
  | new (who : Nat) : Call

/-- The state after a call, whatever it returned. -/
def Call.run (b : Build) (fh d : Nat) (st : vm_state) : Call → Run vm_state
  | Call.writemap who v physaddr bytes flags writemapflags =>
    (pt_writemap b fh d st who v physaddr bytes flags writemapflags).bind fun r => Run.done r.2
  | Call.mapkernel who => (pt_mapkernel b st who).bind fun r => Run.done r.2
  | Call.free who => pt_free b fh d st who
  | Call.findhole who virbytes vmin vmax =>
    (Minix.findhole b fh (st.vmproc_pt who) virbytes vmin vmax).bind fun r =>
      Run.done (st.set_pt who r.2)
  | Call.new who => (pt_new b fh d st who).bind fun r => Run.done r.2

/-- The state after a sequence of calls. -/
def run_calls (b : Build) (fh d : Nat) : List Call → vm_state → Run vm_state
  | [], st => Run.done st
  | c :: cs, st => (c.run b fh d st).bind fun st1 => run_calls b fh d cs st1

/-- The call ends without reporting "no memory": it returns a value other than
`nm`, or stops the server, or dereferences `NULL`; it does not run forever. -/
def Run.found (nm : Nat) : Run (Nat × pt_t) → Prop
  | Run.done r => r.1 ≠ nm
  | Run.fatal => True
  | Run.crash => True
  | Run.fuel_out => False


/-! ## Concrete builds and tables used in the examples -/

/-- The header values of a MINIX build without checks: `NO_MEM` is click 0,
`MAP_NONE` is `0xFFFFFFFE`, `vm_assert` and `SANITYCHECKS` are compiled out. -/
def Build.release : Build :=
  { NO_MEM := 0, MAP_NONE := 4294967294, WMF_OVERWRITE := 1,
    PTF_ALLFLAGS := 263, SANITYCHECKS := false, vm_assert_on := false,
    VM_PROC_NR := 0, arch_vir2map := fun v => v, arch_map2vir := fun v => v }

/-- The same header values with `vm_assert` and `SANITYCHECKS` compiled in. -/
def Build.strict : Build :=
  { Build.release with SANITYCHECKS := true, vm_assert_on := true }

/-- A table whose directory slot 0 has a second-level table in which pages 2
and 4 (addresses 8192 and 16384) are mapped; the cursor is at 4096. -/
def pt_two_mapped : pt_t :=
  { pt_dir_ptr := 4096
    pt_dir := fun i => if i = 0 then 7 else 0
    pt_pt := fun i => if i = 0 then 8192 else 0
    pt_tab := fun p j => if p = 8192 ∧ (j = 2 ∨ j = 4) then 4097 else 0
    pt_dir_phys := 4096
    pt_virtop := 4096 }

/-- A table with no directory entry present and the cursor at 0. -/
def pt_empty : pt_t :=
  { pt_dir_ptr := 4096
    pt_dir := fun _ => 0
    pt_pt := fun _ => 0
    pt_tab := fun _ _ => 0
    pt_dir_phys := 4096
    pt_virtop := 0 }

/-- The value a call returned, or `dflt` when it did not return. -/
def Run.get {α : Type} (r : Run α) (dflt : α) : α :=
  match r with
  | Run.done a => a
  | _ => dflt

/-- The manager's own table in the examples: directory slot 1 has an empty
second-level table, the window for its heap is [4 MiB, 8 MiB). -/
def pt_manager : pt_t :=
  { pt_dir_ptr := 4096
    pt_dir := fun i => if i = 1 then 7 else 0
    pt_pt := fun i => if i = 1 then 8192 else 0
    pt_tab := fun _ _ => 0
    pt_dir_phys := 4096
    pt_virtop := 0 }

/-- A state after `pt_init`: the manager's table in slot 0, empty tables in the
other slots, the kernel in directory slot 0, five spare pages and a frame
allocator that will hand out the frames 256 and 257. -/
def st_demo : vm_state :=
  { vmproc_pt := fun i => if i = 0 then pt_manager else pt_empty
    vm_haspt := true
    system_inuse := true
    vm_stacktop := 4194304
    vm_data_top := 8388608
    kernel_pde := 0
    pagedir_pde := -1
    kern_pde_val := 135
    pagedir_pde_val := 0
    proc_pde := 1
    bigpage_ok := true
    missing_spares := 0
    spare_page := fun s => if s < 5 then 40960 + 4096 * s else 0
    spare_phys := fun s => if s < 5 then 1048576 + 4096 * s else 0
    level := 0
    alloc_script := [256, 257]
    alloc_log := []
    free_log := [] }

/-! ## Relations between the state before and after a call -/

/-- The build checks both `vm_assert` and the `SANITYCHECKS` blocks. -/
def Build.checks (b : Build) : Prop := b.SANITYCHECKS = true ∧ b.vm_assert_on = true

/-- What every call of `vm_allocpages`, `pt_ptalloc` and `pt_writemap` on the
table `who` keeps: the directory pointers and physical addresses of all tables,
every directory entry that is present together with its second-level pointer,
the tables other than `who` and the manager's own, and the global settings. -/
structure Step (b : Build) (who : Nat) (st st' : vm_state) : Prop where
  /-- Directory pointers and physical addresses are kept. -/
  dirptr : ∀ t, (st'.vmproc_pt t).pt_dir_ptr = (st.vmproc_pt t).pt_dir_ptr
    ∧ (st'.vmproc_pt t).pt_dir_phys = (st.vmproc_pt t).pt_dir_phys
  /-- Present directory entries and their pointers are kept. -/
  stable : ∀ t i, present ((st.vmproc_pt t).pt_dir i) = true →
    (st'.vmproc_pt t).pt_dir i = (st.vmproc_pt t).pt_dir i
      ∧ (st'.vmproc_pt t).pt_pt i = (st.vmproc_pt t).pt_pt i
  /-- Tables other than `who` and the manager's own are kept. -/
  others : ∀ t, t ≠ who → t ≠ b.VM_PROC_NR → st'.vmproc_pt t = st.vmproc_pt t
  /-- The global settings are kept. -/
  globals : st'.vm_haspt = st.vm_haspt ∧ st'.system_inuse = st.system_inuse
    ∧ st'.vm_stacktop = st.vm_stacktop ∧ st'.vm_data_top = st.vm_data_top
    ∧ st'.kernel_pde = st.kernel_pde ∧ st'.pagedir_pde = st.pagedir_pde
    ∧ st'.kern_pde_val = st.kern_pde_val ∧ st'.pagedir_pde_val = st.pagedir_pde_val
    ∧ st'.proc_pde = st.proc_pde ∧ st'.bigpage_ok = st.bigpage_ok

/-- An allocator whose calls keep what `Step` lists (for the manager's table). -/
def AllocStep (b : Build) (alloc : Allocator) : Prop :=
  ∀ st pages r, alloc st pages = Run.done r → Step b b.VM_PROC_NR st r.2.2

/-- What the first loop of `pt_writemap` does to the table it works on, when
that is not the manager's own table: a slot whose directory entry was present
keeps its entry and pointer; a slot whose entry was absent keeps its entry, and
its pointer unless that is set to `NULL`, or gets a present entry and a pointer
to a page of zeros; and a word of a page keeps its value unless it is set to
zero because one of the first 1024 slots, absent before, now points to that
page. -/
def TableGrow (pt pt' : pt_t) : Prop :=
  (∀ i, present (pt.pt_dir i) = true →
      pt'.pt_dir i = pt.pt_dir i ∧ pt'.pt_pt i = pt.pt_pt i)
    ∧ (∀ i, present (pt.pt_dir i) = false →
      (pt'.pt_dir i = pt.pt_dir i ∧ (pt'.pt_pt i = pt.pt_pt i ∨ pt'.pt_pt i = 0))
        ∨ (present (pt'.pt_dir i) = true ∧ pt'.pt_pt i ≠ 0
            ∧ ∀ j, j < 1024 → pt'.pt_tab (pt'.pt_pt i) j = 0))
    ∧ ∀ p j, pt'.pt_tab p j = pt.pt_tab p j
        ∨ (pt'.pt_tab p j = 0
            ∧ ∃ i, i < 1024 ∧ present (pt.pt_dir i) = false
                ∧ present (pt'.pt_dir i) = true ∧ pt'.pt_pt i = p)

/-- Invariant I1 for all 1024 directory slots of the table in slot `t`. -/
def I1_all (st : vm_state) (t : Nat) : Prop :=
  ∀ i : Nat, i < 1024 →
    ((st.vmproc_pt t).pt_pt i ≠ 0 ↔ present ((st.vmproc_pt t).pt_dir i) = true)

/-- How directory slots evolve in a call: a slot keeps its entry, and its pointer
unless the entry is absent and the pointer is set to `NULL`; or an absent entry
becomes present with a pointer that is not `NULL`.  `proc_pde` is kept. -/
def Grow (st st' : vm_state) : Prop :=
  st'.proc_pde = st.proc_pde
    ∧ ∀ t i,
      ((st'.vmproc_pt t).pt_dir i = (st.vmproc_pt t).pt_dir i
          ∧ ((st'.vmproc_pt t).pt_pt i = (st.vmproc_pt t).pt_pt i
            ∨ ((st'.vmproc_pt t).pt_pt i = 0
              ∧ present ((st.vmproc_pt t).pt_dir i) = false)))
        ∨ (present ((st.vmproc_pt t).pt_dir i) = false
          ∧ present ((st'.vmproc_pt t).pt_dir i) = true ∧ (st'.vmproc_pt t).pt_pt i ≠ 0)

/-- The state and status a call returned, or `st` when it did not return. -/
def after (r : Run (Status × vm_state)) (st : vm_state) : vm_state :=
  (Run.get r (Status.OK, st)).2

/-- A mapping, a `pt_free` and a second `pt_new` on the table in slot 1. -/
def demo_calls : List Call :=
  [Call.writemap 1 4259840 5242880 4096 7 0, Call.free 1, Call.new 1]

/-- The example state after `pt_new` on the table in slot 1. -/
def st_new : vm_state := after (pt_new Build.release 8 2 st_demo 1) st_demo

/-- The state after `demo_calls` from `st_new`. -/
def st_later : vm_state := Run.get (run_calls Build.release 8 2 demo_calls st_new) st_demo

/-- A table whose directory slot 0 has a second-level table in which the last
page, 4190208, is mapped; directory slot 1 is absent and the cursor is at 0. -/
def pt_last_page : pt_t :=
  { pt_dir_ptr := 4096
    pt_dir := fun i => if i = 0 then 7 else 0
    pt_pt := fun i => if i = 0 then 8192 else 0
    pt_tab := fun p j => if p = 8192 ∧ j = 1023 then 4097 else 0
    pt_dir_phys := 4096
    pt_virtop := 0 }

/-- A series of top-level `vm_allocpages` calls, one for each page count in the
list, whatever each of them returns. -/
def run_allocs (b : Build) (fh d : Nat) : List Nat → vm_state → Run vm_state
  | [], st => Run.done st
  | pages :: rest, st =>
    (vm_allocpages b fh d st pages).bind fun r => run_allocs b fh d rest r.2.2

/-- The manager's table with the pages 4202496 and 4210688 mapped in the table of
directory slot 1, and the cursor at 4198400. -/
def pt_heap : pt_t :=
  { pt_dir_ptr := 4096
    pt_dir := fun i => if i = 1 then 7 else 0
    pt_pt := fun i => if i = 1 then 8192 else 0
    pt_tab := fun p j => if p = 8192 ∧ (j = 2 ∨ j = 4) then 12582919 else 0
    pt_dir_phys := 4096
    pt_virtop := 4198400 }

/-- The example state with `pt_heap` as the manager's table and the four pages
[4194304, 4210688) as the window for its heap. -/
def st_heap : vm_state :=
  { st_demo with
    vmproc_pt := fun i => if i = 0 then pt_heap else pt_empty
    vm_data_top := 4210688 }

/-- What `pt_free` is to pass to `FREE_MEM` for the slots `i`, ..., `i + n - 1` of
a table: for every slot whose second-level pointer is set and not below
`stacktop`, the frame of its directory entry, with count 1. -/
def pt_free_frames (pt : pt_t) (stacktop : Nat) : Nat → Nat → List (Nat × Nat)
  | 0, _ => []
  | n + 1, i =>
    (if pt.pt_pt i ≠ 0 ∧ pt.pt_pt i ≥ stacktop then
        [(I386_VM_PFA (pt.pt_dir i) / I386_PAGE_SIZE, 1)]
      else []) ++ pt_free_frames pt stacktop n (i + 1)

/-- A table in slot 1 whose directory slot 1 points to a second-level table in
a spare page, at 40960 and so below the manager's stack top. -/
def pt_spare_table : pt_t :=
  { pt_dir_ptr := 4096
    pt_dir := fun i => if i = 1 then 1048583 else 0
    pt_pt := fun i => if i = 1 then 40960 else 0
    pt_tab := fun _ _ => 0
    pt_dir_phys := 4096
    pt_virtop := 0 }

/-- The example state with `pt_spare_table` in slot 1. -/
def st_spare_table : vm_state :=
  { st_demo with vmproc_pt := fun i => if i = 0 then pt_manager else pt_spare_table }

/-- The state after mapping the page 4259840 in the new table of slot 1, which
gets a second-level table for directory slot 1 from `vm_allocpages`. -/
def st_table : vm_state :=
  after (pt_writemap Build.release 8 2 st_new 1 4259840 5242880 4096 7 0) st_new

/-! ## Refilling the spare pages -/

/-- The loop of `vm_checkspares` from slot `s` on, `n` slots to go.  The result
of `vm_allocpages` is stored in `sparepages[s].page` as it comes, `NULL`
included; `sparepages[s].phys` is what the call wrote through its first
argument.  The counters `n`, `worst` and `total` are only statistics and are
left out. -/
def vm_checkspares_loop (b : Build) (fh d : Nat) : Nat → Nat → vm_state → Run vm_state
  | 0, _, st => Run.done st
  | n + 1, s, st =>
    if st.missing_spares > 0 then
      if st.spare_page s = 0 then
        (vm_allocpages b fh d st 1).bind fun r =>
          let st1 := { r.2.2 with
            spare_page := upd r.2.2.spare_page s r.1
            spare_phys := match r.2.1 with
              | some p => upd r.2.2.spare_phys s p
              | none => r.2.2.spare_phys
            missing_spares := r.2.2.missing_spares - 1 }
          vm_assert b (decide (st1.missing_spares ≥ 0)
              && decide (st1.missing_spares ≤ (SPAREPAGES : Int))) <|
          vm_checkspares_loop b fh d n (s + 1) st1
      else
        vm_checkspares_loop b fh d n (s + 1) st
    else Run.done st

/-- The function `vm_checkspares()`. -/
def vm_checkspares (b : Build) (fh d : Nat) (st : vm_state) : Run vm_state :=
  vm_assert b (decide (st.missing_spares ≥ 0)
      && decide (st.missing_spares ≤ (SPAREPAGES : Int))) <|
  vm_checkspares_loop b fh d SPAREPAGES 0 st

/-- The function `pt_cycle()`. -/
def pt_cycle (b : Build) (fh d : Nat) (st : vm_state) : Run vm_state :=
  vm_checkspares b fh d st

/-- A series of `n` calls of `vm_getsparepage`. -/
def take_spares (b : Build) : Nat → vm_state → Run vm_state
  | 0, st => Run.done st
  | n + 1, st => (vm_getsparepage b st).bind fun r => take_spares b n r.2.2

/-- The example state with a frame allocator that has no frame left. -/
def st_no_frames : vm_state := { st_demo with alloc_script := [] }

/-- The manager's table of the examples with the cursor at the last page but
one of directory slot 1. -/
def pt_manager_top : pt_t := { pt_manager with pt_virtop := 8380416 }

/-- The example state with `pt_manager_top` as the manager's table and
[4 MiB, 12 MiB) as the window for its heap; directory slot 2 has no table. -/
def st_boundary : vm_state :=
  { st_demo with
    vmproc_pt := fun i => if i = 0 then pt_manager_top else pt_empty
    vm_data_top := 12582912 }

/-- The state `st_no_frames` after one spare page has been taken. -/
def st_one_taken : vm_state :=
  Run.get (take_spares Build.release 1 st_no_frames) st_no_frames

/-- The state `st_boundary` after two spare pages have been taken. -/
def st_two_taken : vm_state :=
  Run.get (take_spares Build.release 2 st_boundary) st_boundary

/-- The example state with [4 MiB, 12 MiB) as the window for the manager's heap
and the cursor of the manager's table at 8384512, the last page of directory
slot 1; directory slots 2 and 3 have no table. -/
def st_last : vm_state :=
  { st_demo with
    vmproc_pt := fun i => if i = 0 then { pt_manager with pt_virtop := 8384512 } else pt_empty
    vm_data_top := 12582912 }

/-! ## pt_bind -/

/-- The fields of `struct vmproc` that `pt_bind` reads. -/
structure vmproc where
  /-- Whether `vm_flags` has `VMF_INUSE`. -/
  vm_inuse : Bool
  /-- The field `vm_slot`, an `int`. -/
  vm_slot : Int
  /-- The field `vm_endpoint`. -/
  vm_endpoint : Int

/-- The state that `pt_bind` works on: the state of the file, the array
`page_directories` and the kernel calls `sys_vmctl(ep, VMCTL_I386_SETCR3, root)`. -/
structure bind_state where
  /-- The page tables and the other globals. -/
  vm : vm_state
  /-- The pointer `page_directories`; 0 is `NULL`, its value before `pt_init`. -/
  page_directories_ptr : Nat
  /-- The 1024 words of the page `page_directories` points to. -/
  page_directories : Nat → Nat
  /-- The `VMCTL_I386_SETCR3` calls made: the endpoint and the root. -/
  setcr3_log : List (Int × Nat)
  /-- What the kernel answers to such a call. -/
  setcr3_answer : Int → Nat → Int

/-- The function `pt_bind(pt, who)`.  The table `pt` is given by its slot, or is
`NULL`; `nprocs` is `ELEMENTS(vmproc)`.  A store through a `NULL`
`page_directories` or outside its page is a crash. -/
def pt_bind (b : Build) (nprocs : Nat) (ks : bind_state) (pt : Option Nat)
    (who : Option vmproc) : Run (Int × bind_state) :=
  match who with
  | none => vm_assert b false Run.crash
  | some w =>
    vm_assert b w.vm_inuse <|
    match pt with
    | none => vm_assert b false Run.crash
    | some t =>
      PT_SANE b ks.vm t <|
      let slot := w.vm_slot
      vm_assert b (decide (slot ≥ 0)) <|
      vm_assert b (decide (slot < (nprocs : Int))) <|
      vm_assert b (decide (slot < (I386_VM_PT_ENTRIES : Int))) <|
      let phys := (ks.vm.vmproc_pt t).pt_dir_phys &&& I386_VM_ADDR_MASK
      vm_assert b ((ks.vm.vmproc_pt t).pt_dir_phys == phys) <|
      if ks.page_directories_ptr = 0 ∨ slot < 0 ∨ slot ≥ (I386_VM_PT_ENTRIES : Int) then Run.crash
      else
        Run.done (ks.setcr3_answer w.vm_endpoint (ks.vm.vmproc_pt t).pt_dir_phys,
          { ks with
            page_directories := upd ks.page_directories slot.toNat
              (phys ||| I386_VM_PRESENT ||| I386_VM_WRITE)
            setcr3_log := ks.setcr3_log
              ++ [(w.vm_endpoint, (ks.vm.vmproc_pt t).pt_dir_phys)] })

/-- The example state after `pt_init`, with an empty registry at 61440 and a
kernel that answers `OK` (0). -/
def ks_demo : bind_state :=
  { vm := st_demo
    page_directories_ptr := 61440
    page_directories := fun _ => 0
    setcr3_log := []
    setcr3_answer := fun _ _ => 0 }

/-- A live process in slot 3. -/
def who_demo : vmproc := { vm_inuse := true, vm_slot := 3, vm_endpoint := 71 }

/-! ## The window on physical memory -/

/-- The constant `PHYSMAGIC`. -/
def PHYSMAGIC : Nat := 2073691536

/-- The state that `phys_writeaddr` and `phys_readaddr` work on: the state of
the file, the window (`varmap`, `varmap_loc`, `ismapped`), physical memory and
the kernel calls `sys_vmctl(SELF, VMCTL_I386_INVLPG, page)`.  Physical memory
is given by the 32-bit word at each address; accesses are taken to be aligned
to 4 bytes.  Page tables are kept in `vm`, not in `mem`. -/
structure win_state where
  /-- The page tables and the other globals. -/
  vm : vm_state
  /-- The pointer `varmap`; 0 is `NULL`. -/
  varmap : Nat
  /-- The offset `varmap_loc` of the window in the manager's page table. -/
  varmap_loc : Nat
  /-- The static `ismapped`, initially `MAP_NONE`. -/
  ismapped : Nat
  /-- Physical memory. -/
  mem : Nat → Nat
  /-- The `VMCTL_I386_INVLPG` calls made. -/
  invlpg_log : List Nat
  /-- What the kernel answers to such a call; 0 is `OK`. -/
  invlpg_answer : Nat → Int

/-- The physical address behind `varmap + o`, as the processor finds it in the
manager's page table for the offset `varmap_loc + o`; `none` is a page fault.
Protection bits are not looked at. -/
def win_translate (b : Build) (ps : win_state) (o : Nat) : Option Nat :=
  let a := U32 (ps.varmap_loc + o)
  let pt := ps.vm.vmproc_pt b.VM_PROC_NR
  let de := pt.pt_dir (I386_VM_PDE a)
  if !present de then none
  else if de &&& I386_VM_BIGPAGE ≠ 0 then some ((de &&& 4290772992) + a % 4194304)
  else
    let e := pt.leaf (I386_VM_PDE a) (I386_VM_PTE a)
    if pt.pt_pt (I386_VM_PDE a) = 0 ∨ !present e then none
    else some (I386_VM_PFA e + a % I386_PAGE_SIZE)

/-- Reading `PHYS_VAL(o)`. -/
def PHYS_VAL_get (b : Build) (ps : win_state) (o : Nat) : Run Nat :=
  match win_translate b ps o with
  | none => Run.crash
  | some p => Run.done (ps.mem p)

/-- The assignment `PHYS_VAL(o) = x`. -/
def PHYS_VAL_set (b : Build) (ps : win_state) (o x : Nat) : Run win_state :=
  match win_translate b ps o with
  | none => Run.crash
  | some p => Run.done { ps with mem := upd ps.mem p x }

/-- The macro `PHYS_MAP(a, o)`: the offset `o` and the state afterwards. -/
def PHYS_MAP (b : Build) (fh d : Nat) (ps : win_state) (a : Nat) : Run (Nat × win_state) :=
  vm_assert b (ps.varmap != 0) <|
  let o := a % I386_PAGE_SIZE
  let wantmapped := a - o
  if wantmapped ≠ ps.ismapped ∨ ps.ismapped = b.MAP_NONE then
    (pt_writemap b fh d ps.vm b.VM_PROC_NR ps.varmap_loc wantmapped I386_PAGE_SIZE
        (I386_VM_PRESENT ||| I386_VM_USER ||| I386_VM_WRITE)
        (if b.SANITYCHECKS then 0 else b.WMF_OVERWRITE)).bind fun r =>
      if r.1 ≠ Status.OK then Run.fatal
      else if ps.invlpg_answer ps.varmap_loc ≠ 0 then Run.fatal
      else Run.done (o, { ps with
        vm := r.2
        ismapped := wantmapped
        invlpg_log := ps.invlpg_log ++ [ps.varmap_loc] })
  else Run.done (o, ps)

/-- The macro `PHYS_UNMAP` of the build with `SANITYCHECKS`. -/
def PHYS_UNMAP (b : Build) (fh d : Nat) (ps : win_state) : Run win_state :=
  (pt_writemap b fh d ps.vm b.VM_PROC_NR ps.varmap_loc b.MAP_NONE I386_PAGE_SIZE 0
      b.WMF_OVERWRITE).bind fun r =>
    if r.1 ≠ Status.OK then Run.fatal
    else Run.done { ps with vm := r.2, ismapped := b.MAP_NONE }

/-- The function `phys_writeaddr(addr, v1, v2)`; `sizeof(phys_bytes)` is 4.  The
calls `SANITYCHECK(SCL_DETAIL)` of the checking build, which only inspect the
state, are left out. -/
def phys_writeaddr (b : Build) (fh d : Nat) (ps : win_state) (addr v1 v2 : Nat) :
    Run win_state :=
  (PHYS_MAP b fh d ps addr).bind fun m =>
  (PHYS_VAL_set b m.2 m.1 v1).bind fun ps1 =>
  (PHYS_VAL_set b ps1 (m.1 + 4) v2).bind fun ps2 =>
  if b.SANITYCHECKS then
    (PHYS_VAL_set b ps2 (m.1 + 2 * 4) PHYSMAGIC).bind fun ps3 =>
    PHYS_UNMAP b fh d ps3
  else Run.done ps2

/-- The function `phys_readaddr(addr, v1, v2)`: the values stored in `*v1` and
`*v2` and the state afterwards.  The `vm_assert` on the magic word reads memory
only when it is compiled in. -/
def phys_readaddr (b : Build) (fh d : Nat) (ps : win_state) (addr : Nat) :
    Run (Nat × Nat × win_state) :=
  (PHYS_MAP b fh d ps addr).bind fun m =>
  (PHYS_VAL_get b m.2 m.1).bind fun v1 =>
  (PHYS_VAL_get b m.2 (m.1 + 4)).bind fun v2 =>
  if b.SANITYCHECKS then
    (if b.vm_assert_on then PHYS_VAL_get b m.2 (m.1 + 2 * 4) else Run.done PHYSMAGIC).bind
      fun magic =>
        vm_assert b (magic == PHYSMAGIC) <|
        (PHYS_UNMAP b fh d m.2).bind fun ps1 => Run.done (v1, v2, ps1)
  else Run.done (v1, v2, m.2)

/-- An access through the window. -/
inductive Access where
  /-- The call `phys_writeaddr(addr, v1, v2)`. -/
  | write (addr v1 v2 : Nat)
  /-- The call `phys_readaddr(addr, &v1, &v2)`. -/
  | read (addr : Nat)

/-- The address of an access. -/
def Access.addr : Access → Nat
  | Access.write a _ _ => a
  | Access.read a => a

/-- Run one access, dropping what a read returns. -/
def Access.run (b : Build) (fh d : Nat) (ps : win_state) : Access → Run win_state
  | Access.write a v1 v2 => phys_writeaddr b fh d ps a v1 v2
  | Access.read a => (phys_readaddr b fh d ps a).bind fun r => Run.done r.2.2

/-- A table whose directory slot 0 has a second-level table with all 1024 pages
mapped, and no other second-level table. -/
def pt_low_mapped : pt_t :=
  { pt_dir_ptr := 4096
    pt_dir := fun i => if i = 0 then 7 else 0
    pt_pt := fun i => if i = 0 then 8192 else 0
    pt_tab := fun p _ => if p = 8192 then 7 else 0
    pt_dir_phys := 4096
    pt_virtop := 0 }

/-- A table with second-level tables in the directory slots 0 and 1022 only:
page 0 and the last page of slot 1022, 4290768896, are mapped; slot 1023, the
last, has no table. -/
def pt_top_gap : pt_t :=
  { pt_dir_ptr := 4096
    pt_dir := fun i => if i = 0 ∨ i = 1022 then 7 else 0
    pt_pt := fun i => if i = 0 then 8192 else if i = 1022 then 12288 else 0
    pt_tab := fun p j => if (p = 8192 ∧ j = 0) ∨ (p = 12288 ∧ j = 1023) then 7 else 0
    pt_dir_phys := 4096
    pt_virtop := 0 }

/-- The number of slots of `sparepages` whose page is `NULL`. -/
def empty_spares (st : vm_state) : Nat :=
  ((List.range SPAREPAGES).filter fun s => decide (st.spare_page s = 0)).length

/-- A call that works on the spare pages. -/
inductive SpareCall where
  /-- The call `vm_getsparepage(&phys)`. -/
  | take
  /-- The call `vm_checkspares()`. -/
  | check

/-- Run one call on the spare pages, dropping what `vm_getsparepage` returns. -/
def SpareCall.run (b : Build) (fh d : Nat) (st : vm_state) : SpareCall → Run vm_state
  | SpareCall.take => (vm_getsparepage b st).bind fun r => Run.done r.2.2
  | SpareCall.check => vm_checkspares b fh d st

/-- Run a list of calls on the spare pages in order. -/
def run_spare_calls (b : Build) (fh d : Nat) : List SpareCall → vm_state → Run vm_state
  | [], st => Run.done st
  | c :: rest, st => (SpareCall.run b fh d st c).bind fun st1 => run_spare_calls b fh d rest st1

/-- The example state with a frame allocator that is out of memory once and has
the frames 256 and 257 after that. -/
def st_flaky : vm_state := { st_demo with alloc_script := [0, 256, 257] }

/-- What `vm_getsparepage` and `vm_allocpages` keep of the spare pages: the
counter does not go down, and it moves together with the number of empty
slots. -/
def SparesKept (m0 c : Int) (st : vm_state) : Prop :=
  m0 ≤ st.missing_spares ∧ st.missing_spares - (empty_spares st : Int) = c

/-- The example state after all five spare pages have been taken: every slot of
the pool is empty and `missing_spares` is 5. -/
def st_no_spares : vm_state := Run.get (take_spares Build.strict 5 st_demo) st_demo

/-- A table whose directory slot 1 has a second-level table in which the pages
4202496 and 4206592, the last two of the window [4194304, 4210688), are mapped
and the first two are free; the cursor is at 4202496. -/
def pt_tail_mapped : pt_t :=
  { pt_dir_ptr := 4096
    pt_dir := fun i => if i = 1 then 7 else 0
    pt_pt := fun i => if i = 1 then 8192 else 0
    pt_tab := fun p j => if p = 8192 ∧ (j = 2 ∨ j = 3) then 12582919 else 0
    pt_dir_phys := 4096
    pt_virtop := 4202496 }

/-- The example state with the one page [4194304, 4198400) as the window for the
manager's heap and a frame allocator that will hand out 256, 257 and 258. -/
def st_small : vm_state :=
  { st_demo with vm_data_top := 4198400, alloc_script := [256, 257, 258] }

/-- The state after the page 4194304 has been mapped in the table of slot 1,
which got a second-level table for directory slot 1 at 4194304, and that table
has been freed with `pt_free`. -/
def st_freed : vm_state :=
  Run.get (run_calls Build.release 8 2
    [Call.writemap 1 4194304 5242880 4096 7 0, Call.free 1] st_small) st_small

/-- The state after the page 8388608, in directory slot 2, has then been mapped
in the table of slot 1. -/
def st_shared : vm_state :=
  after (pt_writemap Build.release 8 2 st_freed 1 8388608 6291456 4096 7 0) st_freed

/-! ## Theorems about findhole -/

/-- C1 (the code at a failing input): in the window [0, 16384) with the cursor
at 4096 and page 8192 mapped, `findhole` for two pages scans 4096 (free), 8192
(mapped), 12288 (free), wraps around to 0 without resetting the free count and
returns 12288: the two pages starting there end at 20480, beyond `vmax`, and
the second one, 16384, is mapped.  Both builds do so; no assertion fires. -/
theorem findhole_wrap_returns_mapped_range :
    findhole Build.strict 8 pt_two_mapped 8192 0 16384
        = Run.done (12288, { pt_two_mapped with pt_virtop := 20480 })
      ∧ findhole Build.release 8 pt_two_mapped 8192 0 16384
        = Run.done (12288, { pt_two_mapped with pt_virtop := 20480 })
      ∧ (12288 : Nat) ≠ Build.strict.NO_MEM
      ∧ ¬ (12288 + 8192 ≤ 16384)
      ∧ unmapped pt_two_mapped (12288 + 4096) = false :=
  ⟨rfl, rfl, by decide, by decide, by decide⟩

/-- The four ways one scan iteration can go, with the indices written as
quotients of the page number. -/
theorem findhole_scan_cases (pt : pt_t) (curv ff fs : Nat) :
    findhole_scan pt curv ff fs = none
    ∨ (present (pt.pt_dir (curv / 4096 / 1024)) = false
        ∧ findhole_scan pt curv ff fs
          = some (U32 (curv + (1024 - curv / 4096 % 1024) * 4096),
                  U32 (ff + (1024 - curv / 4096 % 1024)), fs))
    ∨ (present (pt.pt_dir (curv / 4096 / 1024)) = true
        ∧ present (pt.leaf (curv / 4096 / 1024) (curv / 4096 % 1024)) = true
        ∧ findhole_scan pt curv ff fs = some (U32 (curv + 4096), 0, U32 (curv + 4096)))
    ∨ (present (pt.leaf (curv / 4096 / 1024) (curv / 4096 % 1024)) = false
        ∧ findhole_scan pt curv ff fs = some (U32 (curv + 4096), U32 (ff + 1), fs)) := by
  have hpde : I386_VM_PDE curv = curv / 4096 / 1024 := by
    unfold I386_VM_PDE; rw [Nat.div_div_eq_div_mul]
  unfold findhole_scan pt_t.leaf
  simp only [hpde, I386_VM_PTE, I386_VM_PT_ENTRIES, I386_PAGE_SIZE]
  cases hd : present (pt.pt_dir (curv / 4096 / 1024))
  · right; left; simp
  · by_cases hp : pt.pt_pt (curv / 4096 / 1024) = 0
    · left; simp [hp]
    · cases ht : present (pt.pt_tab (pt.pt_pt (curv / 4096 / 1024)) (curv / 4096 % 1024))
      · right; right; right; simp [hp]
      · right; right; left; simp [hp]

/-- The successful exit never yields the "no memory" value when assertions are
checked or the start of the run differs from it. -/
theorem findhole_found_found (b : Build) (pt : pt_t) (virbytes vmin vmax v : Nat)
    (h : b.vm_assert_on = true ∨ v ≠ b.NO_MEM) :
    Run.found b.NO_MEM (findhole_found b pt virbytes vmin vmax v) := by
  unfold findhole_found vm_assert
  cases ha : b.vm_assert_on
  · have hv : v ≠ b.NO_MEM := by
      rcases h with h | h
      · rw [ha] at h; cases h
      · exact h
    simpa [Run.found] using hv
  · by_cases hv : v = b.NO_MEM
    · simp [hv, Run.found]
    · by_cases h1 : v ≥ vmin <;> by_cases h2 : v < vmax <;> simp [hv, h1, h2, Run.found]

/-- A page number inside a hole is unmapped. -/
theorem unmapped_hole_page (pt : pt_t) (s n p : Nat) (hs4 : s % 4096 = 0)
    (hfree : ∀ i, i < n → unmapped pt (s + 4096 * i) = true)
    (h1 : s / 4096 ≤ p) (h2 : p < s / 4096 + n) :
    present (pt.pt_dir (p / 1024)) = false ∨ present (pt.leaf (p / 1024) (p % 1024)) = false := by
  have h := hfree (p - s / 4096) (by omega)
  have ha : s + 4096 * (p - s / 4096) = 4096 * p := by omega
  rw [ha] at h
  have hpde : I386_VM_PDE (4096 * p) = p / 1024 := by unfold I386_VM_PDE; omega
  have hpte : I386_VM_PTE (4096 * p) = p % 1024 := by unfold I386_VM_PTE; omega
  unfold unmapped at h
  rw [hpde, hpte] at h
  simpa using h

/-- Once the scan position is at or before a hole and the free count covers
the part of the hole already passed, the scan ends at or before the end of the
hole without reporting "no memory". -/
theorem findhole_loop_good (b : Build) (pt : pt_t) (virbytes vmin vmax s n : Nat)
    (hs4 : s % 4096 = 0) (hend : s + n * 4096 ≤ vmax) (hvmax : vmax + 4096 ≤ 4294967296)
    (hfree : ∀ i, i < n → unmapped pt (s + 4096 * i) = true)
    (fuel : Nat) : ∀ (curv ff fs : Nat) (tr : Bool),
      curv / 4096 < s / 4096 + n → curv / 4096 ≤ ff + s / 4096 → ff < n →
      (b.vm_assert_on = true ∨ (b.NO_MEM = 0 ∧ 0 < fs)) →
      s / 4096 + n - curv / 4096 ≤ fuel →
      Run.found b.NO_MEM (findhole_loop b pt virbytes vmin vmax n fuel curv ff fs tr) := by
  induction fuel with
  | zero => intro curv ff fs tr hp _ _ _ hfuel; omega
  | succ fuel ih =>
    intro curv ff fs tr hp hff hffn hfs hfuel
    have hcv : curv < vmax := by omega
    have hret : ∀ v, (b.vm_assert_on = true ∨ (b.NO_MEM = 0 ∧ 0 < v)) →
        Run.found b.NO_MEM (findhole_found b pt virbytes vmin vmax v) := by
      intro v hv
      apply findhole_found_found
      rcases hv with hv | hv
      · exact Or.inl hv
      · right; omega
    unfold findhole_loop
    rw [if_pos hcv]
    rcases findhole_scan_cases pt curv ff fs with h | ⟨hd, h⟩ | ⟨hd, ht, h⟩ | ⟨ht, h⟩
    · rw [h]; trivial
    · rw [h]
      have hf1 : U32 (ff + (1024 - curv / 4096 % 1024)) = ff + (1024 - curv / 4096 % 1024) := by
        unfold U32; omega
      simp only [hf1]
      by_cases hge : ff + (1024 - curv / 4096 % 1024) ≥ n
      · rw [if_pos hge]; exact hret fs hfs
      · rw [if_neg hge]
        have hc1 : U32 (curv + (1024 - curv / 4096 % 1024) * 4096)
            = curv + (1024 - curv / 4096 % 1024) * 4096 := by
          unfold U32; omega
        rw [hc1]
        have hlt : ¬ (curv + (1024 - curv / 4096 % 1024) * 4096 ≥ vmax) := by omega
        simp only [hlt, decide_False, Bool.false_and]
        apply ih
        · omega
        · omega
        · omega
        · exact hfs
        · omega
    · rw [h]
      have hlow : curv / 4096 < s / 4096 := by
        by_contra hc
        rcases unmapped_hole_page pt s n (curv / 4096) hs4 hfree (by omega) hp with h1 | h1
        · rw [hd] at h1; cases h1
        · rw [ht] at h1; cases h1
      have hc1 : U32 (curv + 4096) = curv + 4096 := by unfold U32; omega
      simp only [hc1]
      rw [if_neg (by omega)]
      have hlt : ¬ (curv + 4096 ≥ vmax) := by omega
      simp only [hlt, decide_False, Bool.false_and]
      apply ih
      · omega
      · omega
      · omega
      · rcases hfs with hfs | hfs
        · exact Or.inl hfs
        · right; omega
      · omega
    · rw [h]
      have hf1 : U32 (ff + 1) = ff + 1 := by unfold U32; omega
      have hc1 : U32 (curv + 4096) = curv + 4096 := by unfold U32; omega
      simp only [hf1, hc1]
      by_cases hge : ff + 1 ≥ n
      · rw [if_pos hge]; exact hret fs hfs
      · rw [if_neg hge]
        have hlt : ¬ (curv + 4096 ≥ vmax) := by omega
        simp only [hlt, decide_False, Bool.false_and]
        apply ih
        · omega
        · omega
        · omega
        · exact hfs
        · omega

/-- While the retry is still available the scan either succeeds, or reaches
`vmax` and restarts at `vmin`, from where the hole is found. -/
theorem findhole_loop_pre (b : Build) (pt : pt_t) (virbytes vmin vmax s n : Nat)
    (hs4 : s % 4096 = 0) (hend : s + n * 4096 ≤ vmax) (hvmax : vmax + 4096 ≤ 4294967296)
    (hvmin : vmin ≤ s)
    (hfree : ∀ i, i < n → unmapped pt (s + 4096 * i) = true)
    (fuel : Nat) : ∀ (curv ff fs : Nat),
      curv < vmax → ff < n →
      (b.vm_assert_on = true ∨ (b.NO_MEM = 0 ∧ 0 < fs)) →
      1048576 + (1048576 - curv / 4096) ≤ fuel →
      Run.found b.NO_MEM (findhole_loop b pt virbytes vmin vmax n fuel curv ff fs true) := by
  induction fuel with
  | zero => intro curv ff fs _ _ _ hfuel; omega
  | succ fuel ih =>
    intro curv ff fs hcv hffn hfs hfuel
    have hgood := findhole_loop_good b pt virbytes vmin vmax s n hs4 hend hvmax hfree fuel
    have hret : ∀ v, (b.vm_assert_on = true ∨ (b.NO_MEM = 0 ∧ 0 < v)) →
        Run.found b.NO_MEM (findhole_found b pt virbytes vmin vmax v) := by
      intro v hv
      apply findhole_found_found
      rcases hv with hv | hv
      · exact Or.inl hv
      · right; omega
    -- what happens after one scan step that did not crash
    have hnext : ∀ c1 f1 s1, (b.vm_assert_on = true ∨ (b.NO_MEM = 0 ∧ 0 < s1)) →
        (curv / 4096 < c1 / 4096 ∨ c1 / 4096 ≤ s / 4096) →
        Run.found b.NO_MEM
          (if f1 ≥ n then findhole_found b pt virbytes vmin vmax s1
           else if (decide (c1 ≥ vmax) && true) = true then
             findhole_loop b pt virbytes vmin vmax n fuel vmin f1 s1 false
           else findhole_loop b pt virbytes vmin vmax n fuel c1 f1 s1 true) := by
      intro c1 f1 s1 hs1 hc1
      by_cases hge : f1 ≥ n
      · rw [if_pos hge]; exact hret s1 hs1
      · rw [if_neg hge]
        by_cases hv : c1 ≥ vmax
        · simp only [hv, decide_True, Bool.and_self, if_true]
          apply hgood
          · omega
          · omega
          · omega
          · exact hs1
          · omega
        · simp only [hv, decide_False, Bool.false_and]
          rw [if_neg (by simp)]
          rcases hc1 with hc1 | hc1
          · apply ih
            · omega
            · omega
            · exact hs1
            · omega
          · apply hgood
            · omega
            · omega
            · omega
            · exact hs1
            · omega
    unfold findhole_loop
    rw [if_pos hcv]
    have hfs1 : b.vm_assert_on = true ∨ (b.NO_MEM = 0 ∧ 0 < U32 (curv + 4096)) := by
      rcases hfs with hfs | hfs
      · exact Or.inl hfs
      · right; unfold U32; omega
    rcases findhole_scan_cases pt curv ff fs with h | ⟨_, h⟩ | ⟨_, _, h⟩ | ⟨_, h⟩
    · rw [h]; trivial
    · rw [h]
      apply hnext _ _ _ hfs
      unfold U32; omega
    · rw [h]
      apply hnext _ _ _ hfs1
      unfold U32; omega
    · rw [h]
      apply hnext _ _ _ hfs
      unfold U32; omega

/-- Completeness of `findhole` in terms of `Run.found`. -/
theorem findhole_complete_aux (b : Build) (pt : pt_t) (virbytes vmin vmax s fuel : Nat)
    (hnov : vmin + virbytes < 4294967296) (hfit : vmin + virbytes ≤ vmax)
    (hvb : virbytes % 4096 = 0) (hvmin4 : vmin % 4096 = 0) (hvmax4 : vmax % 4096 = 0)
    (hvmax32 : vmax < 4294967296) (hpos : 0 < virbytes)
    (hs4 : s % 4096 = 0) (hlo : vmin ≤ s) (hhi : s + virbytes ≤ vmax)
    (hfree : ∀ i, i < virbytes / 4096 → unmapped pt (s + 4096 * i) = true)
    (hnm : b.vm_assert_on = true ∨ (b.NO_MEM = 0 ∧ 0 < vmin))
    (hfuel : 2097152 ≤ fuel) :
    Run.found b.NO_MEM (findhole b fuel pt virbytes vmin vmax) := by
  have hu1 : U32 (vmin + virbytes) = vmin + virbytes := by unfold U32; omega
  have hu2 : U32 (vmax + 4294967296 - virbytes) = vmax - virbytes := by unfold U32; omega
  unfold findhole vm_assert
  simp only [hu1, hu2, I386_PAGE_SIZE]
  have e1 : decide (vmin + virbytes ≥ vmin) = true := by simp
  have e2 : decide (vmax ≥ vmin + virbytes) = true := by simpa using hfit
  have e3 : (virbytes % 4096 == 0) = true := by simp [hvb]
  have e4 : (vmin % 4096 == 0) = true := by simp [hvmin4]
  have e5 : (vmax % 4096 == 0) = true := by simp [hvmax4]
  simp only [e1, e2, e3, e4, e5, Bool.not_true, Bool.and_false, Bool.false_eq_true, if_false]
  have hend : s + virbytes / 4096 * 4096 ≤ vmax := by omega
  have hvmax : vmax + 4096 ≤ 4294967296 := by omega
  split
  · rename_i hc
    apply findhole_loop_pre b pt virbytes vmin vmax s (virbytes / 4096) hs4 hend hvmax hlo hfree
    · omega
    · omega
    · rcases hnm with h | h
      · exact Or.inl h
      · right; omega
    · omega
  · apply findhole_loop_good b pt virbytes vmin vmax s (virbytes / 4096) hs4 hend hvmax hfree
    · omega
    · omega
    · omega
    · exact hnm
    · omega

/-- Every page of the empty table is unmapped. -/
theorem unmapped_pt_empty (a : Nat) : unmapped pt_empty a = true := by
  simp [unmapped, pt_empty, present]

/-- C2 (counterexample): with `NO_MEM` = 0 and assertions compiled out, the one-page
window [0, 4096) of an empty table has a hole at offset 0, and `findhole`
returns 0, which is `NO_MEM`. -/
theorem findhole_hole_at_zero_is_no_mem :
    (0 % 4096 = 0 ∧ 0 + 4096 ≤ 4096 ∧ unmapped pt_empty 0 = true)
      ∧ findhole Build.release 8 pt_empty 4096 0 4096
        = Run.done (Build.release.NO_MEM, { pt_empty with pt_virtop := 4096 }) :=
  ⟨⟨by decide, by decide, by decide⟩, rfl⟩

/-- A passed `vm_assert` is followed by the rest of the function. -/
theorem vm_assert_done {α : Type} (b : Build) (c : Bool) (k : Run α) (x : α)
    (h : vm_assert b c k = Run.done x) : k = Run.done x := by
  unfold vm_assert at h
  split at h
  · cases h
  · exact h

/-- A passed `PT_SANE` is followed by the rest of the function. -/
theorem PT_SANE_done {α : Type} (b : Build) (st : vm_state) (who : Nat) (k : Run α) (x : α)
    (h : PT_SANE b st who k = Run.done x) : k = Run.done x := by
  unfold PT_SANE at h
  split at h
  · cases h
  · exact h

/-- A sequence of two calls returns only if both do. -/
theorem Run.bind_done {α β : Type} (r : Run α) (f : α → Run β) (x : β)
    (h : r.bind f = Run.done x) : ∃ a, r = Run.done a ∧ f a = Run.done x := by
  cases r with
  | done a => exact ⟨a, rfl, h⟩
  | fatal => cases h
  | crash => cases h
  | fuel_out => cases h

/-- One iteration of the write loop that is followed by a return: the second-level
pointer was not `NULL` and the entry was written. -/
theorem pt_writemap_pages_succ (b : Build) (who flags wmf n v pa : Nat) (st st' : vm_state)
    (h : pt_writemap_pages b who flags wmf (n + 1) v pa st = Run.done st') :
    (st.vmproc_pt who).pt_pt (I386_VM_PDE v) ≠ 0
      ∧ pt_writemap_pages b who flags wmf n (U32 (v + 4096)) (U32 (pa + 4096))
          (st.set_pt who { st.vmproc_pt who with
            pt_tab := upd2 (st.vmproc_pt who).pt_tab ((st.vmproc_pt who).pt_pt (I386_VM_PDE v))
              (I386_VM_PTE v) ((pa &&& I386_VM_ADDR_MASK) ||| flags) }) = Run.done st' := by
  unfold pt_writemap_pages at h
  have h1 := PT_SANE_done _ _ _ _ _ h
  have h2 := vm_assert_done _ _ _ _ h1
  have h3 := vm_assert_done _ _ _ _ h2
  have h4 := vm_assert_done _ _ _ _ h3
  have h5 := vm_assert_done _ _ _ _ h4
  have h6 := vm_assert_done _ _ _ _ h5
  have h7 := PT_SANE_done _ _ _ _ _ h6
  have h8 := vm_assert_done _ _ _ _ h7
  split at h8
  · cases h8
  · rename_i hne
    exact ⟨hne, PT_SANE_done _ _ _ _ _ h8⟩

/-- Reading the slot just stored. -/
@[simp] theorem set_pt_get (st : vm_state) (who : Nat) (pt : pt_t) :
    (st.set_pt who pt).vmproc_pt who = pt := by
  simp [vm_state.set_pt]

/-- Reading another slot. -/
theorem set_pt_get_ne (st : vm_state) (who t : Nat) (pt : pt_t) (h : t ≠ who) :
    (st.set_pt who pt).vmproc_pt t = st.vmproc_pt t := by
  simp [vm_state.set_pt, h]

/-- Storing twice in one slot. -/
@[simp] theorem set_pt_set_pt (st : vm_state) (who : Nat) (p q : pt_t) :
    (st.set_pt who p).set_pt who q = st.set_pt who q := by
  unfold vm_state.set_pt
  congr 1
  funext j
  by_cases h : j = who <;> simp [h]

/-- Storing what is already there. -/
theorem set_pt_self (st : vm_state) (who : Nat) : st.set_pt who (st.vmproc_pt who) = st := by
  cases st
  unfold vm_state.set_pt
  congr 1
  funext j
  by_cases h : j = who <;> simp [h]

/-- The directory and leaf index of an address below `2^32` determine its page number. -/
theorem pde_pte_inj (a c : Nat)
    (h1 : I386_VM_PDE a = I386_VM_PDE c) (h2 : I386_VM_PTE a = I386_VM_PTE c) :
    a / 4096 = c / 4096 := by
  unfold I386_VM_PDE at h1
  unfold I386_VM_PTE at h2
  omega

/-- The address mask does not see the wrap to 32 bits. -/
theorem and_mask_u32 (x : Nat) : U32 x &&& I386_VM_ADDR_MASK = x &&& I386_VM_ADDR_MASK := by
  unfold U32 I386_VM_ADDR_MASK
  have h : x % 4294967296 = x &&& (2 ^ 32 - 1) := (Nat.and_pow_two_sub_one_eq_mod x 32).symm
  rw [show (4294967296 : Nat) = 2 ^ 32 by norm_num] at *
  rw [h, Nat.and_assoc]
  congr 1

/-- The write loop: it changes only words of the pages that the second-level
pointers of the table `who` refer to.  A word that is not the leaf entry of a
page of the range, read through the pointer of its slot, keeps its value; a
word that is holds what was written for one of the pages it is the leaf entry
of; and the leaf entry of a page of the range holds what was written for that
page unless a later page of the range has its leaf entry in the same word
(which takes two slots with the same pointer). -/
theorem pt_writemap_pages_spec (b : Build) (who flags wmf : Nat) (n : Nat) :
    ∀ (v pa : Nat) (st st' : vm_state), v < 4294967296 → n ≤ 1048576 →
      pt_writemap_pages b who flags wmf n v pa st = Run.done st' →
      ∃ tab, st' = st.set_pt who { st.vmproc_pt who with pt_tab := tab }
        ∧ (∀ i, i < n →
            (∀ k, i < k → k < n →
              ¬ ((st.vmproc_pt who).pt_pt (I386_VM_PDE (U32 (v + 4096 * k)))
                    = (st.vmproc_pt who).pt_pt (I386_VM_PDE (U32 (v + 4096 * i)))
                  ∧ I386_VM_PTE (U32 (v + 4096 * k)) = I386_VM_PTE (U32 (v + 4096 * i)))) →
            tab ((st.vmproc_pt who).pt_pt (I386_VM_PDE (U32 (v + 4096 * i))))
                (I386_VM_PTE (U32 (v + 4096 * i)))
              = ((pa + 4096 * i) &&& I386_VM_ADDR_MASK) ||| flags)
        ∧ (∀ p j,
            ((∀ i, i < n →
                ¬ (p = (st.vmproc_pt who).pt_pt (I386_VM_PDE (U32 (v + 4096 * i)))
                  ∧ j = I386_VM_PTE (U32 (v + 4096 * i))))
              ∧ tab p j = (st.vmproc_pt who).pt_tab p j)
            ∨ ∃ i, i < n ∧ p = (st.vmproc_pt who).pt_pt (I386_VM_PDE (U32 (v + 4096 * i)))
                ∧ j = I386_VM_PTE (U32 (v + 4096 * i))
                ∧ tab p j = ((pa + 4096 * i) &&& I386_VM_ADDR_MASK) ||| flags)
        ∧ (∀ i, i < n → (st.vmproc_pt who).pt_pt (I386_VM_PDE (U32 (v + 4096 * i))) ≠ 0) := by
  induction n with
  | zero =>
    intro v pa st st' _ _ h
    unfold pt_writemap_pages at h
    cases h
    refine ⟨(st.vmproc_pt who).pt_tab, ?_, ?_, ?_, ?_⟩
    · exact (set_pt_self st who).symm
    · intro i hi; omega
    · intro _ _; left; exact ⟨fun i hi => by omega, rfl⟩
    · intro i hi; omega
  | succ n ih =>
    intro v pa st st' hv hn h
    obtain ⟨hne, h⟩ := pt_writemap_pages_succ b who flags wmf n v pa st st' h
    have hv1 : U32 (v + 4096) < 4294967296 := by unfold U32; omega
    obtain ⟨tab, hst, hpost, hall, hnn⟩ := ih _ _ _ _ hv1 (by omega) h
    simp only [set_pt_get] at hpost hall hnn
    have hshift : ∀ i, U32 (U32 (v + 4096) + 4096 * i) = U32 (v + 4096 * (i + 1)) := by
      intro i; unfold U32; omega
    have hval : ∀ i, (U32 (pa + 4096) + 4096 * i) &&& I386_VM_ADDR_MASK
        = (pa + 4096 * (i + 1)) &&& I386_VM_ADDR_MASK := by
      intro i
      have e1 : U32 (U32 (pa + 4096) + 4096 * i) = U32 (pa + 4096 * (i + 1)) := by
        unfold U32; omega
      rw [← and_mask_u32 (U32 (pa + 4096) + 4096 * i), ← and_mask_u32 (pa + 4096 * (i + 1)), e1]
    have h0 : U32 (v + 4096 * 0) = v := by unfold U32; omega
    refine ⟨tab, ?_, ?_, ?_, ?_⟩
    · rw [hst]; simp
    · intro i hi hlater
      cases i with
      | zero =>
        rw [h0]
        rcases hall ((st.vmproc_pt who).pt_pt (I386_VM_PDE v)) (I386_VM_PTE v) with
          ⟨_, e⟩ | ⟨k, hk, e1, e2, _⟩
        · rw [e]; simp [upd2]
        · exfalso
          rw [hshift] at e1 e2
          have := hlater (k + 1) (by omega) (by omega)
          rw [h0] at this
          exact this ⟨e1.symm, e2.symm⟩
      | succ i =>
        have := hpost i (by omega) (by
          intro k hik hkn
          have := hlater (k + 1) (by omega) (by omega)
          rw [hshift, hshift]
          exact this)
        rw [hshift, hval] at this
        exact this
    · intro p j
      rcases hall p j with ⟨hno, e⟩ | ⟨k, hk, e1, e2, e3⟩
      · by_cases hc : p = (st.vmproc_pt who).pt_pt (I386_VM_PDE v) ∧ j = I386_VM_PTE v
        · right
          refine ⟨0, by omega, ?_, ?_, ?_⟩
          · rw [h0]; exact hc.1
          · rw [h0]; exact hc.2
          · rw [e]; simp [upd2, hc]
        · left
          refine ⟨?_, by rw [e]; simp only [upd2]; rw [if_neg hc]⟩
          intro i hi
          cases i with
          | zero => rw [h0]; exact hc
          | succ i =>
            have := hno i (by omega)
            rw [hshift] at this
            exact this
      · right
        rw [hshift] at e1 e2
        rw [hval] at e3
        exact ⟨k + 1, by omega, e1, e2, e3⟩
    · intro i hi
      cases i with
      | zero => rw [h0]; exact hne
      | succ i =>
        have := hnn i (by omega)
        rw [hshift] at this
        exact this

/-- A returning `pt_writemap` is its first loop followed, on `OK`, by its second. -/
theorem pt_writemap_with_done (b : Build) (alloc : Allocator) (st st' : vm_state)
    (who v pa bytes flags wmf : Nat) (s : Status)
    (h : pt_writemap_with b alloc st who v pa bytes flags wmf = Run.done (s, st')) :
    ∃ r, pt_writemap_tables b alloc who flags
          (I386_VM_PDE (U32 (v + 4096 * (bytes / 4096))) + 1 - I386_VM_PDE v) (I386_VM_PDE v) st
          = Run.done r
      ∧ ((r.1 ≠ Status.OK ∧ s = r.1 ∧ st' = r.2)
        ∨ (r.1 = Status.OK ∧ s = Status.OK
            ∧ pt_writemap_pages b who flags wmf (bytes / 4096) v pa r.2 = Run.done st')) := by
  unfold pt_writemap_with at h
  have h1 := vm_assert_done _ _ _ _ h
  have h2 := vm_assert_done _ _ _ _ h1
  split at h2
  · cases h2
  · split at h2
    · cases h2
    · have h3 := PT_SANE_done _ _ _ _ _ h2
      obtain ⟨r, hr, h4⟩ := Run.bind_done _ _ _ h3
      refine ⟨r, hr, ?_⟩
      split at h4
      · rename_i hne
        left
        cases h4
        exact ⟨hne, rfl, rfl⟩
      · rename_i heq
        right
        have h5 := PT_SANE_done _ _ _ _ _ h4
        obtain ⟨st2, hp, h6⟩ := Run.bind_done _ _ _ h5
        have h7 := PT_SANE_done _ _ _ _ _ h6
        cases h7
        exact ⟨by simpa using heq, rfl, hp⟩

/-- A `vm_assert` that is compiled out or holds does nothing. -/
theorem vm_assert_pass {α : Type} (b : Build) (c : Bool) (k : Run α)
    (h : b.vm_assert_on = false ∨ c = true) : vm_assert b c k = k := by
  unfold vm_assert
  rcases h with h | h <;> simp [h]

/-- The search of `vm_getsparepage` stops at the lowest non-empty slot. -/
theorem vm_getsparepage_loop_take (b : Build) (st : vm_state)
    (hinv : b.vm_assert_on = false ∨ (0 ≤ st.missing_spares ∧ st.missing_spares < 5))
    (n : Nat) : ∀ (s k : Nat), s ≤ k → k < s + n → st.spare_page k ≠ 0 →
      (∀ j, s ≤ j → j < k → st.spare_page j = 0) →
      vm_getsparepage_loop b st n s
        = Run.done (st.spare_page k, st.spare_phys k,
            { st with spare_page := upd st.spare_page k 0
                      missing_spares := st.missing_spares + 1 }) := by
  induction n with
  | zero => intro s k h1 h2; omega
  | succ n ih =>
    intro s k h1 h2 hne hmin
    unfold vm_getsparepage_loop
    by_cases hs : s = k
    · subst hs
      rw [if_pos hne]
      apply vm_assert_pass
      rcases hinv with h | h
      · exact Or.inl h
      · right
        simp only [SPAREPAGES, Bool.and_eq_true, decide_eq_true_eq]
        constructor <;> omega
    · rw [if_neg (by simpa using hmin s (le_refl s) (by omega))]
      exact ih (s + 1) k (by omega) (by omega) hne (fun j hj1 hj2 => hmin j (by omega) hj2)

/-- The search of `vm_getsparepage` over empty slots ends in the panic. -/
theorem vm_getsparepage_loop_empty (b : Build) (st : vm_state) (n : Nat) :
    ∀ s, (∀ j, s ≤ j → j < s + n → st.spare_page j = 0) →
      vm_getsparepage_loop b st n s = Run.fatal := by
  induction n with
  | zero => intro s _; rfl
  | succ n ih =>
    intro s h
    unfold vm_getsparepage_loop
    rw [if_neg (by simpa using h s (le_refl s) (by omega))]
    exact ih (s + 1) (fun j hj1 hj2 => h j (by omega) (by omega))

/-- In a range of slots that is not all empty there is a lowest non-empty slot. -/
theorem lowest_spare (page : Nat → Nat) (n : Nat) :
    ∀ s, (∃ j, s ≤ j ∧ j < s + n ∧ page j ≠ 0) →
      ∃ k, s ≤ k ∧ k < s + n ∧ page k ≠ 0 ∧ ∀ j, s ≤ j → j < k → page j = 0 := by
  induction n with
  | zero => intro s ⟨j, h1, h2, _⟩; omega
  | succ n ih =>
    intro s ⟨j, h1, h2, h3⟩
    by_cases hs : page s = 0
    · have hj : s + 1 ≤ j := by
        rcases Nat.eq_or_lt_of_le h1 with e | e
        · subst e; exact absurd hs h3
        · exact e
      obtain ⟨k, k1, k2, k3, k4⟩ := ih (s + 1) ⟨j, hj, by omega, h3⟩
      refine ⟨k, by omega, by omega, k3, ?_⟩
      intro i i1 i2
      rcases Nat.eq_or_lt_of_le i1 with e | e
      · subst e; exact hs
      · exact k4 i e i2
    · exact ⟨s, le_refl s, by omega, hs, fun i i1 i2 => by omega⟩

theorem step_refl (b : Build) (who : Nat) (st : vm_state) : Step b who st st :=
  ⟨fun _ => ⟨rfl, rfl⟩, fun _ _ _ => ⟨rfl, rfl⟩, fun _ _ _ => rfl,
    ⟨rfl, rfl, rfl, rfl, rfl, rfl, rfl, rfl, rfl, rfl⟩⟩

theorem step_trans {b : Build} {who : Nat} {s1 s2 s3 : vm_state}
    (h1 : Step b who s1 s2) (h2 : Step b who s2 s3) : Step b who s1 s3 := by
  refine ⟨?_, ?_, ?_, ?_⟩
  · intro t
    exact ⟨(h2.dirptr t).1.trans (h1.dirptr t).1, (h2.dirptr t).2.trans (h1.dirptr t).2⟩
  · intro t i hp
    have a := h1.stable t i hp
    have hp2 : present ((s2.vmproc_pt t).pt_dir i) = true := by rw [a.1]; exact hp
    have c := h2.stable t i hp2
    exact ⟨c.1.trans a.1, c.2.trans a.2⟩
  · intro t ht hv
    rw [h2.others t ht hv, h1.others t ht hv]
  · obtain ⟨a1, a2, a3, a4, a5, a6, a7, a8, a9, a10⟩ := h1.globals
    obtain ⟨c1, c2, c3, c4, c5, c6, c7, c8, c9, c10⟩ := h2.globals
    exact ⟨c1.trans a1, c2.trans a2, c3.trans a3, c4.trans a4, c5.trans a5, c6.trans a6,
      c7.trans a7, c8.trans a8, c9.trans a9, c10.trans a10⟩

/-- A step of the allocator is a step of a call on any table. -/
theorem step_of_alloc {b : Build} {st st' : vm_state} (who : Nat)
    (h : Step b b.VM_PROC_NR st st') : Step b who st st' :=
  ⟨h.dirptr, h.stable, fun t _ hv => h.others t hv hv, h.globals⟩

/-- Replacing a table by one with the same directory, pointers and addresses
is a step. -/
theorem step_set_pt (b : Build) (who : Nat) (st : vm_state) (pt : pt_t)
    (h1 : pt.pt_dir_ptr = (st.vmproc_pt who).pt_dir_ptr)
    (h2 : pt.pt_dir_phys = (st.vmproc_pt who).pt_dir_phys)
    (h3 : ∀ i, present ((st.vmproc_pt who).pt_dir i) = true →
      pt.pt_dir i = (st.vmproc_pt who).pt_dir i ∧ pt.pt_pt i = (st.vmproc_pt who).pt_pt i) :
    Step b who st (st.set_pt who pt) := by
  refine ⟨?_, ?_, ?_, ⟨rfl, rfl, rfl, rfl, rfl, rfl, rfl, rfl, rfl, rfl⟩⟩
  · intro t
    by_cases ht : t = who
    · subst ht; simp [h1, h2]
    · rw [set_pt_get_ne _ _ _ _ ht]; exact ⟨rfl, rfl⟩
  · intro t i hp
    by_cases ht : t = who
    · subst ht; simpa using h3 i hp
    · rw [set_pt_get_ne _ _ _ _ ht]; exact ⟨rfl, rfl⟩
  · intro t ht _
    exact set_pt_get_ne _ _ _ _ ht

theorem vm_assert_cond {α : Type} (b : Build) (c : Bool) (k : Run α) (x : α)
    (h : vm_assert b c k = Run.done x) (hon : b.vm_assert_on = true) : c = true := by
  unfold vm_assert at h
  cases hc : c
  · simp [hon, hc] at h
  · rfl

theorem pt_writemap_pages_checked (b : Build) (who flags wmf n v pa : Nat) (st st' : vm_state)
    (h : pt_writemap_pages b who flags wmf (n + 1) v pa st = Run.done st')
    (hc : b.checks) (hw : wmf &&& b.WMF_OVERWRITE = 0) :
    present ((st.vmproc_pt who).leaf (I386_VM_PDE v) (I386_VM_PTE v)) = false := by
  unfold pt_writemap_pages at h
  have h1 := PT_SANE_done _ _ _ _ _ h
  have h2 := vm_assert_done _ _ _ _ h1
  have h3 := vm_assert_done _ _ _ _ h2
  have h4 := vm_assert_done _ _ _ _ h3
  have h5 := vm_assert_done _ _ _ _ h4
  have h6 := vm_assert_done _ _ _ _ h5
  have h7 := PT_SANE_done _ _ _ _ _ h6
  have h8 := vm_assert_cond _ _ _ _ h7 hc.2
  simpa [hc.1, hw, pt_t.leaf] using h8

theorem pt_writemap_pages_step (b : Build) (who flags wmf : Nat) (n : Nat) :
    ∀ (v pa : Nat) (st st' : vm_state),
      pt_writemap_pages b who flags wmf n v pa st = Run.done st' → Step b who st st' := by
  induction n with
  | zero =>
    intro v pa st st' h
    unfold pt_writemap_pages at h
    cases h
    exact step_refl b who st
  | succ n ih =>
    intro v pa st st' h
    obtain ⟨_, h2⟩ := pt_writemap_pages_succ b who flags wmf n v pa st st' h
    refine step_trans ?_ (ih _ _ _ _ h2)
    apply step_set_pt
    · rfl
    · rfl
    · intro i _; exact ⟨rfl, rfl⟩

/-- After a step, changing only one directory slot of `who` that was absent at
the start is again a step. -/
theorem step_then_slot {b : Build} {who : Nat} {st st1 : vm_state} (pt : pt_t)
    (pde : Nat) (h : Step b who st st1)
    (habs : present ((st.vmproc_pt who).pt_dir pde) = false)
    (h1 : pt.pt_dir_ptr = (st1.vmproc_pt who).pt_dir_ptr)
    (h2 : pt.pt_dir_phys = (st1.vmproc_pt who).pt_dir_phys)
    (h3 : ∀ i, i ≠ pde → pt.pt_dir i = (st1.vmproc_pt who).pt_dir i
      ∧ pt.pt_pt i = (st1.vmproc_pt who).pt_pt i) :
    Step b who st (st1.set_pt who pt) := by
  have hne : ∀ i, present ((st.vmproc_pt who).pt_dir i) = true → i ≠ pde := by
    intro i hp he
    rw [he, habs] at hp
    cases hp
  refine ⟨?_, ?_, ?_, h.globals⟩
  · intro t
    by_cases ht : t = who
    · subst ht
      simp only [set_pt_get, h1, h2]
      exact h.dirptr t
    · rw [set_pt_get_ne _ _ _ _ ht]; exact h.dirptr t
  · intro t i hp
    by_cases ht : t = who
    · subst ht
      simp only [set_pt_get]
      have := h3 i (hne i hp)
      rw [this.1, this.2]
      exact h.stable t i hp
    · rw [set_pt_get_ne _ _ _ _ ht]; exact h.stable t i hp
  · intro t ht hv
    rw [set_pt_get_ne _ _ _ _ ht]; exact h.others t ht hv

theorem pt_ptalloc_done (b : Build) (alloc : Allocator) (st : vm_state) (who pde flags : Nat)
    (r : Status × vm_state) (h : pt_ptalloc b alloc st who pde flags = Run.done r) :
    ∃ a, alloc st 1 = Run.done a
      ∧ ((a.1 = 0 ∧ r = (Status.ENOMEM,
            a.2.2.set_pt who (pt_ptalloc_null (a.2.2.vmproc_pt who) pde)))
        ∨ (a.1 ≠ 0 ∧ r = (Status.OK,
            a.2.2.set_pt who (pt_ptalloc_table (a.2.2.vmproc_pt who) pde a.1 (a.2.1.getD 0) flags))
            ∧ (b.vm_assert_on = true → present flags = true))) := by
  unfold pt_ptalloc at h
  have h1 := vm_assert_done _ _ _ _ h
  have h2 := vm_assert_done _ _ _ _ h1
  have h3 := vm_assert_done _ _ _ _ h2
  have h4 := vm_assert_done _ _ _ _ h3
  have h5 := PT_SANE_done _ _ _ _ _ h4
  obtain ⟨a, hal, h6⟩ := Run.bind_done _ _ _ h5
  refine ⟨a, hal, ?_⟩
  split at h6
  · rename_i h0
    left
    cases h6
    exact ⟨h0, rfl⟩
  · rename_i h0
    right
    have hf := vm_assert_cond _ _ _ _ h6
    have h7 := vm_assert_done _ _ _ _ h6
    have h8 := PT_SANE_done _ _ _ _ _ h7
    cases h8
    exact ⟨h0, rfl, hf⟩

theorem pt_ptalloc_step (b : Build) (alloc : Allocator) (ha : AllocStep b alloc)
    (st : vm_state) (who pde flags : Nat) (r : Status × vm_state)
    (habs : present ((st.vmproc_pt who).pt_dir pde) = false)
    (h : pt_ptalloc b alloc st who pde flags = Run.done r) : Step b who st r.2 := by
  obtain ⟨a, hal, h2⟩ := pt_ptalloc_done b alloc st who pde flags r h
  have hs : Step b who st a.2.2 := step_of_alloc who (ha st 1 a hal)
  rcases h2 with ⟨_, hr⟩ | ⟨_, hr, _⟩
  · rw [hr]
    refine step_then_slot (pt_ptalloc_null (a.2.2.vmproc_pt who) pde) pde hs habs rfl rfl ?_
    intro i hi
    simp [pt_ptalloc_null, upd, hi]
  · rw [hr]
    refine step_then_slot (pt_ptalloc_table (a.2.2.vmproc_pt who) pde a.1 (a.2.1.getD 0) flags)
      pde hs habs rfl rfl ?_
    intro i hi
    simp [pt_ptalloc_table, upd, hi]

theorem pt_writemap_tables_step (b : Build) (alloc : Allocator) (ha : AllocStep b alloc)
    (who flags : Nat) (n : Nat) :
    ∀ (pde : Nat) (st : vm_state) (r : Status × vm_state),
      pt_writemap_tables b alloc who flags n pde st = Run.done r → Step b who st r.2 := by
  induction n with
  | zero =>
    intro pde st r h
    unfold pt_writemap_tables at h
    cases h
    exact step_refl b who st
  | succ n ih =>
    intro pde st r h
    unfold pt_writemap_tables at h
    have h1 := vm_assert_done _ _ _ _ h
    split at h1
    · cases h1
    · split at h1
      · rename_i hnp
        have habs : present ((st.vmproc_pt who).pt_dir pde) = false := by simpa using hnp
        have h2 := vm_assert_done _ _ _ _ h1
        obtain ⟨a, hal, h3⟩ := Run.bind_done _ _ _ h2
        have hs := pt_ptalloc_step b alloc ha st who pde flags a habs hal
        split at h3
        · cases h3; exact hs
        · have h4 := vm_assert_done _ _ _ _ h3
          exact step_trans hs (ih _ _ _ h4)
      · have h2 := vm_assert_done _ _ _ _ h1
        exact ih _ _ _ h2

theorem pt_writemap_with_step (b : Build) (alloc : Allocator) (ha : AllocStep b alloc)
    (st : vm_state) (who v pa bytes flags wmf : Nat) (r : Status × vm_state)
    (h : pt_writemap_with b alloc st who v pa bytes flags wmf = Run.done r) :
    Step b who st r.2 := by
  obtain ⟨a, ht, h2⟩ := pt_writemap_with_done b alloc st r.2 who v pa bytes flags wmf r.1 h
  have hs := pt_writemap_tables_step b alloc ha who flags _ _ _ _ ht
  rcases h2 with ⟨_, _, he⟩ | ⟨_, _, hp⟩
  · rw [he]; exact hs
  · exact step_trans hs (pt_writemap_pages_step b who flags wmf _ _ _ _ _ hp)

theorem findhole_found_frame (b : Build) (pt : pt_t) (vb vmin vmax v : Nat) (r : Nat × pt_t)
    (h : findhole_found b pt vb vmin vmax v = Run.done r) :
    r = (v, { pt with pt_virtop := U32 (v + vb) })
      ∧ (b.vm_assert_on = true → v ≠ b.NO_MEM ∧ vmin ≤ v ∧ v < vmax) := by
  unfold findhole_found at h
  have c1 := vm_assert_cond _ _ _ _ h
  have h1 := vm_assert_done _ _ _ _ h
  have c2 := vm_assert_cond _ _ _ _ h1
  have h2 := vm_assert_done _ _ _ _ h1
  have c3 := vm_assert_cond _ _ _ _ h2
  have h3 := vm_assert_done _ _ _ _ h2
  cases h3
  refine ⟨rfl, fun hon => ?_⟩
  have := c1 hon
  have := c2 hon
  have := c3 hon
  simp_all

theorem findhole_loop_frame (b : Build) (pt : pt_t) (vb vmin vmax n : Nat) (fuel : Nat) :
    ∀ (curv ff fs : Nat) (tr : Bool) (r : Nat × pt_t),
      findhole_loop b pt vb vmin vmax n fuel curv ff fs tr = Run.done r →
      r = (b.NO_MEM, pt) ∨ r = (r.1, { pt with pt_virtop := U32 (r.1 + vb) }) := by
  induction fuel with
  | zero =>
    intro curv ff fs tr r h
    unfold findhole_loop at h
    split at h
    · cases h
    · cases h; exact Or.inl rfl
  | succ fuel ih =>
    intro curv ff fs tr r h
    unfold findhole_loop at h
    split at h
    · split at h
      · cases h
      · split at h
        · right
          have := (findhole_found_frame _ _ _ _ _ _ _ h).1
          rw [this]
        · split at h
          · exact ih _ _ _ _ _ h
          · exact ih _ _ _ _ _ h
    · cases h; exact Or.inl rfl

theorem findhole_frame (b : Build) (fuel : Nat) (pt : pt_t) (vb vmin vmax : Nat) (r : Nat × pt_t)
    (h : findhole b fuel pt vb vmin vmax = Run.done r) :
    r = (b.NO_MEM, pt) ∨ r = (r.1, { pt with pt_virtop := U32 (r.1 + vb) }) := by
  unfold findhole at h
  have h1 := vm_assert_done _ _ _ _ h
  have h2 := vm_assert_done _ _ _ _ h1
  have h3 := vm_assert_done _ _ _ _ h2
  have h4 := vm_assert_done _ _ _ _ h3
  have h5 := vm_assert_done _ _ _ _ h4
  split at h5
  · exact findhole_loop_frame _ _ _ _ _ _ _ _ _ _ _ _ h5
  · exact findhole_loop_frame _ _ _ _ _ _ _ _ _ _ _ _ h5

/-- The table `findhole` returns has the directory, pointers, leaf entries and
addresses of the table it was given. -/
theorem findhole_same_table (b : Build) (fuel : Nat) (pt : pt_t) (vb vmin vmax : Nat)
    (r : Nat × pt_t) (h : findhole b fuel pt vb vmin vmax = Run.done r) :
    r.2.pt_dir_ptr = pt.pt_dir_ptr ∧ r.2.pt_dir_phys = pt.pt_dir_phys ∧ r.2.pt_dir = pt.pt_dir
      ∧ r.2.pt_pt = pt.pt_pt ∧ r.2.pt_tab = pt.pt_tab := by
  rcases findhole_frame b fuel pt vb vmin vmax r h with e | e
  · rw [e]; exact ⟨rfl, rfl, rfl, rfl, rfl⟩
  · rw [e]; exact ⟨rfl, rfl, rfl, rfl, rfl⟩

theorem vm_getsparepage_loop_done (b : Build) (st : vm_state) (n : Nat) :
    ∀ (s : Nat) (r : Nat × Nat × vm_state), vm_getsparepage_loop b st n s = Run.done r →
      ∃ k, st.spare_page k ≠ 0
        ∧ r = (st.spare_page k, st.spare_phys k,
            { st with spare_page := upd st.spare_page k 0
                      missing_spares := st.missing_spares + 1 }) := by
  induction n with
  | zero => intro s r h; unfold vm_getsparepage_loop at h; cases h
  | succ n ih =>
    intro s r h
    unfold vm_getsparepage_loop at h
    split at h
    · rename_i hne
      have h1 := vm_assert_done _ _ _ _ h
      cases h1
      exact ⟨s, hne, rfl⟩
    · exact ih _ _ h

theorem vm_getsparepage_done (b : Build) (st : vm_state) (r : Nat × Nat × vm_state)
    (h : vm_getsparepage b st = Run.done r) :
    ∃ k, st.spare_page k ≠ 0
      ∧ r = (st.spare_page k, st.spare_phys k,
          { st with spare_page := upd st.spare_page k 0
                    missing_spares := st.missing_spares + 1 }) := by
  unfold vm_getsparepage at h
  exact vm_getsparepage_loop_done b st _ _ _ (vm_assert_done _ _ _ _ h)

/-- A state with the same tables and global settings is a step away. -/
theorem step_of_same (b : Build) (who : Nat) (st st' : vm_state)
    (h1 : st'.vmproc_pt = st.vmproc_pt)
    (h2 : st'.vm_haspt = st.vm_haspt ∧ st'.system_inuse = st.system_inuse
      ∧ st'.vm_stacktop = st.vm_stacktop ∧ st'.vm_data_top = st.vm_data_top
      ∧ st'.kernel_pde = st.kernel_pde ∧ st'.pagedir_pde = st.pagedir_pde
      ∧ st'.kern_pde_val = st.kern_pde_val ∧ st'.pagedir_pde_val = st.pagedir_pde_val
      ∧ st'.proc_pde = st.proc_pde ∧ st'.bigpage_ok = st.bigpage_ok) :
    Step b who st st' := by
  refine ⟨?_, ?_, ?_, h2⟩
  · intro t; rw [h1]; exact ⟨rfl, rfl⟩
  · intro t i _; rw [h1]; exact ⟨rfl, rfl⟩
  · intro t _ _; rw [h1]

theorem ALLOC_MEM_same (b : Build) (st : vm_state) (clicks : Nat) :
    (ALLOC_MEM b st clicks).2.vmproc_pt = st.vmproc_pt
      ∧ (ALLOC_MEM b st clicks).2.vm_haspt = st.vm_haspt
      ∧ (ALLOC_MEM b st clicks).2.system_inuse = st.system_inuse
      ∧ (ALLOC_MEM b st clicks).2.vm_stacktop = st.vm_stacktop
      ∧ (ALLOC_MEM b st clicks).2.vm_data_top = st.vm_data_top
      ∧ (ALLOC_MEM b st clicks).2.kernel_pde = st.kernel_pde
      ∧ (ALLOC_MEM b st clicks).2.pagedir_pde = st.pagedir_pde
      ∧ (ALLOC_MEM b st clicks).2.kern_pde_val = st.kern_pde_val
      ∧ (ALLOC_MEM b st clicks).2.pagedir_pde_val = st.pagedir_pde_val
      ∧ (ALLOC_MEM b st clicks).2.proc_pde = st.proc_pde
      ∧ (ALLOC_MEM b st clicks).2.bigpage_ok = st.bigpage_ok
      ∧ (ALLOC_MEM b st clicks).2.level = st.level
      ∧ (ALLOC_MEM b st clicks).2.spare_page = st.spare_page
      ∧ (ALLOC_MEM b st clicks).2.spare_phys = st.spare_phys
      ∧ (ALLOC_MEM b st clicks).2.missing_spares = st.missing_spares := by
  unfold ALLOC_MEM
  split
  · simp
  · split <;> simp

theorem vm_allocpages_step (b : Build) (fh : Nat) (d : Nat) : AllocStep b (vm_allocpages b fh d) := by
  induction d with
  | zero => intro st pages r h; unfold vm_allocpages at h; cases h
  | succ d ih =>
    intro st pages r h
    unfold vm_allocpages at h
    have h1 := vm_assert_done _ _ _ _ h
    have h2 := vm_assert_done _ _ _ _ h1
    have h3 := vm_assert_done _ _ _ _ h2
    split at h3
    · have h4 := vm_assert_done _ _ _ _ h3
      obtain ⟨g, hg, h5⟩ := Run.bind_done _ _ _ h4
      obtain ⟨k, _, hk⟩ := vm_getsparepage_done _ _ _ hg
      cases h5
      rw [hk]
      exact step_of_same _ _ _ _ rfl ⟨rfl, rfl, rfl, rfl, rfl, rfl, rfl, rfl, rfl, rfl⟩
    · obtain ⟨f, hf, h4⟩ := Run.bind_done _ _ _ h3
      have hsame := findhole_same_table _ _ _ _ _ _ _ hf
      have s1 : Step b b.VM_PROC_NR st
          (vm_state.set_pt { st with level := st.level + 1 } b.VM_PROC_NR f.2) := by
        have s0 : Step b b.VM_PROC_NR st { st with level := st.level + 1 } :=
          step_of_same _ _ _ _ rfl ⟨rfl, rfl, rfl, rfl, rfl, rfl, rfl, rfl, rfl, rfl⟩
        refine step_trans s0 ?_
        · apply step_set_pt
          · exact hsame.1
          · exact hsame.2.1
          · intro i _
            rw [hsame.2.2.1, hsame.2.2.2.1]; exact ⟨rfl, rfl⟩
      dsimp only at h4
      split at h4
      · cases h4
        refine step_trans s1 ?_
        exact step_of_same _ _ _ _ rfl ⟨rfl, rfl, rfl, rfl, rfl, rfl, rfl, rfl, rfl, rfl⟩
      · have ham := ALLOC_MEM_same b
          (vm_state.set_pt { st with level := st.level + 1 } b.VM_PROC_NR f.2) pages
        have s2 : Step b b.VM_PROC_NR st
            (ALLOC_MEM b (vm_state.set_pt { st with level := st.level + 1 } b.VM_PROC_NR f.2)
              pages).2 := by
          refine step_trans s1 ?_
          obtain ⟨a0, a1, a2, a3, a4, a5, a6, a7, a8, a9, a10, _⟩ := ham
          exact step_of_same _ _ _ _ a0 ⟨a1, a2, a3, a4, a5, a6, a7, a8, a9, a10⟩
        split at h4
        · cases h4
          refine step_trans s2 ?_
          exact step_of_same _ _ _ _ rfl ⟨rfl, rfl, rfl, rfl, rfl, rfl, rfl, rfl, rfl, rfl⟩
        · obtain ⟨w, hw, h5⟩ := Run.bind_done _ _ _ h4
          have s3 := pt_writemap_with_step b _ ih _ _ _ _ _ _ _ w hw
          split at h5
          · cases h5
            refine step_trans s2 (step_trans s3 ?_)
            exact step_of_same _ _ _ _ rfl ⟨rfl, rfl, rfl, rfl, rfl, rfl, rfl, rfl, rfl, rfl⟩
          · cases h5
            refine step_trans s2 (step_trans s3 ?_)
            exact step_of_same _ _ _ _ rfl ⟨rfl, rfl, rfl, rfl, rfl, rfl, rfl, rfl, rfl, rfl⟩

/-- Every returning `pt_writemap` is a step. -/
theorem pt_writemap_step (b : Build) (fh d : Nat) (st : vm_state)
    (who v pa bytes flags wmf : Nat) (r : Status × vm_state)
    (h : pt_writemap b fh d st who v pa bytes flags wmf = Run.done r) :
    Step b who st r.2 :=
  pt_writemap_with_step b _ (vm_allocpages_step b fh d) st who v pa bytes flags wmf r h

theorem pt_mapkernel_done (b : Build) (st : vm_state) (who : Nat) (r : Status × vm_state)
    (h : pt_mapkernel b st who = Run.done r) :
    st.bigpage_ok = true ∧ 0 ≤ st.kernel_pde
      ∧ r = (Status.OK, st.set_pt who (pt_mapkernel_table st (st.vmproc_pt who))) := by
  unfold pt_mapkernel at h
  have h1 := vm_assert_done _ _ _ _ h
  split at h1
  · rename_i hb
    split at h1
    · rename_i hk
      cases h1
      exact ⟨hb, hk, rfl⟩
    · cases h1
  · cases h1

theorem pt_mapkernel_table_same (st : vm_state) (pt : pt_t) :
    (pt_mapkernel_table st pt).pt_dir_ptr = pt.pt_dir_ptr
      ∧ (pt_mapkernel_table st pt).pt_dir_phys = pt.pt_dir_phys
      ∧ (pt_mapkernel_table st pt).pt_pt = pt.pt_pt
      ∧ (pt_mapkernel_table st pt).pt_tab = pt.pt_tab
      ∧ (pt_mapkernel_table st pt).pt_virtop = pt.pt_virtop := by
  unfold pt_mapkernel_table
  split <;> exact ⟨rfl, rfl, rfl, rfl, rfl⟩

theorem pt_new_clear_done (b : Build) (st : vm_state) (who : Nat) (r : Status × vm_state)
    (h : pt_new_clear b st who = Run.done r) :
    st.bigpage_ok = true ∧ 0 ≤ st.kernel_pde
      ∧ r = (Status.OK,
          st.set_pt who (pt_mapkernel_table st (pt_new_table (st.vmproc_pt who)))) := by
  unfold pt_new_clear at h
  have h1 := PT_SANE_done _ _ _ _ _ h
  obtain ⟨m, hm, h2⟩ := Run.bind_done _ _ _ h1
  obtain ⟨hb, hk, hr⟩ := pt_mapkernel_done _ _ _ _ hm
  split at h2
  · cases h2
  · have h3 := PT_SANE_done _ _ _ _ _ h2
    cases h3
    refine ⟨hb, hk, ?_⟩
    rw [hr]
    simp only [set_pt_set_pt, set_pt_get]
    rfl

theorem pt_new_done (b : Build) (fh d : Nat) (st : vm_state) (who : Nat) (r : Status × vm_state)
    (h : pt_new b fh d st who = Run.done r) :
    ((st.vmproc_pt who).pt_dir_ptr ≠ 0 ∧ pt_new_clear b st who = Run.done r)
      ∨ ((st.vmproc_pt who).pt_dir_ptr = 0 ∧ ∃ a, vm_allocpages b fh d st 1 = Run.done a
          ∧ ((a.1 = 0 ∧ r = (Status.ENOMEM, a.2.2.set_pt who
                { a.2.2.vmproc_pt who with
                  pt_dir_ptr := a.1
                  pt_dir_phys := a.2.1.getD (a.2.2.vmproc_pt who).pt_dir_phys }))
            ∨ (a.1 ≠ 0 ∧ pt_new_clear b (a.2.2.set_pt who
                { a.2.2.vmproc_pt who with
                  pt_dir_ptr := a.1
                  pt_dir_phys := a.2.1.getD (a.2.2.vmproc_pt who).pt_dir_phys }) who
                = Run.done r))) := by
  unfold pt_new at h
  split at h
  · rename_i h0
    right
    obtain ⟨a, ha, h2⟩ := Run.bind_done _ _ _ h
    refine ⟨h0, a, ha, ?_⟩
    dsimp only at h2
    split at h2
    · rename_i ha0
      left
      cases h2
      exact ⟨ha0, rfl⟩
    · rename_i ha0
      right
      exact ⟨ha0, h2⟩
  · rename_i h0
    left
    exact ⟨h0, h⟩

theorem vm_freepages_step (b : Build) (fh d : Nat) (st st' : vm_state) (vir phys pages : Nat)
    (h : vm_freepages b fh d st vir phys pages = Run.done st') :
    Step b b.VM_PROC_NR st st' := by
  unfold vm_freepages at h
  split at h
  · have h1 := vm_assert_done _ _ _ _ h
    have h2 := vm_assert_done _ _ _ _ h1
    obtain ⟨w, hw, h3⟩ := Run.bind_done _ _ _ h2
    have s := pt_writemap_step b fh d _ _ _ _ _ _ _ w hw
    split at h3
    · cases h3
    · cases h3
      refine step_trans ?_ s
      exact step_of_same _ _ _ _ rfl ⟨rfl, rfl, rfl, rfl, rfl, rfl, rfl, rfl, rfl, rfl⟩
  · cases h
    exact step_refl _ _ _

theorem pt_free_loop_step (b : Build) (fh d who : Nat) (n : Nat) :
    ∀ (i : Nat) (st st' : vm_state), pt_free_loop b fh d who n i st = Run.done st' →
      Step b b.VM_PROC_NR st st' := by
  induction n with
  | zero =>
    intro i st st' h
    unfold pt_free_loop at h
    cases h
    exact step_refl _ _ _
  | succ n ih =>
    intro i st st' h
    unfold pt_free_loop at h
    dsimp only at h
    split at h
    · obtain ⟨s1, h1, h2⟩ := Run.bind_done _ _ _ h
      exact step_trans (vm_freepages_step _ _ _ _ _ _ _ _ h1) (ih _ _ _ h2)
    · exact ih _ _ _ h

theorem pt_free_step (b : Build) (fh d : Nat) (st st' : vm_state) (who : Nat)
    (h : pt_free b fh d st who = Run.done st') : Step b b.VM_PROC_NR st st' := by
  unfold pt_free at h
  exact pt_free_loop_step _ _ _ _ _ _ _ _ (PT_SANE_done _ _ _ _ _ h)

theorem pt_new_clear_dir (b : Build) (st : vm_state) (who : Nat) (r : Status × vm_state)
    (h : pt_new_clear b st who = Run.done r) (t : Nat) :
    (r.2.vmproc_pt t).pt_dir_ptr = (st.vmproc_pt t).pt_dir_ptr
      ∧ (r.2.vmproc_pt t).pt_dir_phys = (st.vmproc_pt t).pt_dir_phys := by
  obtain ⟨_, _, hr⟩ := pt_new_clear_done b st who r h
  rw [hr]
  by_cases ht : t = who
  · subst ht
    simp only [set_pt_get]
    have := pt_mapkernel_table_same st (pt_new_table (st.vmproc_pt t))
    rw [this.1, this.2.1]
    exact ⟨rfl, rfl⟩
  · rw [set_pt_get_ne _ _ _ _ ht]
    exact ⟨rfl, rfl⟩

theorem pt_new_dir (b : Build) (fh d : Nat) (st : vm_state) (who : Nat) (r : Status × vm_state)
    (h : pt_new b fh d st who = Run.done r) (t : Nat)
    (ht : (st.vmproc_pt t).pt_dir_ptr ≠ 0) :
    (r.2.vmproc_pt t).pt_dir_ptr = (st.vmproc_pt t).pt_dir_ptr
      ∧ (r.2.vmproc_pt t).pt_dir_phys = (st.vmproc_pt t).pt_dir_phys := by
  rcases pt_new_done b fh d st who r h with ⟨_, hc⟩ | ⟨h0, a, ha, h2⟩
  · exact pt_new_clear_dir b st who r hc t
  · have hne : t ≠ who := by
      intro e; rw [e] at ht; exact ht h0
    have hs := (vm_allocpages_step b fh d st 1 a ha).dirptr t
    rcases h2 with ⟨_, hr⟩ | ⟨_, hc⟩
    · rw [hr]
      simp only []
      rw [set_pt_get_ne _ _ _ _ hne]
      exact hs
    · have := pt_new_clear_dir b _ who r hc t
      rw [set_pt_get_ne _ _ _ _ hne] at this
      exact ⟨this.1.trans hs.1, this.2.trans hs.2⟩

/-- A successful `pt_new` leaves the table with a directory. -/
theorem pt_new_ok_dir (b : Build) (fh d : Nat) (st st' : vm_state) (who : Nat)
    (h : pt_new b fh d st who = Run.done (Status.OK, st')) :
    (st'.vmproc_pt who).pt_dir_ptr ≠ 0 := by
  rcases pt_new_done b fh d st who _ h with ⟨h0, hc⟩ | ⟨_, a, _, h2⟩
  · have := (pt_new_clear_dir b st who _ hc who).1
    simp only [] at this
    rw [this]; exact h0
  · rcases h2 with ⟨_, hr⟩ | ⟨ha0, hc⟩
    · cases hr
    · have := (pt_new_clear_dir b _ who _ hc who).1
      simp only [set_pt_get] at this
      rw [this]; exact ha0

theorem Call.run_dir (b : Build) (fh d : Nat) (st st' : vm_state) (c : Call) (t : Nat)
    (ht : (st.vmproc_pt t).pt_dir_ptr ≠ 0) (h : c.run b fh d st = Run.done st') :
    (st'.vmproc_pt t).pt_dir_ptr = (st.vmproc_pt t).pt_dir_ptr
      ∧ (st'.vmproc_pt t).pt_dir_phys = (st.vmproc_pt t).pt_dir_phys := by
  cases c with
  | writemap who v pa bytes flags wmf =>
    unfold Call.run at h
    obtain ⟨r, hr, h2⟩ := Run.bind_done _ _ _ h
    cases h2
    exact (pt_writemap_step b fh d st who v pa bytes flags wmf r hr).dirptr t
  | mapkernel who =>
    unfold Call.run at h
    obtain ⟨r, hr, h2⟩ := Run.bind_done _ _ _ h
    cases h2
    obtain ⟨_, _, he⟩ := pt_mapkernel_done b st who r hr
    rw [he]
    by_cases hw : t = who
    · subst hw
      simp only [set_pt_get]
      have := pt_mapkernel_table_same st (st.vmproc_pt t)
      exact ⟨this.1, this.2.1⟩
    · rw [set_pt_get_ne _ _ _ _ hw]; exact ⟨rfl, rfl⟩
  | free who =>
    unfold Call.run at h
    exact (pt_free_step b fh d st st' who h).dirptr t
  | findhole who vb vmin vmax =>
    unfold Call.run at h
    obtain ⟨r, hr, h2⟩ := Run.bind_done _ _ _ h
    cases h2
    have := findhole_same_table _ _ _ _ _ _ _ hr
    by_cases hw : t = who
    · subst hw
      simp only [set_pt_get]
      exact ⟨this.1, this.2.1⟩
    · rw [set_pt_get_ne _ _ _ _ hw]; exact ⟨rfl, rfl⟩
  | new who =>
    unfold Call.run at h
    obtain ⟨r, hr, h2⟩ := Run.bind_done _ _ _ h
    cases h2
    exact pt_new_dir b fh d st who r hr t ht

theorem run_calls_dir (b : Build) (fh d : Nat) (t : Nat) (cs : List Call) :
    ∀ (st st' : vm_state), (st.vmproc_pt t).pt_dir_ptr ≠ 0 →
      run_calls b fh d cs st = Run.done st' →
      (st'.vmproc_pt t).pt_dir_ptr = (st.vmproc_pt t).pt_dir_ptr
        ∧ (st'.vmproc_pt t).pt_dir_phys = (st.vmproc_pt t).pt_dir_phys := by
  induction cs with
  | nil =>
    intro st st' _ h
    unfold run_calls at h
    cases h
    exact ⟨rfl, rfl⟩
  | cons c cs ih =>
    intro st st' ht h
    unfold run_calls at h
    obtain ⟨s1, h1, h2⟩ := Run.bind_done _ _ _ h
    have a := Call.run_dir b fh d st s1 c t ht h1
    have ht1 : (s1.vmproc_pt t).pt_dir_ptr ≠ 0 := by rw [a.1]; exact ht
    have c2 := ih s1 st' ht1 h2
    exact ⟨c2.1.trans a.1, c2.2.trans a.2⟩

/-- C8: once `pt_new` has returned `OK` for a table, no sequence of
`pt_writemap`, `pt_mapkernel`, `pt_free`, `findhole` and `pt_new` calls, on this
or on other tables, changes its `pt_dir` pointer or `pt_dir_phys`; and a further
`pt_new` on the table returns `OK` without touching the frame allocator or the
spare pages. -/
theorem pt_dir_never_moves (b : Build) (fh d : Nat) (st0 st1 st2 : vm_state) (t : Nat)
    (cs : List Call)
    (hnew : pt_new b fh d st0 t = Run.done (Status.OK, st1))
    (hrun : run_calls b fh d cs st1 = Run.done st2) :
    (st1.vmproc_pt t).pt_dir_ptr ≠ 0
      ∧ (st2.vmproc_pt t).pt_dir_ptr = (st1.vmproc_pt t).pt_dir_ptr
      ∧ (st2.vmproc_pt t).pt_dir_phys = (st1.vmproc_pt t).pt_dir_phys
      ∧ ∀ r, pt_new b fh d st2 t = Run.done r →
          r.1 = Status.OK
          ∧ (r.2.vmproc_pt t).pt_dir_ptr = (st1.vmproc_pt t).pt_dir_ptr
          ∧ (r.2.vmproc_pt t).pt_dir_phys = (st1.vmproc_pt t).pt_dir_phys
          ∧ r.2.alloc_script = st2.alloc_script ∧ r.2.alloc_log = st2.alloc_log
          ∧ r.2.free_log = st2.free_log ∧ r.2.spare_page = st2.spare_page
          ∧ r.2.missing_spares = st2.missing_spares := by
  have h1 := pt_new_ok_dir b fh d st0 st1 t hnew
  have h2 := run_calls_dir b fh d t cs st1 st2 h1 hrun
  refine ⟨h1, h2.1, h2.2, ?_⟩
  intro r hr
  have h3 : (st2.vmproc_pt t).pt_dir_ptr ≠ 0 := by rw [h2.1]; exact h1
  rcases pt_new_done b fh d st2 t r hr with ⟨_, hc⟩ | ⟨h0, _⟩
  · have hd := pt_new_clear_dir b st2 t r hc t
    obtain ⟨_, _, he⟩ := pt_new_clear_done b st2 t r hc
    refine ⟨by rw [he], hd.1.trans h2.1, hd.2.trans h2.2, ?_⟩
    rw [he]
    exact ⟨rfl, rfl, rfl, rfl, rfl⟩
  · exact absurd h0 h3

theorem pt_new_clear_post (b : Build) (st st' : vm_state) (who : Nat)
    (h : pt_new_clear b st who = Run.done (Status.OK, st'))
    (hd : st.pagedir_pde ≠ st.kernel_pde) :
    st.bigpage_ok = true ∧ 0 ≤ st.kernel_pde
      ∧ (st'.vmproc_pt who).pt_virtop = 0
      ∧ (∀ i, i < 1024 → (st'.vmproc_pt who).pt_pt i = 0)
      ∧ (∀ i : Nat, i < 1024 → (i : Int) ≠ st.kernel_pde → (i : Int) ≠ st.pagedir_pde →
          (st'.vmproc_pt who).pt_dir i = 0)
      ∧ (st'.vmproc_pt who).pt_dir st.kernel_pde.toNat = st.kern_pde_val
      ∧ (0 ≤ st.pagedir_pde →
          (st'.vmproc_pt who).pt_dir st.pagedir_pde.toNat = st.pagedir_pde_val) := by
  obtain ⟨hb, hk, hr⟩ := pt_new_clear_done b st who _ h
  have he : st' = st.set_pt who (pt_mapkernel_table st (pt_new_table (st.vmproc_pt who))) := by
    cases hr; rfl
  refine ⟨hb, hk, ?_⟩
  rw [he]
  simp only [set_pt_get]
  have hs := pt_mapkernel_table_same st (pt_new_table (st.vmproc_pt who))
  refine ⟨?_, ?_, ?_, ?_, ?_⟩
  · rw [hs.2.2.2.2]; rfl
  · intro i hi
    rw [hs.2.2.1]
    simp [pt_new_table, I386_VM_DIR_ENTRIES, hi]
  · intro i hi h1 h2
    have e1 : i ≠ st.kernel_pde.toNat := by
      intro e; apply h1; rw [e]; exact Int.toNat_of_nonneg hk
    unfold pt_mapkernel_table
    split
    · rename_i hp
      have e2 : i ≠ st.pagedir_pde.toNat := by
        intro e; apply h2; rw [e]; exact Int.toNat_of_nonneg hp
      simp [upd, e1, e2, pt_new_table, I386_VM_DIR_ENTRIES, hi]
    · simp [upd, e1, pt_new_table, I386_VM_DIR_ENTRIES, hi]
  · unfold pt_mapkernel_table
    split
    · rename_i hp
      have e2 : st.kernel_pde.toNat ≠ st.pagedir_pde.toNat := by
        intro e
        apply hd
        rw [← Int.toNat_of_nonneg hk, ← Int.toNat_of_nonneg hp, e]
      simp [upd, e2]
    · simp [upd]
  · intro hp
    unfold pt_mapkernel_table
    rw [if_pos hp]
    simp [upd]

/-- C9: when `pt_new` returns `OK`, big pages are available and `kernel_pde` is
not negative; the cursor of the table is 0, its 1024 second-level pointers are
`NULL` and its directory entries are 0, except that the entry `kernel_pde` is
`kern_pde_val` and, when `pagedir_pde` is not negative, the entry `pagedir_pde`
is `pagedir_pde_val` (the two slots being different, as `pt_init` sets them). -/
theorem pt_new_postcondition (b : Build) (fh d : Nat) (st st' : vm_state) (who : Nat)
    (hd : st.pagedir_pde ≠ st.kernel_pde)
    (h : pt_new b fh d st who = Run.done (Status.OK, st')) :
    st.bigpage_ok = true ∧ 0 ≤ st.kernel_pde
      ∧ (st'.vmproc_pt who).pt_virtop = 0
      ∧ (∀ i, i < 1024 → (st'.vmproc_pt who).pt_pt i = 0)
      ∧ (∀ i : Nat, i < 1024 → (i : Int) ≠ st.kernel_pde → (i : Int) ≠ st.pagedir_pde →
          (st'.vmproc_pt who).pt_dir i = 0)
      ∧ (st'.vmproc_pt who).pt_dir st.kernel_pde.toNat = st.kern_pde_val
      ∧ (0 ≤ st.pagedir_pde →
          (st'.vmproc_pt who).pt_dir st.pagedir_pde.toNat = st.pagedir_pde_val) := by
  rcases pt_new_done b fh d st who _ h with ⟨_, hc⟩ | ⟨_, a, ha, h2⟩
  · exact pt_new_clear_post b st st' who hc hd
  · rcases h2 with ⟨_, hr⟩ | ⟨_, hc⟩
    · cases hr
    · obtain ⟨_, _, _, _, g5, g6, g7, g8, _, g10⟩ := (vm_allocpages_step b fh d st 1 a ha).globals
      have := pt_new_clear_post b _ st' who hc (by
        show a.2.2.pagedir_pde ≠ a.2.2.kernel_pde
        rw [g5, g6]; exact hd)
      simp only [vm_state.set_pt] at this
      rw [g5, g6, g7, g8, g10] at this
      exact this

theorem present_eq_testBit (e : Nat) : present e = e.testBit 0 := by
  unfold present I386_VM_PRESENT
  rw [Nat.and_one_is_mod, Nat.testBit_zero]
  rcases Nat.mod_two_eq_zero_or_one e with h | h <;> simp [h]

theorem present_or_right (a f : Nat) (h : present f = true) : present (a ||| f) = true := by
  rw [present_eq_testBit] at *
  rw [Nat.testBit_or, h]
  simp

theorem present_or_left (a f : Nat) (h : present a = true) : present (a ||| f) = true := by
  rw [present_eq_testBit] at *
  rw [Nat.testBit_or, h]
  simp

theorem pt_writemap_pages_dir (b : Build) (who flags wmf n v pa : Nat) (st st' : vm_state)
    (h : pt_writemap_pages b who flags wmf (n + 1) v pa st = Run.done st')
    (hon : b.vm_assert_on = true) :
    present ((st.vmproc_pt who).pt_dir (I386_VM_PDE v)) = true := by
  unfold pt_writemap_pages at h
  have h1 := PT_SANE_done _ _ _ _ _ h
  have h2 := vm_assert_done _ _ _ _ h1
  have h3 := vm_assert_done _ _ _ _ h2
  have h4 := vm_assert_done _ _ _ _ h3
  exact vm_assert_cond _ _ _ _ h4 hon

theorem present_ptalloc_entry (x flags : Nat) :
    present (x ||| flags ||| I386_VM_PRESENT ||| I386_VM_USER ||| I386_VM_WRITE) = true := by
  apply present_or_left
  apply present_or_left
  apply present_or_right
  decide

/-- I1 on all slots survives as well. -/
theorem I1_all_grow {st st' : vm_state} (h : Grow st st') (t : Nat) (hi : I1_all st t) :
    I1_all st' t := by
  intro i h2
  have := hi i h2
  rcases h.2 t i with ⟨a1, a2⟩ | ⟨_, a2, a3⟩
  · rw [a1]
    rcases a2 with a2 | ⟨a2, a3⟩
    · rw [a2]; exact this
    · rw [a2, a3]; simp
  · rw [a2]; simp [a3]

/-- A nested or early call of `vm_allocpages` takes a spare page: the pointer
is not `NULL`, the tables and `proc_pde` are as before and the nesting counter
is back at its value on entry. -/
theorem vm_allocpages_reserve (b : Build) (fh d : Nat) (st : vm_state) (pages : Nat)
    (r : Nat × Option Nat × vm_state) (hl : 1 ≤ st.level ∨ st.vm_haspt = false)
    (h : vm_allocpages b fh d st pages = Run.done r) :
    r.1 ≠ 0 ∧ r.2.2.vmproc_pt = st.vmproc_pt ∧ r.2.2.level = st.level
      ∧ r.2.2.vm_haspt = st.vm_haspt ∧ r.2.2.proc_pde = st.proc_pde := by
  cases d with
  | zero => unfold vm_allocpages at h; cases h
  | succ d =>
    unfold vm_allocpages at h
    have h1 := vm_assert_done _ _ _ _ h
    have h2 := vm_assert_done _ _ _ _ h1
    have h3 := vm_assert_done _ _ _ _ h2
    have hcond : st.level + 1 > 1 ∨ st.vm_haspt = false := by
      rcases hl with hl | hl
      · left; omega
      · right; exact hl
    rw [if_pos hcond] at h3
    have h4 := vm_assert_done _ _ _ _ h3
    obtain ⟨g, hg, h5⟩ := Run.bind_done _ _ _ h4
    obtain ⟨k, hk0, hk⟩ := vm_getsparepage_done _ _ _ hg
    cases h5
    rw [hk]
    exact ⟨hk0, rfl, by simp, rfl, rfl⟩

theorem pt_ptalloc_nested (b : Build) (fh d : Nat) (st : vm_state) (who pde flags : Nat)
    (r : Status × vm_state) (hl : 1 ≤ st.level ∨ st.vm_haspt = false)
    (h : pt_ptalloc b (vm_allocpages b fh d) st who pde flags = Run.done r) :
    r.1 = Status.OK ∧ r.2.level = st.level ∧ r.2.vm_haspt = st.vm_haspt := by
  obtain ⟨a, hal, h2⟩ := pt_ptalloc_done b _ st who pde flags r h
  obtain ⟨h0, _, h3, h4, _⟩ := vm_allocpages_reserve b fh d st 1 a hl hal
  rcases h2 with ⟨hz, _⟩ | ⟨_, hr, _⟩
  · exact absurd hz h0
  · rw [hr]; exact ⟨rfl, h3, h4⟩

theorem pt_writemap_tables_nested (b : Build) (fh d : Nat) (who flags : Nat) (n : Nat) :
    ∀ (pde : Nat) (st : vm_state) (r : Status × vm_state),
      (1 ≤ st.level ∨ st.vm_haspt = false) →
      pt_writemap_tables b (vm_allocpages b fh d) who flags n pde st = Run.done r →
      r.1 = Status.OK := by
  induction n with
  | zero =>
    intro pde st r _ h
    unfold pt_writemap_tables at h
    cases h
    rfl
  | succ n ih =>
    intro pde st r hl h
    unfold pt_writemap_tables at h
    have h1 := vm_assert_done _ _ _ _ h
    split at h1
    · cases h1
    · split at h1
      · have h2 := vm_assert_done _ _ _ _ h1
        obtain ⟨a, hal, h3⟩ := Run.bind_done _ _ _ h2
        obtain ⟨hok, hlv, hhp⟩ := pt_ptalloc_nested b fh d st who pde flags a hl hal
        split at h3
        · rename_i hne; exact absurd hok hne
        · have h4 := vm_assert_done _ _ _ _ h3
          exact ih _ _ _ (by rw [hlv, hhp]; exact hl) h4
      · have h2 := vm_assert_done _ _ _ _ h1
        exact ih _ _ _ hl h2

/-- Inside `vm_allocpages` the nested `pt_writemap` cannot fail: its tables come
from the spare pages. -/
theorem pt_writemap_with_nested (b : Build) (fh d : Nat) (st : vm_state)
    (who v pa bytes flags wmf : Nat) (r : Status × vm_state)
    (hl : 1 ≤ st.level ∨ st.vm_haspt = false)
    (h : pt_writemap_with b (vm_allocpages b fh d) st who v pa bytes flags wmf = Run.done r) :
    r.1 = Status.OK := by
  obtain ⟨a, ht, h2⟩ := pt_writemap_with_done b _ st r.2 who v pa bytes flags wmf r.1 h
  have := pt_writemap_tables_nested b fh d who flags _ _ _ _ hl ht
  rcases h2 with ⟨hne, _, _⟩ | ⟨_, hs, _⟩
  · exact absurd this hne
  · exact hs

theorem PT_SANE_pass {α : Type} (b : Build) (st : vm_state) (who : Nat) (k : Run α)
    (h : b.SANITYCHECKS = false ∨ pt_sanitycheck st who = true) : PT_SANE b st who k = k := by
  unfold PT_SANE
  rcases h with h | h <;> simp [h]

theorem pt_sanitycheck_set_tab (st : vm_state) (who : Nat) (tab : Nat → Nat → Nat) :
    pt_sanitycheck (st.set_pt who { st.vmproc_pt who with pt_tab := tab }) who
      = pt_sanitycheck st who := by
  unfold pt_sanitycheck
  simp only [set_pt_get]
  rfl

/-- A `pt_ptalloc` on a table other than the manager's own leaves the directory
entries and pointers of the other slots alone. -/
theorem pt_ptalloc_outside (b : Build) (fh d : Nat) (st : vm_state) (who pde flags : Nat)
    (r : Status × vm_state) (hwho : who ≠ b.VM_PROC_NR)
    (h : pt_ptalloc b (vm_allocpages b fh d) st who pde flags = Run.done r) :
    ∀ j, j ≠ pde →
      (r.2.vmproc_pt who).pt_dir j = (st.vmproc_pt who).pt_dir j
        ∧ (r.2.vmproc_pt who).pt_pt j = (st.vmproc_pt who).pt_pt j := by
  obtain ⟨a, hal, h2⟩ := pt_ptalloc_done b _ st who pde flags r h
  have hsame : a.2.2.vmproc_pt who = st.vmproc_pt who :=
    (vm_allocpages_step b fh d st 1 a hal).others who hwho hwho
  intro j hj
  rcases h2 with ⟨_, hr⟩ | ⟨_, hr, _⟩
  · rw [hr]
    simp only [set_pt_get, hsame]
    simp [pt_ptalloc_null, upd, hj]
  · rw [hr]
    simp only [set_pt_get, hsame]
    simp [pt_ptalloc_table, upd, hj]

/-- The first loop of `pt_writemap` on a table other than the manager's own
leaves the directory entries and pointers of the slots it does not visit
alone. -/
theorem pt_writemap_tables_outside (b : Build) (fh d : Nat) (who flags : Nat)
    (hwho : who ≠ b.VM_PROC_NR) (n : Nat) :
    ∀ (pde : Nat) (st : vm_state) (r : Status × vm_state),
      pt_writemap_tables b (vm_allocpages b fh d) who flags n pde st = Run.done r →
      ∀ j, (j < pde ∨ pde + n ≤ j) →
        (r.2.vmproc_pt who).pt_dir j = (st.vmproc_pt who).pt_dir j
          ∧ (r.2.vmproc_pt who).pt_pt j = (st.vmproc_pt who).pt_pt j := by
  induction n with
  | zero =>
    intro pde st r h j _
    unfold pt_writemap_tables at h
    cases h
    exact ⟨rfl, rfl⟩
  | succ n ih =>
    intro pde st r h j hj
    unfold pt_writemap_tables at h
    have h1 := vm_assert_done _ _ _ _ h
    split at h1
    · cases h1
    · split at h1
      · have h2 := vm_assert_done _ _ _ _ h1
        obtain ⟨a, hal, h3⟩ := Run.bind_done _ _ _ h2
        have hs := pt_ptalloc_outside b fh d st who pde flags a hwho hal j (by omega)
        split at h3
        · cases h3; exact hs
        · have h4 := vm_assert_done _ _ _ _ h3
          obtain ⟨c1, c2⟩ := ih _ _ _ h4 j (by omega)
          exact ⟨c1.trans hs.1, c2.trans hs.2⟩
      · have h2 := vm_assert_done _ _ _ _ h1
        exact ih _ _ _ h2 j (by omega)

theorem pt_writemap_tables_present (b : Build) (alloc : Allocator) (who flags : Nat) (n : Nat) :
    ∀ (pde : Nat) (st : vm_state),
      (∀ k, k < n → pde + k < 1024 ∧ present ((st.vmproc_pt who).pt_dir (pde + k)) = true
        ∧ (st.vmproc_pt who).pt_dir (pde + k) &&& I386_VM_BIGPAGE = 0) →
      pt_writemap_tables b alloc who flags n pde st = Run.done (Status.OK, st) := by
  induction n with
  | zero => intro pde st _; rfl
  | succ n ih =>
    intro pde st h
    obtain ⟨h1, h2, h3⟩ := h 0 (by omega)
    simp only [Nat.add_zero] at h1 h2 h3
    unfold pt_writemap_tables
    rw [vm_assert_pass b _ _ (Or.inr (by simpa [I386_VM_DIR_ENTRIES] using h1))]
    simp only [h3, ne_eq, not_true_eq_false, if_false, h2, Bool.not_true, Bool.false_eq_true]
    rw [vm_assert_pass b _ _ (Or.inr rfl)]
    apply ih
    intro k hk
    have := h (k + 1) (by omega)
    rw [show pde + (k + 1) = pde + 1 + k by omega] at this
    exact this

set_option maxRecDepth 100000 in
/-- C8 (witness): `pt_new` on the table in slot 1, then a mapping, `pt_free` and
a second `pt_new`: the directory stays at pointer 4096, physical address 4096. -/
theorem pt_dir_never_moves_witness :
    pt_new Build.release 8 2 st_demo 1 = Run.done (Status.OK, st_new)
      ∧ run_calls Build.release 8 2 demo_calls st_new = Run.done st_later
      ∧ (st_new.vmproc_pt 1).pt_dir_ptr ≠ 0
      ∧ (st_later.vmproc_pt 1).pt_dir_ptr = (st_new.vmproc_pt 1).pt_dir_ptr
      ∧ (st_later.vmproc_pt 1).pt_dir_phys = (st_new.vmproc_pt 1).pt_dir_phys
      ∧ (st_later.vmproc_pt 1).pt_dir_phys = 4096 :=
  ⟨rfl, rfl,
   (pt_dir_never_moves Build.release 8 2 st_demo st_new st_later 1 demo_calls rfl rfl).1,
   (pt_dir_never_moves Build.release 8 2 st_demo st_new st_later 1 demo_calls rfl rfl).2.1,
   (pt_dir_never_moves Build.release 8 2 st_demo st_new st_later 1 demo_calls rfl rfl).2.2.1,
   rfl⟩

set_option maxRecDepth 100000 in
/-- C9 (witness): `pt_new` on the table in slot 1 of the example state. -/
theorem pt_new_postcondition_witness :
    pt_new Build.strict 8 2 st_demo 1
        = Run.done (Status.OK, after (pt_new Build.strict 8 2 st_demo 1) st_demo)
      ∧ ((after (pt_new Build.strict 8 2 st_demo 1) st_demo).vmproc_pt 1).pt_virtop = 0
      ∧ ((after (pt_new Build.strict 8 2 st_demo 1) st_demo).vmproc_pt 1).pt_dir
          st_demo.kernel_pde.toNat = st_demo.kern_pde_val :=
  ⟨rfl,
   (pt_new_postcondition Build.strict 8 2 st_demo _ 1 (by decide) rfl).2.2.1,
   (pt_new_postcondition Build.strict 8 2 st_demo _ 1 (by decide) rfl).2.2.2.2.2.1⟩

/-- The second slip of the scan, without any wrap-around: in the two-page window
[4190208, 4198400), whose `vmax` is not a multiple of 4 MiB and whose first page
is mapped, skipping the absent directory entry 1 credits 1024 free pages, and
`findhole` for two pages returns 4194304 although only one page of the window
is left. -/
theorem findhole_skip_overruns_window :
    findhole Build.strict 8 pt_last_page 8192 4190208 4198400
        = Run.done (4194304, { pt_last_page with pt_virtop := 4202496 })
      ∧ ¬ (4194304 + 8192 ≤ 4198400)
      ∧ unmapped pt_last_page 4190208 = false :=
  ⟨rfl, by decide, by decide⟩

/-- The scan either leaves by its failure exit with the table untouched, or
returns a start other than `NO_MEM` and moves the cursor behind the range,
when `vm_assert` is compiled in or `NO_MEM` is 0 and the start of the free run
is above 0. -/
theorem findhole_loop_exits (b : Build) (pt : pt_t) (vb vmin vmax n : Nat)
    (hvmax : vmax + 4096 ≤ 4294967296) (fuel : Nat) :
    ∀ (curv ff fs : Nat) (tr : Bool) (r : Nat × pt_t),
      (b.vm_assert_on = true ∨ (b.NO_MEM = 0 ∧ 0 < fs)) →
      findhole_loop b pt vb vmin vmax n fuel curv ff fs tr = Run.done r →
      r = (b.NO_MEM, pt)
        ∨ (r.1 ≠ b.NO_MEM ∧ r = (r.1, { pt with pt_virtop := U32 (r.1 + vb) })) := by
  induction fuel with
  | zero =>
    intro curv ff fs tr r _ h
    unfold findhole_loop at h
    split at h
    · cases h
    · cases h; exact Or.inl rfl
  | succ fuel ih =>
    intro curv ff fs tr r hfs h
    unfold findhole_loop at h
    split at h
    · rename_i hcv
      have hfs1 : b.vm_assert_on = true ∨ (b.NO_MEM = 0 ∧ 0 < U32 (curv + 4096)) := by
        rcases hfs with hfs | hfs
        · exact Or.inl hfs
        · right; unfold U32; omega
      have hnext : ∀ c1 f1 s1, (b.vm_assert_on = true ∨ (b.NO_MEM = 0 ∧ 0 < s1)) →
          (if f1 ≥ n then findhole_found b pt vb vmin vmax s1
           else if (decide (c1 ≥ vmax) && tr) = true then
             findhole_loop b pt vb vmin vmax n fuel vmin f1 s1 false
           else findhole_loop b pt vb vmin vmax n fuel c1 f1 s1 tr) = Run.done r →
          r = (b.NO_MEM, pt)
            ∨ (r.1 ≠ b.NO_MEM ∧ r = (r.1, { pt with pt_virtop := U32 (r.1 + vb) })) := by
        intro c1 f1 s1 hs1 hr
        split at hr
        · right
          obtain ⟨e, ha⟩ := findhole_found_frame _ _ _ _ _ _ _ hr
          rw [e]
          refine ⟨?_, rfl⟩
          rcases hs1 with hs1 | hs1
          · exact (ha hs1).1
          · show s1 ≠ b.NO_MEM
            omega
        · split at hr
          · exact ih _ _ _ _ _ hs1 hr
          · exact ih _ _ _ _ _ hs1 hr
      rcases findhole_scan_cases pt curv ff fs with hc | ⟨_, hc⟩ | ⟨_, _, hc⟩ | ⟨_, hc⟩
      · rw [hc] at h; cases h
      · rw [hc] at h; exact hnext _ _ _ hfs h
      · rw [hc] at h; exact hnext _ _ _ hfs1 h
      · rw [hc] at h; exact hnext _ _ _ hfs h
    · cases h; exact Or.inl rfl

/-- C16 (counterexample): with `NO_MEM` = 0 and assertions compiled out, `findhole`
for the two-page window [0, 8192) of an empty table returns 0, which is
`NO_MEM`, and yet moves the cursor from 0 to 8192. -/
theorem findhole_no_mem_moves_cursor :
    findhole Build.release 8 pt_empty 8192 0 8192
        = Run.done (Build.release.NO_MEM, { pt_empty with pt_virtop := 8192 })
      ∧ pt_empty.pt_virtop = 0 :=
  ⟨rfl, rfl⟩

/-- C16 (amended): for a call that satisfies the asserted preconditions, with
`vm_assert` compiled in or `NO_MEM` = 0 < `vmin`: if `findhole` returns a value
other than `NO_MEM` the cursor is that value plus `virbytes` (in 32 bits), if
it returns `NO_MEM` the cursor is unchanged, and in both cases the directory,
the second-level pointers, the contents of all second-level tables, the
directory pointer and its physical address are unchanged. -/
theorem findhole_cursor_frame (b : Build) (fuel : Nat) (pt : pt_t) (virbytes vmin vmax : Nat)
    (r : Nat × pt_t)
    (hvmax4 : vmax % 4096 = 0) (hvmax32 : vmax < 4294967296)
    (hnm : b.vm_assert_on = true ∨ (b.NO_MEM = 0 ∧ 0 < vmin))
    (h : findhole b fuel pt virbytes vmin vmax = Run.done r) :
    (r.1 ≠ b.NO_MEM → r.2.pt_virtop = U32 (r.1 + virbytes))
      ∧ (r.1 = b.NO_MEM → r.2.pt_virtop = pt.pt_virtop)
      ∧ r.2.pt_dir = pt.pt_dir ∧ r.2.pt_pt = pt.pt_pt ∧ r.2.pt_tab = pt.pt_tab
      ∧ r.2.pt_dir_phys = pt.pt_dir_phys ∧ r.2.pt_dir_ptr = pt.pt_dir_ptr := by
  have hsame := findhole_same_table b fuel pt virbytes vmin vmax r h
  have hex : r = (b.NO_MEM, pt)
      ∨ (r.1 ≠ b.NO_MEM ∧ r = (r.1, { pt with pt_virtop := U32 (r.1 + virbytes) })) := by
    unfold findhole at h
    have h1 := vm_assert_done _ _ _ _ h
    have h2 := vm_assert_done _ _ _ _ h1
    have h3 := vm_assert_done _ _ _ _ h2
    have h4 := vm_assert_done _ _ _ _ h3
    have h5 := vm_assert_done _ _ _ _ h4
    split at h5
    · rename_i hc
      refine findhole_loop_exits b pt virbytes vmin vmax _ (by omega) fuel _ _ _ _ r ?_ h5
      rcases hnm with hn | hn
      · exact Or.inl hn
      · right; exact ⟨hn.1, by omega⟩
    · exact findhole_loop_exits b pt virbytes vmin vmax _ (by omega) fuel _ _ _ _ r hnm h5
  refine ⟨?_, ?_, hsame.2.2.1, hsame.2.2.2.1, hsame.2.2.2.2, hsame.2.1, hsame.1⟩
  · intro hne
    rcases hex with e | ⟨_, e⟩
    · rw [e] at hne; exact absurd rfl hne
    · rw [e]
  · intro heq
    rcases hex with e | ⟨hne, _⟩
    · rw [e]
    · exact absurd heq hne

/-- C16 (witness): the one-page window [4096, 8192) of the empty table. -/
theorem findhole_cursor_frame_witness :
    findhole Build.release 8 pt_empty 4096 4096 8192
        = Run.done (4096, { pt_empty with pt_virtop := 8192 })
      ∧ ((4096 : Nat) ≠ Build.release.NO_MEM →
          ({ pt_empty with pt_virtop := 8192 } : pt_t).pt_virtop = U32 (4096 + 4096)) :=
  ⟨rfl, (findhole_cursor_frame Build.release 8 pt_empty 4096 4096 8192
    (4096, { pt_empty with pt_virtop := 8192 }) (by decide) (by decide)
    (Or.inr ⟨rfl, by decide⟩) rfl).1⟩

theorem vm_getsparepage_loop_level (b : Build) (st : vm_state) (l : Nat) (n : Nat) :
    ∀ s, vm_getsparepage_loop b { st with level := l } n s
      = (vm_getsparepage_loop b st n s).bind fun r =>
          Run.done (r.1, r.2.1, { r.2.2 with level := l }) := by
  induction n with
  | zero => intro s; rfl
  | succ n ih =>
    intro s
    unfold vm_getsparepage_loop
    simp only []
    split
    · unfold vm_assert
      split <;> rfl
    · exact ih (s + 1)

/-- The nesting counter plays no part in `vm_getsparepage`. -/
theorem vm_getsparepage_level (b : Build) (st : vm_state) (l : Nat) :
    vm_getsparepage b { st with level := l }
      = (vm_getsparepage b st).bind fun r =>
          Run.done (r.1, r.2.1, { r.2.2 with level := l }) := by
  unfold vm_getsparepage vm_assert
  simp only []
  split
  · rfl
  · exact vm_getsparepage_loop_level b st l _ 0

theorem vm_getsparepage_keeps_level (b : Build) (st : vm_state) (r : Nat × Nat × vm_state)
    (h : vm_getsparepage b st = Run.done r) : r.2.2.level = st.level := by
  obtain ⟨k, _, hk⟩ := vm_getsparepage_done b st r h
  rw [hk]

/-- C18 (counterexample): with assertions compiled out, a call entered with the
nesting counter at 2 (the third level) returns a spare page instead of stopping
the server, and so does a request for two pages at level 1. -/
theorem vm_allocpages_depth3_returns :
    vm_allocpages Build.release 8 2 { st_demo with level := 2 } 1
        = Run.done (40960, some 1048576,
            { st_demo with level := 2
                           spare_page := upd st_demo.spare_page 0 0
                           missing_spares := st_demo.missing_spares + 1 })
      ∧ vm_allocpages Build.release 8 2 { st_demo with level := 1 } 2
        = Run.done (40960, some 1048576,
            { st_demo with level := 1
                           spare_page := upd st_demo.spare_page 0 0
                           missing_spares := st_demo.missing_spares + 1 }) :=
  ⟨rfl, rfl⟩

/-- C18 (amended): when the call is re-entrant (nesting counter 1 on entry) or the
manager has no page table yet, `vm_allocpages(phys, 1, reason)` is
`vm_getsparepage`: it returns that page, stores that physical address, and the
state afterwards is the one `vm_getsparepage` leaves, so the page tables, the
frame allocator and the nesting counter are as on entry.  With `vm_assert`
compiled in, a call entered with the counter at 2 or more, and a call on this
path for a number of pages other than 1, stop the server. -/
theorem vm_allocpages_reserve_path (b : Build) (fh d : Nat) (st : vm_state) :
    ((st.level = 1 ∨ (st.level = 0 ∧ st.vm_haspt = false)) →
        vm_allocpages b fh (d + 1) st 1
          = (vm_getsparepage b st).bind fun r => Run.done (r.1, some r.2.1, r.2.2))
      ∧ (b.vm_assert_on = true → 2 ≤ st.level → ∀ pages,
          vm_allocpages b fh (d + 1) st pages = Run.fatal)
      ∧ (b.vm_assert_on = true → (1 ≤ st.level ∨ st.vm_haspt = false) → ∀ pages, pages ≠ 1 →
          vm_allocpages b fh (d + 1) st pages = Run.fatal) := by
  refine ⟨?_, ?_, ?_⟩
  · intro hl
    unfold vm_allocpages
    simp only []
    rw [vm_assert_pass b _ _ (Or.inr (by decide))]
    rw [vm_assert_pass b _ _ (Or.inr (by simp))]
    rw [vm_assert_pass b _ _ (Or.inr (by
      rcases hl with hl | hl
      · simp [hl]
      · simp [hl.1]))]
    have hcond : st.level + 1 > 1 ∨ st.vm_haspt = false := by
      rcases hl with hl | hl
      · left; omega
      · right; exact hl.2
    rw [if_pos hcond]
    rw [vm_assert_pass b _ _ (Or.inr (by decide))]
    rw [vm_getsparepage_level]
    cases hg : vm_getsparepage b st with
    | done g =>
      have hlev := vm_getsparepage_keeps_level b st g hg
      simp only [Run.bind]
      congr 1
      congr 1
      congr 1
      cases hs : g.2.2
      rw [hs] at hlev
      simp only at hlev
      simp [hlev]
    | fatal => rfl
    | crash => rfl
    | fuel_out => rfl
  · intro hon hl pages
    unfold vm_allocpages vm_assert
    simp only [hon, Bool.true_and]
    split
    · rfl
    · split
      · rfl
      · split
        · rfl
        · rename_i hc
          simp at hc
          omega
  · intro hon hl pages hp
    unfold vm_allocpages vm_assert
    simp only [hon, Bool.true_and]
    split
    · rfl
    · split
      · rfl
      · split
        · rfl
        · have hcond : st.level + 1 > 1 ∨ st.vm_haspt = false := by
            rcases hl with hl | hl
            · left; omega
            · right; exact hl
          rw [if_pos hcond]
          simp [hp]

/-- C18 (witness): a re-entrant call in the example state, in the checking build. -/
theorem vm_allocpages_reserve_path_witness :
    vm_allocpages Build.strict 8 2 { st_demo with level := 1 } 1
        = (vm_getsparepage Build.strict { st_demo with level := 1 }).bind fun r =>
            Run.done (r.1, some r.2.1, r.2.2) :=
  (vm_allocpages_reserve_path Build.strict 8 1 { st_demo with level := 1 }).1 (Or.inl rfl)

theorem pt_writemap_pages_same (b : Build) (who flags wmf : Nat) (n : Nat) :
    ∀ (v pa : Nat) (st st' : vm_state),
      pt_writemap_pages b who flags wmf n v pa st = Run.done st' →
      ∃ pt, st' = st.set_pt who pt := by
  induction n with
  | zero =>
    intro v pa st st' h
    unfold pt_writemap_pages at h
    cases h
    exact ⟨st.vmproc_pt who, (set_pt_self st who).symm⟩
  | succ n ih =>
    intro v pa st st' h
    obtain ⟨_, h2⟩ := pt_writemap_pages_succ b who flags wmf n v pa st st' h
    obtain ⟨pt, hpt⟩ := ih _ _ _ _ h2
    exact ⟨pt, by rw [hpt]; simp⟩

theorem pt_writemap_tables_nested_level (b : Build) (fh d : Nat) (who flags : Nat) (n : Nat) :
    ∀ (pde : Nat) (st : vm_state) (r : Status × vm_state),
      (1 ≤ st.level ∨ st.vm_haspt = false) →
      pt_writemap_tables b (vm_allocpages b fh d) who flags n pde st = Run.done r →
      r.2.level = st.level ∧ r.2.vm_haspt = st.vm_haspt := by
  induction n with
  | zero =>
    intro pde st r _ h
    unfold pt_writemap_tables at h
    cases h
    exact ⟨rfl, rfl⟩
  | succ n ih =>
    intro pde st r hl h
    unfold pt_writemap_tables at h
    have h1 := vm_assert_done _ _ _ _ h
    split at h1
    · cases h1
    · split at h1
      · have h2 := vm_assert_done _ _ _ _ h1
        obtain ⟨a, hal, h3⟩ := Run.bind_done _ _ _ h2
        obtain ⟨hok, hlv, hhp⟩ := pt_ptalloc_nested b fh d st who pde flags a hl hal
        split at h3
        · rename_i hne; exact absurd hok hne
        · have h4 := vm_assert_done _ _ _ _ h3
          have := ih _ _ _ (by rw [hlv, hhp]; exact hl) h4
          exact ⟨this.1.trans hlv, this.2.trans hhp⟩
      · have h2 := vm_assert_done _ _ _ _ h1
        exact ih _ _ _ hl h2

/-- A nested `pt_writemap` returns with the nesting counter it was entered with. -/
theorem pt_writemap_with_nested_level (b : Build) (fh d : Nat) (st : vm_state)
    (who v pa bytes flags wmf : Nat) (r : Status × vm_state)
    (hl : 1 ≤ st.level ∨ st.vm_haspt = false)
    (h : pt_writemap_with b (vm_allocpages b fh d) st who v pa bytes flags wmf = Run.done r) :
    r.2.level = st.level := by
  obtain ⟨a, ht, h2⟩ := pt_writemap_with_done b _ st r.2 who v pa bytes flags wmf r.1 h
  have hlv := (pt_writemap_tables_nested_level b fh d who flags _ _ _ _ hl ht).1
  rcases h2 with ⟨_, _, he⟩ | ⟨_, _, hp⟩
  · rw [he]; exact hlv
  · obtain ⟨pt, hpt⟩ := pt_writemap_pages_same b who flags wmf _ _ _ _ _ hp
    rw [hpt]
    exact hlv

theorem vm_allocpages_level0 (b : Build) (fh d : Nat) (st : vm_state) (pages : Nat)
    (r : Nat × Option Nat × vm_state) (h0 : st.level = 0)
    (h : vm_allocpages b fh d st pages = Run.done r) : r.2.2.level = 0 := by
  cases d with
  | zero => unfold vm_allocpages at h; cases h
  | succ d =>
    unfold vm_allocpages at h
    have h1 := vm_assert_done _ _ _ _ h
    have h2 := vm_assert_done _ _ _ _ h1
    have h3 := vm_assert_done _ _ _ _ h2
    split at h3
    · have h4 := vm_assert_done _ _ _ _ h3
      obtain ⟨g, hg, h5⟩ := Run.bind_done _ _ _ h4
      have hlev := vm_getsparepage_keeps_level _ _ _ hg
      cases h5
      show g.2.2.level - 1 = 0
      rw [hlev]
      show st.level + 1 - 1 = 0
      omega
    · obtain ⟨f, hf, h4⟩ := Run.bind_done _ _ _ h3
      dsimp only at h4
      split at h4
      · cases h4
        show st.level + 1 - 1 = 0
        omega
      · have ham := ALLOC_MEM_same b
          (vm_state.set_pt { st with level := st.level + 1 } b.VM_PROC_NR f.2) pages
        have hl3 : (ALLOC_MEM b
            (vm_state.set_pt { st with level := st.level + 1 } b.VM_PROC_NR f.2) pages).2.level
            = st.level + 1 := ham.2.2.2.2.2.2.2.2.2.2.2.1
        split at h4
        · cases h4
          show (ALLOC_MEM b _ pages).2.level - 1 = 0
          rw [hl3]; omega
        · obtain ⟨w, hw, h5⟩ := Run.bind_done _ _ _ h4
          have hok := pt_writemap_with_nested b fh d _ _ _ _ _ _ _ w
            (Or.inl (by rw [hl3]; omega)) hw
          have hwl := pt_writemap_with_nested_level b fh d _ _ _ _ _ _ _ w
            (Or.inl (by rw [hl3]; omega)) hw
          split at h5
          · rename_i hne; exact absurd hok hne
          · cases h5
            show w.2.level - 1 = 0
            rw [hwl, hl3]; omega

theorem run_allocs_level0 (b : Build) (fh d : Nat) (l : List Nat) :
    ∀ (st st' : vm_state), st.level = 0 → run_allocs b fh d l st = Run.done st' →
      st'.level = 0 := by
  induction l with
  | nil =>
    intro st st' h0 h
    unfold run_allocs at h
    cases h
    exact h0
  | cons p rest ih =>
    intro st st' h0 h
    unfold run_allocs at h
    obtain ⟨r, hr, h2⟩ := Run.bind_done _ _ _ h
    exact ih _ _ (vm_allocpages_level0 b fh d st p r h0 hr) h2

/-- C19: a call of `vm_allocpages` entered with the nesting counter at 0 returns
with the counter at 0, whatever it returns, and so does any series of such
calls.  (The return after a failed `pt_writemap`, line 344, which does not
decrement the counter, is never taken: the nested `pt_writemap` gets its
second-level tables from the spare pages and cannot fail.) -/
theorem vm_allocpages_restores_level (b : Build) (fh d : Nat) (st : vm_state)
    (h0 : st.level = 0) :
    (∀ pages r, vm_allocpages b fh d st pages = Run.done r → r.2.2.level = 0)
      ∧ ∀ l st', run_allocs b fh d l st = Run.done st' → st'.level = 0 :=
  ⟨fun pages r h => vm_allocpages_level0 b fh d st pages r h0 h,
   fun l st' h => run_allocs_level0 b fh d l st st' h0 h⟩

theorem ALLOC_MEM_logs (b : Build) (st : vm_state) (clicks : Nat) :
    (ALLOC_MEM b st clicks).2.free_log = st.free_log
      ∧ ((ALLOC_MEM b st clicks).1 = b.NO_MEM →
          (ALLOC_MEM b st clicks).2.alloc_log = st.alloc_log)
      ∧ ((ALLOC_MEM b st clicks).1 ≠ b.NO_MEM →
          (ALLOC_MEM b st clicks).2.alloc_log
            = st.alloc_log ++ [((ALLOC_MEM b st clicks).1, clicks)]) := by
  unfold ALLOC_MEM
  split
  · simp
  · split
    · rename_i h; simp [h]
    · rename_i h; simp [h]

set_option maxRecDepth 100000 in
/-- C12 (the code at a failing input): the manager's heap window is
[4194304, 4210688), the cursor is at 4198400 and page 4202496 is mapped.  A
request for two pages makes `findhole` return 4206592 after its wrap-around
(the defect of C1), and `vm_allocpages` maps the two pages from there and
returns the pointer: the range ends at 4214784, above `vm_data_top`, and its
second page, 4210688, was mapped to another frame before the call.  With
`vm_assert` and the sanity checks compiled in, the same call stops the
server. -/
theorem vm_allocpages_leaves_window :
    vm_allocpages Build.release 8 2 st_heap 2
        = Run.done (4206592, some 1048576,
            (Run.get (vm_allocpages Build.release 8 2 st_heap 2) (0, none, st_heap)).2.2)
      ∧ st_heap.level = 0 ∧ st_heap.vm_haspt = true
      ∧ Build.release.arch_map2vir 4206592 = 4206592
      ∧ ¬ (4206592 + 4096 * 2 ≤ st_heap.vm_data_top)
      ∧ unmapped (st_heap.vmproc_pt 0) (4206592 + 4096) = false
      ∧ (st_heap.vmproc_pt 0).leaf 1 4 = 12582919
      ∧ (((Run.get (vm_allocpages Build.release 8 2 st_heap 2)
            (0, none, st_heap)).2.2).vmproc_pt 0).leaf 1 4 = 1052679
      ∧ vm_allocpages Build.strict 8 2 st_heap 2 = Run.fatal :=
  ⟨rfl, rfl, rfl, rfl, by decide, rfl, rfl, rfl, rfl⟩

theorem pt_ptalloc_keeps {γ : Type} (f : vm_state → γ)
    (hf : ∀ st who pt, f (vm_state.set_pt st who pt) = f st)
    (b : Build) (alloc : Allocator)
    (ha : ∀ st pages r, alloc st pages = Run.done r → f r.2.2 = f st)
    (st : vm_state) (who pde flags : Nat) (r : Status × vm_state)
    (h : pt_ptalloc b alloc st who pde flags = Run.done r) : f r.2 = f st := by
  obtain ⟨a, hal, h2⟩ := pt_ptalloc_done b alloc st who pde flags r h
  rcases h2 with ⟨_, hr⟩ | ⟨_, hr, _⟩
  · rw [hr]; exact (hf _ _ _).trans (ha _ _ _ hal)
  · rw [hr]; exact (hf _ _ _).trans (ha _ _ _ hal)

theorem pt_writemap_tables_keeps {γ : Type} (f : vm_state → γ)
    (hf : ∀ st who pt, f (vm_state.set_pt st who pt) = f st)
    (b : Build) (alloc : Allocator)
    (ha : ∀ st pages r, alloc st pages = Run.done r → f r.2.2 = f st)
    (who flags : Nat) (n : Nat) :
    ∀ (pde : Nat) (st : vm_state) (r : Status × vm_state),
      pt_writemap_tables b alloc who flags n pde st = Run.done r → f r.2 = f st := by
  induction n with
  | zero =>
    intro pde st r h
    unfold pt_writemap_tables at h
    cases h
    rfl
  | succ n ih =>
    intro pde st r h
    unfold pt_writemap_tables at h
    have h1 := vm_assert_done _ _ _ _ h
    split at h1
    · cases h1
    · split at h1
      · have h2 := vm_assert_done _ _ _ _ h1
        obtain ⟨a, hal, h3⟩ := Run.bind_done _ _ _ h2
        have hs := pt_ptalloc_keeps f hf b alloc ha st who pde flags a hal
        split at h3
        · cases h3; exact hs
        · have h4 := vm_assert_done _ _ _ _ h3
          exact (ih _ _ _ h4).trans hs
      · have h2 := vm_assert_done _ _ _ _ h1
        exact ih _ _ _ h2

/-- Whatever part of the state the allocator keeps and `set_pt` does not touch,
`pt_writemap` keeps. -/
theorem pt_writemap_with_keeps {γ : Type} (f : vm_state → γ)
    (hf : ∀ st who pt, f (vm_state.set_pt st who pt) = f st)
    (b : Build) (alloc : Allocator)
    (ha : ∀ st pages r, alloc st pages = Run.done r → f r.2.2 = f st)
    (st : vm_state) (who v pa bytes flags wmf : Nat) (r : Status × vm_state)
    (h : pt_writemap_with b alloc st who v pa bytes flags wmf = Run.done r) : f r.2 = f st := by
  obtain ⟨a, ht, h2⟩ := pt_writemap_with_done b alloc st r.2 who v pa bytes flags wmf r.1 h
  have hs := pt_writemap_tables_keeps f hf b alloc ha who flags _ _ _ _ ht
  rcases h2 with ⟨_, _, he⟩ | ⟨_, _, hp⟩
  · rw [he]; exact hs
  · obtain ⟨pt, hpt⟩ := pt_writemap_pages_same b who flags wmf _ _ _ _ _ hp
    rw [hpt]
    exact (hf _ _ _).trans hs

/-- No returning `vm_allocpages` has called `FREE_MEM`. -/
theorem vm_allocpages_free_log (b : Build) (fh : Nat) (d : Nat) :
    ∀ st pages r, vm_allocpages b fh d st pages = Run.done r → r.2.2.free_log = st.free_log := by
  induction d with
  | zero => intro st pages r h; unfold vm_allocpages at h; cases h
  | succ d ih =>
    intro st pages r h
    unfold vm_allocpages at h
    have h1 := vm_assert_done _ _ _ _ h
    have h2 := vm_assert_done _ _ _ _ h1
    have h3 := vm_assert_done _ _ _ _ h2
    split at h3
    · have h4 := vm_assert_done _ _ _ _ h3
      obtain ⟨g, hg, h5⟩ := Run.bind_done _ _ _ h4
      obtain ⟨k, _, hk⟩ := vm_getsparepage_done _ _ _ hg
      cases h5
      rw [hk]
    · obtain ⟨f, hf, h4⟩ := Run.bind_done _ _ _ h3
      dsimp only at h4
      split at h4
      · cases h4; rfl
      · have hlog := ALLOC_MEM_logs b
          (vm_state.set_pt { st with level := st.level + 1 } b.VM_PROC_NR f.2) pages
        have ham := ALLOC_MEM_same b
          (vm_state.set_pt { st with level := st.level + 1 } b.VM_PROC_NR f.2) pages
        split at h4
        · cases h4
          exact hlog.1
        · obtain ⟨x, hw, h5⟩ := Run.bind_done _ _ _ h4
          have hok := pt_writemap_with_nested b fh d _ _ _ _ _ _ _ x
            (Or.inl (by rw [ham.2.2.2.2.2.2.2.2.2.2.2.1]; show 1 ≤ st.level + 1; omega)) hw
          have hk := pt_writemap_with_keeps (fun s => s.free_log) (fun _ _ _ => rfl) b _ ih
            _ _ _ _ _ _ _ x hw
          split at h5
          · rename_i hne; exact absurd hok hne
          · cases h5
            exact hk.trans hlog.1

theorem vm_freepages_log (b : Build) (fh d : Nat) (st st' : vm_state) (vir phys pages : Nat)
    (h : vm_freepages b fh d st vir phys pages = Run.done st') :
    st'.free_log
      = st.free_log ++ (if vir ≥ st.vm_stacktop then [(phys / I386_PAGE_SIZE, pages)] else []) := by
  unfold vm_freepages at h
  split at h
  · rename_i hv
    have h1 := vm_assert_done _ _ _ _ h
    have h2 := vm_assert_done _ _ _ _ h1
    obtain ⟨w, hw, h3⟩ := Run.bind_done _ _ _ h2
    have hk := pt_writemap_with_keeps (fun s => s.free_log) (fun _ _ _ => rfl) b _
      (vm_allocpages_free_log b fh d) _ _ _ _ _ _ _ w hw
    split at h3
    · cases h3
    · cases h3
      rw [if_pos hv]
      exact hk
  · rename_i hv
    cases h
    rw [if_neg hv]
    simp

theorem pt_free_loop_log (b : Build) (fh d who : Nat) (hwho : who ≠ b.VM_PROC_NR) (n : Nat) :
    ∀ (i : Nat) (st st' : vm_state), pt_free_loop b fh d who n i st = Run.done st' →
      st'.free_log = st.free_log ++ pt_free_frames (st.vmproc_pt who) st.vm_stacktop n i := by
  induction n with
  | zero =>
    intro i st st' h
    unfold pt_free_loop at h
    cases h
    simp [pt_free_frames]
  | succ n ih =>
    intro i st st' h
    unfold pt_free_loop at h
    dsimp only at h
    split at h
    · rename_i hne
      obtain ⟨s1, h1, h2⟩ := Run.bind_done _ _ _ h
      have hstep := vm_freepages_step _ _ _ _ _ _ _ _ h1
      have hlog := vm_freepages_log _ _ _ _ _ _ _ _ h1
      have hrec := ih _ _ _ h2
      rw [hstep.others who hwho hwho, hstep.globals.2.2.1] at hrec
      have hu : pt_free_frames (st.vmproc_pt who) st.vm_stacktop (n + 1) i
          = (if (st.vmproc_pt who).pt_pt i ≠ 0 ∧ (st.vmproc_pt who).pt_pt i ≥ st.vm_stacktop then
              [(I386_VM_PFA ((st.vmproc_pt who).pt_dir i) / I386_PAGE_SIZE, 1)] else [])
            ++ pt_free_frames (st.vmproc_pt who) st.vm_stacktop n (i + 1) := rfl
      rw [hrec, hlog, hu]
      by_cases hv : (st.vmproc_pt who).pt_pt i ≥ st.vm_stacktop
      · rw [if_pos hv, if_pos ⟨hne, hv⟩, List.append_assoc]
      · rw [if_neg hv, if_neg (fun c => hv c.2)]
        simp
    · rename_i hz
      have hz0 : (st.vmproc_pt who).pt_pt i = 0 := by simpa using hz
      have hu : pt_free_frames (st.vmproc_pt who) st.vm_stacktop (n + 1) i
          = (if (st.vmproc_pt who).pt_pt i ≠ 0 ∧ (st.vmproc_pt who).pt_pt i ≥ st.vm_stacktop then
              [(I386_VM_PFA ((st.vmproc_pt who).pt_dir i) / I386_PAGE_SIZE, 1)] else [])
            ++ pt_free_frames (st.vmproc_pt who) st.vm_stacktop n (i + 1) := rfl
      rw [ih _ _ _ h, hu, if_neg (fun c => c.1 hz0)]
      simp

/-- C13 (amended): for a table other than the manager's own, the `FREE_MEM` calls
of a returning `pt_free` are, in slot order, one call with count 1 for the
frame of the directory entry of every slot whose second-level pointer is set
and not below `vm_stacktop`; tables below `vm_stacktop` are not released, and
neither is anything else (the directory frame included). -/
theorem pt_free_releases (b : Build) (fh d : Nat) (st st' : vm_state) (who : Nat)
    (hwho : who ≠ b.VM_PROC_NR) (h : pt_free b fh d st who = Run.done st') :
    st'.free_log
      = st.free_log ++ pt_free_frames (st.vmproc_pt who) st.vm_stacktop 1024 0 := by
  unfold pt_free at h
  exact pt_free_loop_log b fh d who hwho _ _ _ _ (PT_SANE_done _ _ _ _ _ h)

set_option maxRecDepth 100000 in
/-- C13 (the code at an input of the claim): the table in slot 1 has a
second-level table for directory slot 1 in a spare page, at 40960 below
`vm_stacktop` = 4194304, backed by the frame at 1048576. `pt_free` returns
with the state as it was: nothing has been passed to `FREE_MEM`. -/
theorem pt_free_keeps_low_table :
    pt_free Build.release 8 2 st_spare_table 1 = Run.done st_spare_table
      ∧ (st_spare_table.vmproc_pt 1).pt_pt 1 = 40960
      ∧ st_spare_table.vm_stacktop = 4194304
      ∧ I386_VM_PFA ((st_spare_table.vmproc_pt 1).pt_dir 1) = 1048576
      ∧ 1 ≠ Build.release.VM_PROC_NR
      ∧ st_spare_table.free_log = [] :=
  ⟨rfl, rfl, rfl, rfl, by decide, rfl⟩

set_option maxRecDepth 100000 in
/-- C13 (witness): `pt_free` on the table of slot 1 with one second-level table,
which `vm_allocpages` had put at 4194304 on frame 256. -/
theorem pt_free_releases_witness :
    pt_free Build.release 8 2 st_table 1
        = Run.done (Run.get (pt_free Build.release 8 2 st_table 1) st_table)
      ∧ (st_table.vmproc_pt 1).pt_pt 1 = 4194304
      ∧ (Run.get (pt_free Build.release 8 2 st_table 1) st_table).free_log = [(256, 1)]
      ∧ (Run.get (pt_free Build.release 8 2 st_table 1) st_table).free_log
          = st_table.free_log
            ++ pt_free_frames (st_table.vmproc_pt 1) st_table.vm_stacktop 1024 0 :=
  ⟨rfl, rfl, rfl, pt_free_releases Build.release 8 2 st_table _ 1 (by decide) rfl⟩

set_option maxRecDepth 100000 in
/-- C11 (the code at a failing input): one spare page is taken from the full
pool, so slot 0 is empty and `missing_spares` is 1, and the frame allocator is
out of memory.  `pt_cycle` returns, having stored the `NULL` of `vm_allocpages`
in slot 0 and counted it as a refill: slot 0 is still empty, `missing_spares`
is 0, and the fifth `vm_getsparepage` after it ends in the panic.  The same
happens with `vm_assert` and the sanity checks compiled in. -/
theorem pt_cycle_stores_null :
    take_spares Build.release 1 st_no_frames = Run.done st_one_taken
      ∧ st_one_taken.spare_page 0 = 0 ∧ st_one_taken.missing_spares = 1
      ∧ pt_cycle Build.release 8 2 st_one_taken
          = Run.done (Run.get (pt_cycle Build.release 8 2 st_one_taken) st_one_taken)
      ∧ (Run.get (pt_cycle Build.release 8 2 st_one_taken) st_one_taken).spare_page 0 = 0
      ∧ (Run.get (pt_cycle Build.release 8 2 st_one_taken) st_one_taken).missing_spares = 0
      ∧ take_spares Build.release 5
          (Run.get (pt_cycle Build.release 8 2 st_one_taken) st_one_taken) = Run.fatal
      ∧ pt_cycle Build.strict 8 2 st_one_taken
          = Run.done (Run.get (pt_cycle Build.strict 8 2 st_one_taken) st_one_taken)
      ∧ (Run.get (pt_cycle Build.strict 8 2 st_one_taken) st_one_taken).spare_page 0 = 0
      ∧ (Run.get (pt_cycle Build.strict 8 2 st_one_taken) st_one_taken).missing_spares = 0
      ∧ take_spares Build.strict 5
          (Run.get (pt_cycle Build.strict 8 2 st_one_taken) st_one_taken) = Run.fatal :=
  ⟨rfl, rfl, rfl, rfl, rfl, rfl, rfl, rfl, rfl, rfl, rfl⟩

set_option maxRecDepth 100000 in
/-- A second way in which `pt_cycle` leaves a slot empty, with frames at hand:
two spare pages are taken, and the manager's cursor is at the last page but one
of directory slot 1.  The refill of slot 0 gets page 8380416; the refill of
slot 1 gets page 8384512, for which `pt_writemap` also visits directory slot 2
and takes the lowest spare page for its table, which is slot 0.  The loop does
not come back to slot 0: `pt_cycle` returns with slot 0 empty and
`missing_spares` 1, and the fifth `vm_getsparepage` after it ends in the
panic. -/
theorem pt_cycle_reentrant_take_empties_slot :
    take_spares Build.release 2 st_boundary = Run.done st_two_taken
      ∧ pt_cycle Build.release 8 2 st_two_taken
          = Run.done (Run.get (pt_cycle Build.release 8 2 st_two_taken) st_two_taken)
      ∧ (Run.get (pt_cycle Build.release 8 2 st_two_taken) st_two_taken).spare_page 0 = 0
      ∧ (Run.get (pt_cycle Build.release 8 2 st_two_taken) st_two_taken).spare_page 1 = 8384512
      ∧ ((Run.get (pt_cycle Build.release 8 2 st_two_taken) st_two_taken).vmproc_pt 0).pt_pt 2
          = 8380416
      ∧ (Run.get (pt_cycle Build.release 8 2 st_two_taken) st_two_taken).missing_spares = 1
      ∧ (Run.get (pt_cycle Build.release 8 2 st_two_taken) st_two_taken).alloc_log
          = [(256, 1), (257, 1)]
      ∧ take_spares Build.release 5
          (Run.get (pt_cycle Build.release 8 2 st_two_taken) st_two_taken) = Run.fatal :=
  ⟨rfl, rfl, rfl, rfl, rfl, rfl, rfl, rfl⟩

set_option maxRecDepth 100000 in
/-- C19 (witness): a call in the example state, entered at level 0. -/
theorem vm_allocpages_restores_level_witness :
    st_demo.level = 0
      ∧ vm_allocpages Build.strict 8 2 st_demo 1
          = Run.done (Run.get (vm_allocpages Build.strict 8 2 st_demo 1) (0, none, st_demo))
      ∧ (Run.get (vm_allocpages Build.strict 8 2 st_demo 1) (0, none, st_demo)).1 = 4194304
      ∧ (Run.get (vm_allocpages Build.strict 8 2 st_demo 1) (0, none, st_demo)).2.2.level = 0 :=
  ⟨rfl, rfl, rfl,
   (vm_allocpages_restores_level Build.strict 8 2 st_demo rfl).1 1 _ rfl⟩

/-- With `vm_assert` compiled in, a returning write loop has found the directory
entry of every page present. -/
theorem pt_writemap_pages_present (b : Build) (who flags wmf : Nat)
    (hon : b.vm_assert_on = true) (n : Nat) :
    ∀ (v pa : Nat) (st st' : vm_state), v < 4294967296 →
      pt_writemap_pages b who flags wmf n v pa st = Run.done st' →
      ∀ i, i < n → present ((st.vmproc_pt who).pt_dir (I386_VM_PDE (U32 (v + 4096 * i)))) = true := by
  induction n with
  | zero => intro v pa st st' _ _ i hi; omega
  | succ n ih =>
    intro v pa st st' hv h i hi
    have hd := pt_writemap_pages_dir b who flags wmf n v pa st st' h hon
    obtain ⟨_, h2⟩ := pt_writemap_pages_succ b who flags wmf n v pa st st' h
    have hv1 : U32 (v + 4096) < 4294967296 := by unfold U32; omega
    cases i with
    | zero =>
      have h0 : U32 (v + 4096 * 0) = v := by unfold U32; omega
      rw [h0]; exact hd
    | succ i =>
      have := ih _ _ _ _ hv1 h2 i (by omega)
      have hshift : U32 (U32 (v + 4096) + 4096 * i) = U32 (v + 4096 * (i + 1)) := by
        unfold U32; omega
      rw [hshift] at this
      simpa using this

set_option maxRecDepth 100000 in
/-- C17 (the code at an input of the claim): a call on the manager's own table
for the two pages from 12578816 on, the last page of directory slot 2 and the
first of slot 3, both slots having no table.  The table for slot 3 comes from
`vm_allocpages`, which maps its page at 8388608 in the manager's table: that
is leaf entry 0 of the table just made for slot 2.  The call returns `OK` with
that entry set, outside the requested range.  And a call on the table in slot
1, whose second-level table of directory slot 1, at 4194304, has been freed
with `pt_free` (which leaves `pt_pt[1]` and the directory entry in place), for
the two pages from 8384512 on, the last page of slot 1 and the first of slot 2:
the table made for slot 2 is put at 4194304 again, so the entry written for
the first page, through `pt_pt[1]`, is entry 1023 of the new table, outside the
requested range and not 0 when the call returns `OK`. -/
theorem pt_writemap_own_table_leaf :
    pt_writemap Build.release 8 2 st_last 0 12578816 20971520 8192 7 0
        = Run.done (Status.OK,
            after (pt_writemap Build.release 8 2 st_last 0 12578816 20971520 8192 7 0) st_last)
      ∧ Build.release.VM_PROC_NR = 0
      ∧ present ((st_last.vmproc_pt 0).pt_dir 2) = false
      ∧ I386_VM_PDE 12578816 = 2 ∧ I386_VM_PTE 12578816 = 1023
      ∧ I386_VM_PDE (12578816 + 4096) = 3 ∧ I386_VM_PTE (12578816 + 4096) = 0
      ∧ present (((after (pt_writemap Build.release 8 2 st_last 0 12578816 20971520 8192 7 0)
          st_last).vmproc_pt 0).pt_dir 2) = true
      ∧ ((after (pt_writemap Build.release 8 2 st_last 0 12578816 20971520 8192 7 0)
          st_last).vmproc_pt 0).leaf 2 0 = 1052679
      ∧ run_calls Build.release 8 2 [Call.writemap 1 4194304 5242880 4096 7 0, Call.free 1]
          st_small = Run.done st_freed
      ∧ pt_writemap Build.release 8 2 st_freed 1 8384512 6291456 8192 7 1
          = Run.done (Status.OK,
              after (pt_writemap Build.release 8 2 st_freed 1 8384512 6291456 8192 7 1) st_freed)
      ∧ Build.release.VM_PROC_NR ≠ 1
      ∧ present ((st_freed.vmproc_pt 1).pt_dir 2) = false
      ∧ present (((after (pt_writemap Build.release 8 2 st_freed 1 8384512 6291456 8192 7 1)
          st_freed).vmproc_pt 1).pt_dir 2) = true
      ∧ I386_VM_PDE 8384512 = 1 ∧ I386_VM_PTE 8384512 = 1023
      ∧ I386_VM_PDE (8384512 + 4096) = 2 ∧ I386_VM_PTE (8384512 + 4096) = 0
      ∧ ((after (pt_writemap Build.release 8 2 st_freed 1 8384512 6291456 8192 7 1)
          st_freed).vmproc_pt 1).pt_pt 2
          = ((after (pt_writemap Build.release 8 2 st_freed 1 8384512 6291456 8192 7 1)
              st_freed).vmproc_pt 1).pt_pt 1
      ∧ ((after (pt_writemap Build.release 8 2 st_freed 1 8384512 6291456 8192 7 1)
          st_freed).vmproc_pt 1).leaf 2 1023 = 6291463 :=
  ⟨rfl, rfl, rfl, rfl, rfl, rfl, rfl, rfl, rfl, rfl, rfl, by decide, rfl, rfl, rfl, rfl, rfl,
    rfl, rfl, rfl⟩

/-- A page-aligned 32-bit address is its own frame address. -/
theorem and_mask_aligned (x : Nat) (h1 : x % 4096 = 0) (h2 : x < 4294967296) :
    x &&& I386_VM_ADDR_MASK = x := by
  unfold I386_VM_ADDR_MASK
  have e1 : x &&& 4095 = 0 := by
    have := Nat.and_pow_two_sub_one_eq_mod x 12
    norm_num at this
    omega
  have e2 : x &&& 4294967295 = x := by
    have := Nat.and_pow_two_sub_one_eq_mod x 32
    norm_num at this
    omega
  have e3 : (4294963200 : Nat) ||| 4095 = 4294967295 := by decide
  have e4 : x &&& (4294963200 ||| 4095) = (x &&& 4294963200) ||| (x &&& 4095) :=
    Nat.and_or_distrib_left x 4294963200 4095
  rw [e3, e2, e1, Nat.or_zero] at e4
  exact e4.symm

/-- C14: `pt_bind(pt, who)` for a table with a page-aligned directory address and
a live process with a slot in [0, 1024), once `pt_init` has set up the
registry: the call returns what the kernel answers to the `SETCR3` request
for the endpoint of `who` with root `pt_dir_phys`; slot `vm_slot` of the
registry holds `pt_dir_phys | PRESENT | WRITE`, the other slots are as before,
and the page tables and the other globals are as before.  (The call goes
through with `vm_assert` compiled out or the slot below `ELEMENTS(vmproc)`, and
with the sanity checks compiled out or passing on the table.) -/
theorem pt_bind_registry (b : Build) (nprocs : Nat) (ks : bind_state) (t : Nat) (w : vmproc)
    (hreg : ks.page_directories_ptr ≠ 0)
    (hinuse : w.vm_inuse = true) (hs0 : 0 ≤ w.vm_slot) (hs1 : w.vm_slot < 1024)
    (hal : (ks.vm.vmproc_pt t).pt_dir_phys % 4096 = 0)
    (h32 : (ks.vm.vmproc_pt t).pt_dir_phys < 4294967296)
    (hn : b.vm_assert_on = false ∨ w.vm_slot < (nprocs : Int))
    (hsane : b.SANITYCHECKS = false ∨ pt_sanitycheck ks.vm t = true) :
    ∃ ks', pt_bind b nprocs ks (some t) (some w)
          = Run.done (ks.setcr3_answer w.vm_endpoint (ks.vm.vmproc_pt t).pt_dir_phys, ks')
      ∧ ks'.page_directories w.vm_slot.toNat
          = (ks.vm.vmproc_pt t).pt_dir_phys ||| I386_VM_PRESENT ||| I386_VM_WRITE
      ∧ (∀ s, s ≠ w.vm_slot.toNat → ks'.page_directories s = ks.page_directories s)
      ∧ ks'.vm = ks.vm
      ∧ ks'.page_directories_ptr = ks.page_directories_ptr
      ∧ ks'.setcr3_answer = ks.setcr3_answer
      ∧ ks'.setcr3_log
          = ks.setcr3_log ++ [(w.vm_endpoint, (ks.vm.vmproc_pt t).pt_dir_phys)] := by
  have hm := and_mask_aligned _ hal h32
  refine ⟨{ ks with
      page_directories := upd ks.page_directories w.vm_slot.toNat
        ((ks.vm.vmproc_pt t).pt_dir_phys ||| I386_VM_PRESENT ||| I386_VM_WRITE)
      setcr3_log := ks.setcr3_log ++ [(w.vm_endpoint, (ks.vm.vmproc_pt t).pt_dir_phys)] },
    ?_, ?_, ?_, rfl, rfl, rfl, rfl⟩
  · unfold pt_bind
    dsimp only
    rw [vm_assert_pass b _ _ (Or.inr hinuse)]
    have hps : PT_SANE b ks.vm t = fun (k : Run (Int × bind_state)) => k := by
      funext k
      unfold PT_SANE
      rcases hsane with h | h <;> simp [h]
    rw [hps]
    dsimp only
    rw [vm_assert_pass b _ _ (Or.inr (by simpa using hs0))]
    rw [vm_assert_pass b _ _ (by
      rcases hn with h | h
      · exact Or.inl h
      · exact Or.inr (by simpa using h))]
    rw [vm_assert_pass b _ _ (Or.inr (by simp [I386_VM_PT_ENTRIES]; omega))]
    rw [vm_assert_pass b _ _ (Or.inr (by rw [hm]; simp))]
    rw [if_neg (by simp [I386_VM_PT_ENTRIES]; omega), hm]
  · simp [upd]
  · intro s hs
    simp [upd, hs]

set_option maxRecDepth 100000 in
/-- C14 (witness): binding the manager's table to the process in slot 3. -/
theorem pt_bind_registry_witness :
    ∃ ks', pt_bind Build.strict 256 ks_demo (some 0) (some who_demo) = Run.done (0, ks')
      ∧ ks'.page_directories 3 = 4099
      ∧ (∀ s, s ≠ 3 → ks'.page_directories s = 0)
      ∧ ks'.vm = st_demo
      ∧ ks'.page_directories_ptr = 61440
      ∧ ks'.setcr3_answer = ks_demo.setcr3_answer
      ∧ ks'.setcr3_log = [(71, 4096)] :=
  pt_bind_registry Build.strict 256 ks_demo 0 who_demo (by decide) rfl (by decide) (by decide)
    (by decide) (by decide) (Or.inr (by decide)) (Or.inr rfl)

set_option maxRecDepth 100000 in
/-- C22 (the code at failing inputs): on the new table of slot 1, mapping the one
page 8384512, the last page of directory slot 1, so that the range ends on the
4 MiB boundary 8388608.  `finalpde` is the slot of `v + bytes`, slot 2, and the
first loop runs up to it: the call returns `OK` with a second-level table
allocated for slot 2 as well, on frame 257, though no page of the range lies
in slot 2.  And the call with `bytes` = 0 at 4259840 allocates the table of
slot 1, on frame 256. -/
theorem pt_writemap_allocates_past_range :
    pt_writemap Build.release 8 2 st_new 1 8384512 5242880 4096 7 0
        = Run.done (Status.OK,
            after (pt_writemap Build.release 8 2 st_new 1 8384512 5242880 4096 7 0) st_new)
      ∧ I386_VM_PDE 8384512 = 1 ∧ 8384512 + 4096 = 2 * 4194304
      ∧ (st_new.vmproc_pt 1).pt_dir 2 = 0 ∧ (st_new.vmproc_pt 1).pt_pt 2 = 0
      ∧ st_new.alloc_log = []
      ∧ ((after (pt_writemap Build.release 8 2 st_new 1 8384512 5242880 4096 7 0)
            st_new).vmproc_pt 1).pt_dir 2 = 1052679
      ∧ ((after (pt_writemap Build.release 8 2 st_new 1 8384512 5242880 4096 7 0)
            st_new).vmproc_pt 1).pt_pt 2 = 4198400
      ∧ (after (pt_writemap Build.release 8 2 st_new 1 8384512 5242880 4096 7 0)
            st_new).alloc_log = [(256, 1), (257, 1)]
      ∧ pt_writemap Build.release 8 2 st_new 1 4259840 5242880 0 7 0
        = Run.done (Status.OK,
            after (pt_writemap Build.release 8 2 st_new 1 4259840 5242880 0 7 0) st_new)
      ∧ (st_new.vmproc_pt 1).pt_pt 1 = 0
      ∧ ((after (pt_writemap Build.release 8 2 st_new 1 4259840 5242880 0 7 0)
            st_new).vmproc_pt 1).pt_pt 1 = 4194304
      ∧ (after (pt_writemap Build.release 8 2 st_new 1 4259840 5242880 0 7 0)
            st_new).alloc_log = [(256, 1)]
      ∧ ((after (pt_writemap Build.strict 8 2 st_new 1 8384512 5242880 4096 7 0)
            st_new).vmproc_pt 1).pt_pt 2 = 4198400
      ∧ ((after (pt_writemap Build.strict 8 2 st_new 1 4259840 5242880 0 7 0)
            st_new).vmproc_pt 1).pt_pt 1 = 4194304 :=
  ⟨rfl, rfl, rfl, rfl, rfl, rfl, rfl, rfl, rfl, rfl, rfl, rfl, rfl, rfl, rfl⟩

/-- The scan of `pt_low_mapped` for the whole window [0, 4294963200): in slot 0
every page is mapped and resets the free run; every other slot is absent and
adds 1024 pages, which after the last slot makes 1047552, one page table short
of the 1048575 needed, and wraps `curv` from 4290772992 to 0 in 32 bits.  So
`curv` is below `vmax` for ever. -/
theorem findhole_loop_never_exits (b : Build) (fuel : Nat) :
    ∀ (curv ff fs : Nat) (tr : Bool), curv % 4096 = 0 →
      (curv < 4194304
        ∨ (curv % 4194304 = 0 ∧ 4194304 ≤ curv ∧ curv < 4294967296 ∧ ff + 1024 ≤ curv / 4096)) →
      findhole_loop b pt_low_mapped 4294963200 0 4294963200 1048575 fuel curv ff fs tr
        = Run.fuel_out := by
  induction fuel with
  | zero =>
    intro curv ff fs tr _ hreg
    unfold findhole_loop
    rw [if_pos (by omega)]
  | succ fuel ih =>
    intro curv ff fs tr h4 hreg
    unfold findhole_loop
    rw [if_pos (by omega)]
    rcases hreg with h1 | ⟨h1, h2, h3, h5⟩
    · have hpde : I386_VM_PDE curv = 0 := by unfold I386_VM_PDE; omega
      have hscan : findhole_scan pt_low_mapped curv ff fs
          = some (curv + 4096, 0, curv + 4096) := by
        have hu : U32 (curv + 4096) = curv + 4096 := by unfold U32; omega
        unfold findhole_scan
        simp only [hpde, pt_low_mapped, I386_PAGE_SIZE, hu]
        rfl
      rw [hscan]
      simp only []
      rw [if_neg (by omega)]
      have hnext : curv + 4096 < 4194304
          ∨ ((curv + 4096) % 4194304 = 0 ∧ 4194304 ≤ curv + 4096
              ∧ curv + 4096 < 4294967296 ∧ 0 + 1024 ≤ (curv + 4096) / 4096) := by
        omega
      split
      · exact ih 0 0 (curv + 4096) false (by decide) (Or.inl (by decide))
      · exact ih (curv + 4096) 0 (curv + 4096) tr (by omega) hnext
    · have hpde : I386_VM_PDE curv ≠ 0 := by unfold I386_VM_PDE; omega
      have hpte : I386_VM_PTE curv = 0 := by unfold I386_VM_PTE; omega
      have hscan : findhole_scan pt_low_mapped curv ff fs
          = some (U32 (curv + 4194304), ff + 1024, fs) := by
        have hu : U32 (ff + 1024) = ff + 1024 := by unfold U32; omega
        unfold findhole_scan
        simp only [hpte, pt_low_mapped, if_neg hpde, I386_PAGE_SIZE, I386_VM_PT_ENTRIES, hu]
        rfl
      rw [hscan]
      simp only []
      rw [if_neg (by omega)]
      have hnext : U32 (curv + 4194304) < 4194304
          ∨ (U32 (curv + 4194304) % 4194304 = 0 ∧ 4194304 ≤ U32 (curv + 4194304)
              ∧ U32 (curv + 4194304) < 4294967296
              ∧ ff + 1024 + 1024 ≤ U32 (curv + 4194304) / 4096) := by
        unfold U32; omega
      have h4' : U32 (curv + 4194304) % 4096 = 0 := by unfold U32; omega
      split
      · exact ih 0 (ff + 1024) fs false (by decide) (Or.inl (by decide))
      · exact ih (U32 (curv + 4194304)) (ff + 1024) fs tr h4' hnext

/-- C25 (the code at a failing input): the call for the whole window
[0, 4294963200) of `pt_low_mapped`, which meets the asserted preconditions, never
leaves the scan loop, in any build: no number of iterations is enough.  (At
the absent directory slot 1023 the skip adds 4 MiB to `curv` = 4290772992, which
is 0 in 32 bits, so `curv < vmax` holds again and the scan starts over.) -/
theorem findhole_never_returns :
    U32 (0 + 4294963200) ≥ 0 ∧ 4294963200 ≥ U32 (0 + 4294963200)
      ∧ 4294963200 % I386_PAGE_SIZE = 0 ∧ 0 % I386_PAGE_SIZE = 0
      ∧ I386_VM_PDE 4294963200 = 1023
      ∧ ∀ (b : Build) (fuel : Nat),
          findhole b fuel pt_low_mapped 4294963200 0 4294963200 = Run.fuel_out := by
  refine ⟨by decide, by decide, by decide, by decide, by decide, ?_⟩
  intro b fuel
  unfold findhole
  rw [vm_assert_pass b _ _ (Or.inr (by decide))]
  rw [vm_assert_pass b _ _ (Or.inr (by decide))]
  rw [vm_assert_pass b _ _ (Or.inr (by decide))]
  rw [vm_assert_pass b _ _ (Or.inr (by decide))]
  rw [vm_assert_pass b _ _ (Or.inr (by decide))]
  simp only []
  split
  · exact findhole_loop_never_exits b fuel _ _ _ _ (by decide) (Or.inl (by decide))
  · exact findhole_loop_never_exits b fuel _ _ _ _ (by decide) (Or.inl (by decide))

theorem findhole_found_ends (b : Build) (pt : pt_t) (vb vmin vmax v : Nat) :
    findhole_found b pt vb vmin vmax v ≠ Run.fuel_out := by
  unfold findhole_found vm_assert
  split
  · intro h; cases h
  · split
    · intro h; cases h
    · split
      · intro h; cases h
      · intro h; cases h

/-- Where the scan does not wrap around in 32 bits, one iteration moves `curv`
up by at least a page. -/
theorem findhole_scan_advances (pt : pt_t) (vmax curv ff fs c1 f1 s1 : Nat)
    (hvmax32 : vmax + 4096 ≤ 4294967296)
    (hnw : vmax ≤ 4290772992 ∨ present (pt.pt_dir 1023) = true)
    (hc : curv < vmax) (h : findhole_scan pt curv ff fs = some (c1, f1, s1)) :
    curv + 4096 ≤ c1 := by
  rcases findhole_scan_cases pt curv ff fs with h0 | ⟨hp, h1⟩ | ⟨_, _, h1⟩ | ⟨_, h1⟩
  · rw [h0] at h; cases h
  · rw [h1] at h
    simp only [Option.some.injEq, Prod.mk.injEq] at h
    obtain ⟨e1, _, _⟩ := h
    rw [← e1]
    have hpde : curv / 4096 / 1024 ≤ 1022 := by
      rcases hnw with hn | hn
      · omega
      · have : curv / 4096 / 1024 ≠ 1023 := by
          intro e
          rw [e, hn] at hp
          cases hp
        omega
    unfold U32
    omega
  · rw [h1] at h
    simp only [Option.some.injEq, Prod.mk.injEq] at h
    obtain ⟨e1, _, _⟩ := h
    rw [← e1]
    unfold U32
    omega
  · rw [h1] at h
    simp only [Option.some.injEq, Prod.mk.injEq] at h
    obtain ⟨e1, _, _⟩ := h
    rw [← e1]
    unfold U32
    omega

/-- The scan without a restart to come ends within one pass. -/
theorem findhole_loop_ends (b : Build) (pt : pt_t) (vb vmin vmax n : Nat)
    (hvmax32 : vmax + 4096 ≤ 4294967296)
    (hnw : vmax ≤ 4290772992 ∨ present (pt.pt_dir 1023) = true) (fuel : Nat) :
    ∀ (curv ff fs : Nat), (vmax - curv + 4095) / 4096 ≤ fuel →
      findhole_loop b pt vb vmin vmax n fuel curv ff fs false ≠ Run.fuel_out := by
  induction fuel with
  | zero =>
    intro curv ff fs hm
    unfold findhole_loop
    rw [if_neg (by omega)]
    intro h; cases h
  | succ fuel ih =>
    intro curv ff fs hm
    unfold findhole_loop
    by_cases hc : curv < vmax
    · rw [if_pos hc]
      cases hs : findhole_scan pt curv ff fs with
      | none => intro h; cases h
      | some x =>
        obtain ⟨c1, f1, s1⟩ := x
        have hadv := findhole_scan_advances pt vmax curv ff fs c1 f1 s1 hvmax32 hnw hc hs
        simp only []
        split
        · exact findhole_found_ends _ _ _ _ _ _
        · rw [if_neg (by simp)]
          exact ih c1 f1 s1 (by omega)
    · rw [if_neg hc]
      intro h; cases h

/-- The scan with the restart still to come ends within two passes. -/
theorem findhole_loop_restart_ends (b : Build) (pt : pt_t) (vb vmin vmax n : Nat)
    (hvmin4 : vmin % 4096 = 0) (hvmax4 : vmax % 4096 = 0)
    (hvmax32 : vmax + 4096 ≤ 4294967296)
    (hnw : vmax ≤ 4290772992 ∨ present (pt.pt_dir 1023) = true) (fuel : Nat) :
    ∀ (curv ff fs : Nat), (vmax - curv + 4095) / 4096 + (vmax - vmin) / 4096 ≤ fuel →
      findhole_loop b pt vb vmin vmax n fuel curv ff fs true ≠ Run.fuel_out := by
  induction fuel with
  | zero =>
    intro curv ff fs hm
    unfold findhole_loop
    rw [if_neg (by omega)]
    intro h; cases h
  | succ fuel ih =>
    intro curv ff fs hm
    unfold findhole_loop
    by_cases hc : curv < vmax
    · rw [if_pos hc]
      cases hs : findhole_scan pt curv ff fs with
      | none => intro h; cases h
      | some x =>
        obtain ⟨c1, f1, s1⟩ := x
        have hadv := findhole_scan_advances pt vmax curv ff fs c1 f1 s1 hvmax32 hnw hc hs
        simp only []
        split
        · exact findhole_found_ends _ _ _ _ _ _
        · split
          · exact findhole_loop_ends b pt vb vmin vmax n hvmax32 hnw fuel vmin f1 s1 (by omega)
          · exact ih c1 f1 s1 (by omega)
    · rw [if_neg hc]
      intro h; cases h

/-- What does hold of the termination of `findhole`: when the window ends below
the last directory slot, or that slot has a second-level table, so that `curv`
cannot wrap around, the scan ends within two passes over the window: a number
of iterations of twice the pages of the window is enough, whatever the table,
the cursor and the size asked for. -/
theorem findhole_terminates (b : Build) (fuel : Nat) (pt : pt_t) (vb vmin vmax : Nat)
    (hvmin4 : vmin % 4096 = 0) (hvmax4 : vmax % 4096 = 0) (hvmax32 : vmax < 4294967296)
    (hnw : vmax ≤ 4290772992 ∨ present (pt.pt_dir 1023) = true)
    (hfuel : 2 * ((vmax - vmin) / 4096) ≤ fuel) :
    findhole b fuel pt vb vmin vmax ≠ Run.fuel_out := by
  have h32 : vmax + 4096 ≤ 4294967296 := by omega
  unfold findhole vm_assert
  split
  · intro h; cases h
  · split
    · intro h; cases h
    · split
      · intro h; cases h
      · split
        · intro h; cases h
        · split
          · intro h; cases h
          · simp only []
            split
            · rename_i hcur
              exact findhole_loop_restart_ends b pt vb vmin vmax _ hvmin4 hvmax4 h32 hnw fuel
                _ _ _ (by omega)
            · exact findhole_loop_ends b pt vb vmin vmax _ h32 hnw fuel _ _ _ (by omega)

/-- One iteration of the scan loop. -/
theorem findhole_loop_succ (b : Build) (pt : pt_t) (vb vmin vmax n fuel curv ff fs : Nat)
    (tr : Bool) (c1 f1 s1 : Nat) (hc : curv < vmax)
    (hs : findhole_scan pt curv ff fs = some (c1, f1, s1)) :
    findhole_loop b pt vb vmin vmax n (fuel + 1) curv ff fs tr
      = if f1 ≥ n then findhole_found b pt vb vmin vmax s1
        else if decide (c1 ≥ vmax) && tr then
          findhole_loop b pt vb vmin vmax n fuel vmin f1 s1 false
        else findhole_loop b pt vb vmin vmax n fuel c1 f1 s1 tr := by
  rw [findhole_loop, if_pos hc, hs]

/-- The scan of `pt_top_gap` over free pages of directory slot 0. -/
theorem findhole_loop_low_pages (b : Build) (vb vmin fs : Nat) (m : Nat) :
    ∀ (fuel curv ff : Nat), 4096 ≤ curv → curv + 4096 * m ≤ 4194304 → curv % 4096 = 0 →
      ff + m < 1025 →
      findhole_loop b pt_top_gap vb vmin 4294963200 1025 (fuel + m) curv ff fs false
        = findhole_loop b pt_top_gap vb vmin 4294963200 1025 fuel (curv + 4096 * m) (ff + m) fs
            false := by
  induction m with
  | zero => intro fuel curv ff _ _ _ _; rfl
  | succ m ih =>
    intro fuel curv ff h1 h2 h3 h4
    have hpde : I386_VM_PDE curv = 0 := by unfold I386_VM_PDE; omega
    have hpte : I386_VM_PTE curv ≠ 0 := by unfold I386_VM_PTE; omega
    have hscan : findhole_scan pt_top_gap curv ff fs = some (curv + 4096, ff + 1, fs) := by
      have hu : U32 (curv + 4096) = curv + 4096 := by unfold U32; omega
      have hf : U32 (ff + 1) = ff + 1 := by unfold U32; omega
      unfold findhole_scan
      simp only [hpde, pt_top_gap, I386_PAGE_SIZE, hu, hf]
      simp [present, I386_VM_PRESENT, hpte]
    have e : fuel + (m + 1) = (fuel + m) + 1 := by omega
    rw [e, findhole_loop_succ b pt_top_gap vb vmin 4294963200 1025 (fuel + m) curv ff fs false
      (curv + 4096) (ff + 1) fs (by omega) hscan]
    rw [if_neg (by omega), if_neg (by simp)]
    rw [ih fuel (curv + 4096) (ff + 1) (by omega) (by omega) (by omega) (by omega)]
    have e1 : curv + 4096 + 4096 * m = curv + 4096 * (m + 1) := by omega
    have e2 : ff + 1 + m = ff + (m + 1) := by omega
    rw [e1, e2]

/-- The run of `findhole` on `pt_top_gap` for 1025 pages in the window
[4290764800, 4294963200), up to its successful exit with `freestart` = 4096. -/
theorem findhole_top_gap_run (b : Build) :
    findhole b 1028 pt_top_gap 4198400 4290764800 4294963200
      = findhole_found b pt_top_gap 4198400 4290764800 4294963200 4096 := by
  unfold findhole
  rw [vm_assert_pass b _ _ (Or.inr (by decide))]
  rw [vm_assert_pass b _ _ (Or.inr (by decide))]
  rw [vm_assert_pass b _ _ (Or.inr (by decide))]
  rw [vm_assert_pass b _ _ (Or.inr (by decide))]
  rw [vm_assert_pass b _ _ (Or.inr (by decide))]
  simp only []
  rw [if_neg (by decide)]
  have hn : 4198400 / I386_PAGE_SIZE = 1025 := by decide
  rw [hn]
  rw [show (1028 : Nat) = 1027 + 1 from rfl,
    findhole_loop_succ b pt_top_gap 4198400 4290764800 4294963200 1025 1027 4290764800 0
      4290764800 false 4290768896 1 4290764800 (by decide) (by decide)]
  rw [if_neg (by decide), if_neg (by decide)]
  rw [show (1027 : Nat) = 1026 + 1 from rfl,
    findhole_loop_succ b pt_top_gap 4198400 4290764800 4294963200 1025 1026 4290768896 1
      4290764800 false 4290772992 0 4290772992 (by decide) (by decide)]
  rw [if_neg (by decide), if_neg (by decide)]
  rw [show (1026 : Nat) = 1025 + 1 from rfl,
    findhole_loop_succ b pt_top_gap 4198400 4290764800 4294963200 1025 1025 4290772992 0
      4290772992 false 0 1024 4290772992 (by decide) (by decide)]
  rw [if_neg (by decide), if_neg (by decide)]
  rw [show (1025 : Nat) = 1024 + 1 from rfl,
    findhole_loop_succ b pt_top_gap 4198400 4290764800 4294963200 1025 1024 0 1024
      4290772992 false 4096 0 4096 (by decide) (by decide)]
  rw [if_neg (by decide), if_neg (by decide)]
  rw [show (1024 : Nat) = 1 + 1023 from rfl,
    findhole_loop_low_pages b 4198400 4290764800 4096 1023 1 4096 0 (by decide) (by decide)
      (by decide) (by decide)]
  rw [show (1 : Nat) = 0 + 1 from rfl,
    findhole_loop_succ b pt_top_gap 4198400 4290764800 4294963200 1025 0 (4096 + 4096 * 1023)
      (0 + 1023) 4096 false 8388608 2047 4096 (by decide) (by decide)]
  rw [if_pos (by decide)]

/-- C24 (the code at a failing input): the window [4290764800, 4294963200) of
`pt_top_gap`, 1025 pages up to the last page of the address space, and a
request for all 1025 of them; the cursor, 0, is outside the window, so the
scan starts at `vmin` without a retry.  The second page of the window is
mapped, and the absent last directory slot adds 1024 free pages and 4 MiB to
`curv`, which is 0 in 32 bits: the scan goes on at address 0, below the
window, and without `vm_assert` returns 4096, which is below `vmin`.  With
`vm_assert` the same call stops at `vm_assert(v >= vmin)`. -/
theorem findhole_wraps_below_window :
    U32 (4290764800 + 4198400) ≥ 4290764800 ∧ 4294963200 ≥ U32 (4290764800 + 4198400)
      ∧ 4198400 % I386_PAGE_SIZE = 0 ∧ 4290764800 % I386_PAGE_SIZE = 0
      ∧ 4294963200 % I386_PAGE_SIZE = 0
      ∧ ¬ (pt_top_gap.pt_virtop ≥ 4290764800 ∧ pt_top_gap.pt_virtop ≤ 4294963200 - 4198400)
      ∧ findhole Build.release 1028 pt_top_gap 4198400 4290764800 4294963200
          = Run.done (4096, { pt_top_gap with pt_virtop := 4202496 })
      ∧ (4096 : Nat) ≠ Build.release.NO_MEM
      ∧ ¬ (4290764800 ≤ 4096)
      ∧ findhole Build.strict 1028 pt_top_gap 4198400 4290764800 4294963200 = Run.fatal := by
  refine ⟨by decide, by decide, by decide, by decide, by decide, by decide, ?_, by decide,
    by decide, ?_⟩
  · rw [findhole_top_gap_run]; rfl
  · rw [findhole_top_gap_run]; rfl

theorem unmapped_iff (pt : pt_t) (a : Nat) :
    unmapped pt a = true ↔
      (present (pt.pt_dir (a / 4096 / 1024)) = false
        ∨ present (pt.leaf (a / 4096 / 1024) (a / 4096 % 1024)) = false) := by
  have e : a / 4194304 = a / 4096 / 1024 := by omega
  unfold unmapped I386_VM_PDE I386_VM_PTE
  rw [e]
  cases present (pt.pt_dir (a / 4096 / 1024)) <;>
    cases present (pt.leaf (a / 4096 / 1024) (a / 4096 % 1024)) <;> simp

theorem findhole_found_value (b : Build) (pt : pt_t) (vb vmin vmax v : Nat) (r : Nat × pt_t)
    (h : findhole_found b pt vb vmin vmax v = Run.done r) : r.1 = v := by
  unfold findhole_found at h
  have h1 := vm_assert_done _ _ _ _ h
  have h2 := vm_assert_done _ _ _ _ h1
  have h3 := vm_assert_done _ _ _ _ h2
  cases h3
  rfl

/-- The scan from `vmin` without a retry, where `curv` cannot wrap around: the
pages from `freestart` up to `curv` are free, and no page-aligned offset from
`vmin` up to `freestart` starts a run of `n` free pages.  So what it returns,
if not `NO_MEM`, starts the first such run. -/
theorem findhole_loop_first_fit (b : Build) (pt : pt_t) (vb vmin vmax n : Nat)
    (hvmax32 : vmax + 4096 ≤ 4294967296) (hn : 0 < n) (hn32 : n ≤ 1048576)
    (hnw : vmax ≤ 4290772992 ∨ present (pt.pt_dir 1023) = true) (fuel : Nat) :
    ∀ (curv ff fs : Nat) (r : Nat × pt_t),
      fs % 4096 = 0 → vmin ≤ fs → curv = fs + 4096 * ff → ff < n →
      (∀ i, i < ff → unmapped pt (fs + 4096 * i) = true) →
      (∀ s, vmin ≤ s → s < fs → s % 4096 = 0 → ∃ i, i < n ∧ unmapped pt (s + 4096 * i) = false) →
      findhole_loop b pt vb vmin vmax n fuel curv ff fs false = Run.done r →
      r.1 ≠ b.NO_MEM →
      vmin ≤ r.1 ∧ r.1 % 4096 = 0 ∧ r.1 + 4096 * n ≤ 4294967296
        ∧ (∀ i, i < n → unmapped pt (r.1 + 4096 * i) = true)
        ∧ ∀ s, vmin ≤ s → s < r.1 → s % 4096 = 0 →
            ∃ i, i < n ∧ unmapped pt (s + 4096 * i) = false := by
  induction fuel with
  | zero =>
    intro curv ff fs r _ _ _ _ _ _ h hr
    unfold findhole_loop at h
    split at h
    · cases h
    · cases h
      exact absurd rfl hr
  | succ fuel ih =>
    intro curv ff fs r hfs4 hfs hcurv hff hfree hleast h hr
    unfold findhole_loop at h
    split at h
    · rename_i hc
      rcases findhole_scan_cases pt curv ff fs with h0 | ⟨hp, h1⟩ | ⟨hp, hpt, h1⟩ | ⟨hpt, h1⟩
      · rw [h0] at h
        cases h
      · -- an absent directory slot: all its pages from `curv` on are free
        rw [h1] at h
        simp only [] at h
        have hpde : curv / 4096 / 1024 ≤ 1022 := by
          rcases hnw with hn' | hn'
          · omega
          · have : curv / 4096 / 1024 ≠ 1023 := by
              intro e
              rw [e, hn'] at hp
              cases hp
            omega
        have hu1 : U32 (curv + (1024 - curv / 4096 % 1024) * 4096)
            = curv + (1024 - curv / 4096 % 1024) * 4096 := by unfold U32; omega
        have hu2 : U32 (ff + (1024 - curv / 4096 % 1024)) = ff + (1024 - curv / 4096 % 1024) := by
          unfold U32; omega
        rw [hu1, hu2] at h
        have hfree' : ∀ i, i < ff + (1024 - curv / 4096 % 1024) →
            unmapped pt (fs + 4096 * i) = true := by
          intro i hi
          by_cases hlt : i < ff
          · exact hfree i hlt
          · rw [unmapped_iff]
            left
            have e : (fs + 4096 * i) / 4096 / 1024 = curv / 4096 / 1024 := by omega
            rw [e]
            exact hp
        split at h
        · rename_i hfound
          have hv := findhole_found_value _ _ _ _ _ _ _ h
          rw [hv]
          refine ⟨hfs, hfs4, by omega, fun i hi => hfree' i (by omega), hleast⟩
        · rw [if_neg (by simp)] at h
          exact ih _ _ _ r hfs4 hfs (by omega) (by omega) hfree' hleast h hr
      · -- a mapped page: the free run starts anew after it
        rw [h1] at h
        simp only [] at h
        have hu1 : U32 (curv + 4096) = curv + 4096 := by unfold U32; omega
        rw [hu1] at h
        rw [if_neg (by omega), if_neg (by simp)] at h
        refine ih _ _ _ r (by omega) (by omega) (by omega) hn (fun i hi => by omega) ?_ h hr
        intro s hs1 hs2 hs4
        by_cases hlt : s < fs
        · exact hleast s hs1 hlt hs4
        · refine ⟨(curv - s) / 4096, by omega, ?_⟩
          have e : s + 4096 * ((curv - s) / 4096) = curv := by omega
          rw [e]
          cases hu : unmapped pt curv
          · rfl
          · rw [unmapped_iff] at hu
            rcases hu with hu | hu
            · rw [hp] at hu; cases hu
            · rw [hpt] at hu; cases hu
      · -- a free page
        rw [h1] at h
        simp only [] at h
        have hu1 : U32 (curv + 4096) = curv + 4096 := by unfold U32; omega
        have hu2 : U32 (ff + 1) = ff + 1 := by unfold U32; omega
        rw [hu1, hu2] at h
        have hfree' : ∀ i, i < ff + 1 → unmapped pt (fs + 4096 * i) = true := by
          intro i hi
          by_cases hlt : i < ff
          · exact hfree i hlt
          · have e : fs + 4096 * i = curv := by omega
            rw [e, unmapped_iff]
            exact Or.inr hpt
        split at h
        · have hv := findhole_found_value _ _ _ _ _ _ _ h
          rw [hv]
          refine ⟨hfs, hfs4, by omega, fun i hi => hfree' i (by omega), hleast⟩
        · rw [if_neg (by simp)] at h
          exact ih _ _ _ r hfs4 hfs (by omega) (by omega) hfree' hleast h hr
    · cases h
      exact absurd rfl hr

/-- What does hold of the first fit in `findhole`: for a call that meets the
asserted preconditions, with `virbytes` > 0 and the cursor outside
[`vmin`, `vmax - virbytes`], whose window ends below the last directory slot or
whose last directory slot has a second-level table (so that `curv` cannot wrap
around in 32 bits), a result other than `NO_MEM` is the least page-aligned
offset from `vmin` on at which `virbytes / 4096` pages in a row are unmapped. -/
theorem findhole_first_fit (b : Build) (fuel : Nat) (pt : pt_t) (vb vmin vmax : Nat)
    (r : Nat × pt_t)
    (hfit : vmin + vb ≤ vmax) (hpos : 0 < vb) (hvb : vb % 4096 = 0)
    (hvmin4 : vmin % 4096 = 0) (hvmax32 : vmax + 4096 ≤ 4294967296)
    (hnw : vmax ≤ 4290772992 ∨ present (pt.pt_dir 1023) = true)
    (hcur : pt.pt_virtop < vmin ∨ vmax - vb < pt.pt_virtop)
    (h : findhole b fuel pt vb vmin vmax = Run.done r) (hr : r.1 ≠ b.NO_MEM) :
    vmin ≤ r.1 ∧ r.1 % 4096 = 0 ∧ r.1 + vb ≤ 4294967296
      ∧ (∀ i, i < vb / 4096 → unmapped pt (r.1 + 4096 * i) = true)
      ∧ ∀ s, vmin ≤ s → s < r.1 → s % 4096 = 0 →
          ∃ i, i < vb / 4096 ∧ unmapped pt (s + 4096 * i) = false := by
  unfold findhole at h
  have h1 := vm_assert_done _ _ _ _ h
  have h2 := vm_assert_done _ _ _ _ h1
  have h3 := vm_assert_done _ _ _ _ h2
  have h4 := vm_assert_done _ _ _ _ h3
  have h5 := vm_assert_done _ _ _ _ h4
  simp only [I386_PAGE_SIZE] at h5
  have hu : U32 (vmax + 4294967296 - vb) = vmax - vb := by unfold U32; omega
  rw [hu, if_neg (by omega)] at h5
  obtain ⟨c1, c2, c3, c4, c5⟩ := findhole_loop_first_fit b pt vb vmin vmax (vb / 4096)
    hvmax32 (by omega) (by omega) hnw fuel vmin 0 vmin r hvmin4 (le_refl _) (by omega) (by omega)
    (fun i hi => by omega) (fun s h1 h2 _ => by omega) h5 hr
  exact ⟨c1, c2, by omega, c4, c5⟩

set_option maxRecDepth 100000 in
/-- C21 (the code at a failing input): from the full pool (five pages,
`missing_spares` = 0), with a frame allocator that is out of memory once and
has frames after that.  After `vm_getsparepage` and `vm_checkspares` the
counter is 0 although slot 0 is `NULL`: the `NULL` that `vm_allocpages`
returned was stored and counted as a refill.  After one more
`vm_getsparepage` and `vm_checkspares`, now with frames at hand, the counter
is 0 again and slot 1 is `NULL`: the loop stops as soon as the counter is 0.
The counter is one short of the number of empty slots from then on, with
`vm_assert` and the sanity checks compiled in as well. -/
theorem spare_counter_loses_count :
    st_flaky.missing_spares = 0 ∧ empty_spares st_flaky = 0
      ∧ run_spare_calls Build.release 8 2 [SpareCall.take, SpareCall.check] st_flaky
          = Run.done (Run.get (run_spare_calls Build.release 8 2
              [SpareCall.take, SpareCall.check] st_flaky) st_flaky)
      ∧ (Run.get (run_spare_calls Build.release 8 2
            [SpareCall.take, SpareCall.check] st_flaky) st_flaky).missing_spares = 0
      ∧ (Run.get (run_spare_calls Build.release 8 2
            [SpareCall.take, SpareCall.check] st_flaky) st_flaky).spare_page 0 = 0
      ∧ empty_spares (Run.get (run_spare_calls Build.release 8 2
            [SpareCall.take, SpareCall.check] st_flaky) st_flaky) = 1
      ∧ run_spare_calls Build.release 8 2
            [SpareCall.take, SpareCall.check, SpareCall.take, SpareCall.check] st_flaky
          = Run.done (Run.get (run_spare_calls Build.release 8 2
              [SpareCall.take, SpareCall.check, SpareCall.take, SpareCall.check] st_flaky)
              st_flaky)
      ∧ (Run.get (run_spare_calls Build.release 8 2
            [SpareCall.take, SpareCall.check, SpareCall.take, SpareCall.check] st_flaky)
            st_flaky).missing_spares = 0
      ∧ (Run.get (run_spare_calls Build.release 8 2
            [SpareCall.take, SpareCall.check, SpareCall.take, SpareCall.check] st_flaky)
            st_flaky).spare_page 1 = 0
      ∧ empty_spares (Run.get (run_spare_calls Build.release 8 2
            [SpareCall.take, SpareCall.check, SpareCall.take, SpareCall.check] st_flaky)
            st_flaky) = 1
      ∧ (Run.get (run_spare_calls Build.release 8 2
            [SpareCall.take, SpareCall.check, SpareCall.take, SpareCall.check] st_flaky)
            st_flaky).alloc_script = [257]
      ∧ run_spare_calls Build.strict 8 2 [SpareCall.take, SpareCall.check] st_flaky
          = Run.done (Run.get (run_spare_calls Build.strict 8 2
              [SpareCall.take, SpareCall.check] st_flaky) st_flaky)
      ∧ (Run.get (run_spare_calls Build.strict 8 2
            [SpareCall.take, SpareCall.check] st_flaky) st_flaky).missing_spares = 0
      ∧ empty_spares (Run.get (run_spare_calls Build.strict 8 2
            [SpareCall.take, SpareCall.check] st_flaky) st_flaky) = 1 :=
  ⟨rfl, rfl, rfl, rfl, rfl, rfl, rfl, rfl, rfl, rfl, rfl, rfl, rfl, rfl⟩

theorem pt_ptalloc_inv (P : vm_state → Prop)
    (hset : ∀ st who pt, P st → P (vm_state.set_pt st who pt))
    (b : Build) (alloc : Allocator)
    (ha : ∀ st pages r, P st → alloc st pages = Run.done r → P r.2.2)
    (st : vm_state) (who pde flags : Nat) (r : Status × vm_state) (hP : P st)
    (h : pt_ptalloc b alloc st who pde flags = Run.done r) : P r.2 := by
  obtain ⟨a, hal, h2⟩ := pt_ptalloc_done b alloc st who pde flags r h
  rcases h2 with ⟨_, hr⟩ | ⟨_, hr, _⟩
  · rw [hr]; exact hset _ _ _ (ha _ _ _ hP hal)
  · rw [hr]; exact hset _ _ _ (ha _ _ _ hP hal)

theorem pt_writemap_tables_inv (P : vm_state → Prop)
    (hset : ∀ st who pt, P st → P (vm_state.set_pt st who pt))
    (b : Build) (alloc : Allocator)
    (ha : ∀ st pages r, P st → alloc st pages = Run.done r → P r.2.2)
    (who flags : Nat) (n : Nat) :
    ∀ (pde : Nat) (st : vm_state) (r : Status × vm_state), P st →
      pt_writemap_tables b alloc who flags n pde st = Run.done r → P r.2 := by
  induction n with
  | zero =>
    intro pde st r hP h
    unfold pt_writemap_tables at h
    cases h
    exact hP
  | succ n ih =>
    intro pde st r hP h
    unfold pt_writemap_tables at h
    have h1 := vm_assert_done _ _ _ _ h
    split at h1
    · cases h1
    · split at h1
      · have h2 := vm_assert_done _ _ _ _ h1
        obtain ⟨a, hal, h3⟩ := Run.bind_done _ _ _ h2
        have hs := pt_ptalloc_inv P hset b alloc ha st who pde flags a hP hal
        split at h3
        · cases h3; exact hs
        · have h4 := vm_assert_done _ _ _ _ h3
          exact ih _ _ _ hs h4
      · have h2 := vm_assert_done _ _ _ _ h1
        exact ih _ _ _ hP h2

/-- A property of the state that `set_pt` and the allocator keep is kept by
`pt_writemap`. -/
theorem pt_writemap_with_inv (P : vm_state → Prop)
    (hset : ∀ st who pt, P st → P (vm_state.set_pt st who pt))
    (b : Build) (alloc : Allocator)
    (ha : ∀ st pages r, P st → alloc st pages = Run.done r → P r.2.2)
    (st : vm_state) (who v pa bytes flags wmf : Nat) (r : Status × vm_state) (hP : P st)
    (h : pt_writemap_with b alloc st who v pa bytes flags wmf = Run.done r) : P r.2 := by
  obtain ⟨a, ht, h2⟩ := pt_writemap_with_done b alloc st r.2 who v pa bytes flags wmf r.1 h
  have hs := pt_writemap_tables_inv P hset b alloc ha who flags _ _ _ _ hP ht
  rcases h2 with ⟨_, _, he⟩ | ⟨_, _, hp⟩
  · rw [he]; exact hs
  · obtain ⟨pt, hpt⟩ := pt_writemap_pages_same b who flags wmf _ _ _ _ _ hp
    rw [hpt]
    exact hset _ _ _ hs

/-- A property of the state that depends on the spare pages and their counter
only, and that `vm_getsparepage` keeps, is kept by `vm_allocpages`. -/
theorem vm_allocpages_inv (P : vm_state → Prop)
    (hsame : ∀ st st', st'.spare_page = st.spare_page →
      st'.missing_spares = st.missing_spares → P st → P st')
    (b : Build)
    (hspare : ∀ st r, P st → vm_getsparepage b st = Run.done r → P r.2.2)
    (fh : Nat) (d : Nat) :
    ∀ st pages r, P st → vm_allocpages b fh d st pages = Run.done r → P r.2.2 := by
  have hset : ∀ st who pt, P st → P (vm_state.set_pt st who pt) :=
    fun st who pt h => hsame st _ rfl rfl h
  induction d with
  | zero => intro st pages r _ h; unfold vm_allocpages at h; cases h
  | succ d ih =>
    intro st pages r hP h
    unfold vm_allocpages at h
    have h1 := vm_assert_done _ _ _ _ h
    have h2 := vm_assert_done _ _ _ _ h1
    have h3 := vm_assert_done _ _ _ _ h2
    have hP1 : P { st with level := st.level + 1 } := hsame st _ rfl rfl hP
    split at h3
    · have h4 := vm_assert_done _ _ _ _ h3
      obtain ⟨g, hg, h5⟩ := Run.bind_done _ _ _ h4
      have hg' := hspare _ _ hP1 hg
      cases h5
      exact hsame g.2.2 _ rfl rfl hg'
    · obtain ⟨f, hf, h4⟩ := Run.bind_done _ _ _ h3
      dsimp only at h4
      have hP2 : P (vm_state.set_pt { st with level := st.level + 1 } b.VM_PROC_NR f.2) :=
        hset _ _ _ hP1
      split at h4
      · cases h4
        exact hsame (vm_state.set_pt { st with level := st.level + 1 } b.VM_PROC_NR f.2) _
          rfl rfl hP2
      · have ham := ALLOC_MEM_same b
          (vm_state.set_pt { st with level := st.level + 1 } b.VM_PROC_NR f.2) pages
        have hP3 := hsame (vm_state.set_pt { st with level := st.level + 1 } b.VM_PROC_NR f.2)
          (ALLOC_MEM b
            (vm_state.set_pt { st with level := st.level + 1 } b.VM_PROC_NR f.2) pages).2
          ham.2.2.2.2.2.2.2.2.2.2.2.2.1 ham.2.2.2.2.2.2.2.2.2.2.2.2.2.2 hP2
        split at h4
        · cases h4
          exact hsame (ALLOC_MEM b
            (vm_state.set_pt { st with level := st.level + 1 } b.VM_PROC_NR f.2) pages).2 _
            rfl rfl hP3
        · obtain ⟨x, hw, h5⟩ := Run.bind_done _ _ _ h4
          have hk := pt_writemap_with_inv P hset b _ ih _ _ _ _ _ _ _ x hP3 hw
          split at h5
          · cases h5
            exact hsame x.2 _ rfl rfl hk
          · cases h5
            exact hsame x.2 _ rfl rfl hk

theorem empty_spares_eq (st : vm_state) :
    empty_spares st
      = (if st.spare_page 0 = 0 then 1 else 0) + (if st.spare_page 1 = 0 then 1 else 0)
        + (if st.spare_page 2 = 0 then 1 else 0) + (if st.spare_page 3 = 0 then 1 else 0)
        + (if st.spare_page 4 = 0 then 1 else 0) := by
  unfold empty_spares SPAREPAGES
  simp only [List.range_succ, List.range_zero, List.nil_append, List.cons_append,
    List.filter_cons, List.filter_nil, decide_eq_true_eq]
  split_ifs <;> rfl

theorem empty_spares_le (st : vm_state) : empty_spares st ≤ 5 := by
  rw [empty_spares_eq]
  split_ifs <;> omega

theorem empty_spares_same (st st' : vm_state) (h : st'.spare_page = st.spare_page) :
    empty_spares st' = empty_spares st := by
  unfold empty_spares
  rw [h]

/-- Taking the page of a slot that holds one makes one more empty slot. -/
theorem empty_spares_take (st st' : vm_state) (k : Nat) (hk : k < 5)
    (hne : st.spare_page k ≠ 0) (h : st'.spare_page = upd st.spare_page k 0) :
    empty_spares st' = empty_spares st + 1 := by
  rw [empty_spares_eq, empty_spares_eq, h]
  have h5 : k = 0 ∨ k = 1 ∨ k = 2 ∨ k = 3 ∨ k = 4 := by omega
  rcases h5 with e | e | e | e | e <;> subst e <;> simp [upd, hne]
  all_goals omega

/-- Storing into one slot takes away at most one empty slot. -/
theorem empty_spares_store (st st' : vm_state) (s x : Nat)
    (h : st'.spare_page = upd st.spare_page s x) :
    empty_spares st ≤ empty_spares st' + 1 := by
  rw [empty_spares_eq, empty_spares_eq, h]
  by_cases h0 : s = 0
  · subst h0; simp [upd]; split_ifs <;> omega
  by_cases h1 : s = 1
  · subst h1; simp [upd]; split_ifs <;> omega
  by_cases h2 : s = 2
  · subst h2; simp [upd]; split_ifs <;> omega
  by_cases h3 : s = 3
  · subst h3; simp [upd]; split_ifs <;> omega
  by_cases h4 : s = 4
  · subst h4; simp [upd]; split_ifs <;> omega
  have e0 : (0 : Nat) ≠ s := fun e => h0 e.symm
  have e1 : (1 : Nat) ≠ s := fun e => h1 e.symm
  have e2 : (2 : Nat) ≠ s := fun e => h2 e.symm
  have e3 : (3 : Nat) ≠ s := fun e => h3 e.symm
  have e4 : (4 : Nat) ≠ s := fun e => h4 e.symm
  simp [upd, e0, e1, e2, e3, e4]

theorem vm_getsparepage_loop_slot (b : Build) (st : vm_state) (n : Nat) :
    ∀ (s : Nat) (r : Nat × Nat × vm_state), vm_getsparepage_loop b st n s = Run.done r →
      ∃ k, s ≤ k ∧ k < s + n ∧ st.spare_page k ≠ 0
        ∧ r.2.2.spare_page = upd st.spare_page k 0
        ∧ r.2.2.missing_spares = st.missing_spares + 1 := by
  induction n with
  | zero => intro s r h; unfold vm_getsparepage_loop at h; cases h
  | succ n ih =>
    intro s r h
    unfold vm_getsparepage_loop at h
    split at h
    · rename_i hne
      have h1 := vm_assert_done _ _ _ _ h
      cases h1
      exact ⟨s, le_refl _, by omega, hne, rfl, rfl⟩
    · obtain ⟨k, k1, k2, k3⟩ := ih _ _ h
      exact ⟨k, by omega, by omega, k3⟩

theorem vm_getsparepage_kept (b : Build) (m0 c : Int) (st : vm_state)
    (r : Nat × Nat × vm_state) (hP : SparesKept m0 c st)
    (h : vm_getsparepage b st = Run.done r) : SparesKept m0 c r.2.2 := by
  unfold vm_getsparepage at h
  obtain ⟨k, _, k2, k3, k4, k5⟩ := vm_getsparepage_loop_slot b st _ _ _ (vm_assert_done _ _ _ _ h)
  have he := empty_spares_take st r.2.2 k (by simpa [SPAREPAGES] using k2) k3 k4
  unfold SparesKept at *
  rw [k5, he]
  push_cast
  omega

theorem vm_allocpages_kept (b : Build) (fh d : Nat) (m0 c : Int) (st : vm_state) (pages : Nat)
    (r : Nat × Option Nat × vm_state) (hP : SparesKept m0 c st)
    (h : vm_allocpages b fh d st pages = Run.done r) : SparesKept m0 c r.2.2 := by
  refine vm_allocpages_inv (SparesKept m0 c) ?_ b ?_ fh d st pages r hP h
  · intro st st' h1 h2 hp
    unfold SparesKept at *
    rw [h2, empty_spares_same st st' h1]
    exact hp
  · intro st r hp hg
    exact vm_getsparepage_kept b m0 c st r hp hg

theorem vm_checkspares_loop_bounds (b : Build) (fh d : Nat) (n : Nat) :
    ∀ (s : Nat) (st st' : vm_state),
      0 ≤ st.missing_spares → st.missing_spares ≤ (empty_spares st : Int) →
      vm_checkspares_loop b fh d n s st = Run.done st' →
      0 ≤ st'.missing_spares ∧ st'.missing_spares ≤ (empty_spares st' : Int) := by
  induction n with
  | zero =>
    intro s st st' h0 h1 h
    unfold vm_checkspares_loop at h
    cases h
    exact ⟨h0, h1⟩
  | succ n ih =>
    intro s st st' h0 h1 h
    unfold vm_checkspares_loop at h
    split at h
    · rename_i hpos
      split at h
      · obtain ⟨r, hr, h2⟩ := Run.bind_done _ _ _ h
        have hk := vm_allocpages_kept b fh d st.missing_spares
          (st.missing_spares - (empty_spares st : Int)) st 1 r ⟨le_refl _, rfl⟩ hr
        dsimp only at h2
        have h3 := vm_assert_done _ _ _ _ h2
        refine ih _ _ _ ?_ ?_ h3
        · show 0 ≤ r.2.2.missing_spares - 1
          have := hk.1
          omega
        · have hst := empty_spares_store r.2.2
            { r.2.2 with
              spare_page := upd r.2.2.spare_page s r.1
              spare_phys := match r.2.1 with
                | some p => upd r.2.2.spare_phys s p
                | none => r.2.2.spare_phys
              missing_spares := r.2.2.missing_spares - 1 } s r.1 rfl
          dsimp only at hst
          show r.2.2.missing_spares - 1 ≤ _
          have := hk.2
          omega
      · exact ih _ _ _ h0 h1 h
    · cases h
      exact ⟨h0, h1⟩

/-- What does hold of the counter of the spare pages: in every state reached
from a state with 0 <= `missing_spares` <= the number of empty slots (such as
the full pool with the counter at 0) by any series of `vm_getsparepage` and
`vm_checkspares` calls that return, in any build and whatever `vm_allocpages`
does, `missing_spares` is at least 0 and at most the number of empty slots,
which is at most 5. -/
theorem spare_counter_bounds (b : Build) (fh d : Nat) (l : List SpareCall) :
    ∀ (st st' : vm_state),
      0 ≤ st.missing_spares → st.missing_spares ≤ (empty_spares st : Int) →
      run_spare_calls b fh d l st = Run.done st' →
      0 ≤ st'.missing_spares ∧ st'.missing_spares ≤ (empty_spares st' : Int)
        ∧ empty_spares st' ≤ 5 := by
  induction l with
  | nil =>
    intro st st' h0 h1 h
    unfold run_spare_calls at h
    cases h
    exact ⟨h0, h1, empty_spares_le _⟩
  | cons c rest ih =>
    intro st st' h0 h1 h
    unfold run_spare_calls at h
    obtain ⟨st1, hc, h2⟩ := Run.bind_done _ _ _ h
    cases c with
    | take =>
      obtain ⟨r, hr, h3⟩ := Run.bind_done _ _ _ hc
      cases h3
      have hk := vm_getsparepage_kept b st.missing_spares
        (st.missing_spares - (empty_spares st : Int)) st r ⟨le_refl _, rfl⟩ hr
      exact ih _ _ (by have := hk.1; omega) (by have := hk.2; omega) h2
    | check =>
      have hc' : vm_checkspares b fh d st = Run.done st1 := hc
      unfold vm_checkspares at hc'
      have h3 := vm_assert_done _ _ _ _ hc'
      obtain ⟨k0, k1⟩ := vm_checkspares_loop_bounds b fh d _ _ _ _ h0 h1 h3
      exact ih _ _ k0 k1 h2

/-- C3 (amended): when `pt_writemap` returns `OK` for `v` and `bytes` of 32 bits,
every page of the range, `v + 4096 * i` taken in 32 bits, has a second-level
pointer that is not `NULL`, and, provided that different directory slots of
the range point to different second-level tables when the call returns, its
leaf entry is `((physaddr + 4096 * i) & I386_VM_ADDR_MASK) | flags`.  This holds
for any `flags` and `writemapflags`, so also for the second of two calls on one
page with `WMF_OVERWRITE`; a range within one directory slot meets the proviso
by itself. -/
theorem pt_writemap_postcondition (b : Build) (fh d : Nat) (st st' : vm_state)
    (who v physaddr bytes flags writemapflags : Nat)
    (hv : v < 4294967296) (hbytes : bytes < 4294967296)
    (hdist : ∀ i k, i < bytes / 4096 → k < bytes / 4096 →
      I386_VM_PDE (U32 (v + 4096 * i)) ≠ I386_VM_PDE (U32 (v + 4096 * k)) →
      (st'.vmproc_pt who).pt_pt (I386_VM_PDE (U32 (v + 4096 * i)))
        ≠ (st'.vmproc_pt who).pt_pt (I386_VM_PDE (U32 (v + 4096 * k))))
    (h : pt_writemap b fh d st who v physaddr bytes flags writemapflags
          = Run.done (Status.OK, st')) :
    ∀ i, i < bytes / 4096 →
      (st'.vmproc_pt who).pt_pt (I386_VM_PDE (U32 (v + 4096 * i))) ≠ 0
      ∧ (st'.vmproc_pt who).leaf (I386_VM_PDE (U32 (v + 4096 * i)))
          (I386_VM_PTE (U32 (v + 4096 * i)))
        = ((physaddr + 4096 * i) &&& I386_VM_ADDR_MASK) ||| flags := by
  intro i hi
  unfold pt_writemap at h
  obtain ⟨r, _, h2⟩ := pt_writemap_with_done _ _ _ _ _ _ _ _ _ _ _ h
  rcases h2 with ⟨hne, hs, _⟩ | ⟨_, _, hp⟩
  · exact absurd hs.symm hne
  · obtain ⟨tab, hst, hpost, _, hnn⟩ :=
      pt_writemap_pages_spec b who flags writemapflags (bytes / 4096) v physaddr r.2 st' hv
        (by omega) hp
    have hpp : (st'.vmproc_pt who).pt_pt = (r.2.vmproc_pt who).pt_pt := by rw [hst]; simp
    have htt : (st'.vmproc_pt who).pt_tab = tab := by rw [hst]; simp
    unfold pt_t.leaf
    rw [hpp, htt]
    refine ⟨hnn i hi, hpost i hi ?_⟩
    intro k hik hkn hc
    have hd := hdist i k hi hkn
    rw [hpp] at hd
    by_cases hpde : I386_VM_PDE (U32 (v + 4096 * i)) = I386_VM_PDE (U32 (v + 4096 * k))
    · have := pde_pte_inj _ _ hpde hc.2.symm
      unfold U32 at this
      omega
    · exact hd hpde hc.1.symm

theorem tablegrow_refl (pt : pt_t) : TableGrow pt pt :=
  ⟨fun _ _ => ⟨rfl, rfl⟩, fun _ _ => Or.inl ⟨rfl, Or.inl rfl⟩, fun _ _ => Or.inl rfl⟩

theorem tablegrow_trans {p q r : pt_t} (h1 : TableGrow p q) (h2 : TableGrow q r) :
    TableGrow p r := by
  refine ⟨?_, ?_, ?_⟩
  · intro i hp
    obtain ⟨a1, a2⟩ := h1.1 i hp
    have hq : present (q.pt_dir i) = true := by rw [a1]; exact hp
    obtain ⟨c1, c2⟩ := h2.1 i hq
    exact ⟨c1.trans a1, c2.trans a2⟩
  · intro i hp
    rcases h1.2.1 i hp with ⟨a1, a2⟩ | ⟨a1, a2, a3⟩
    · have hq : present (q.pt_dir i) = false := by rw [a1]; exact hp
      rcases h2.2.1 i hq with ⟨c1, c2⟩ | c
      · left
        refine ⟨c1.trans a1, ?_⟩
        rcases c2 with c2 | c2
        · rcases a2 with a2 | a2
          · exact Or.inl (c2.trans a2)
          · exact Or.inr (c2.trans a2)
        · exact Or.inr c2
      · exact Or.inr c
    · obtain ⟨c1, c2⟩ := h2.1 i a1
      right
      refine ⟨by rw [c1]; exact a1, by rw [c2]; exact a2, fun j hj => ?_⟩
      rw [c2]
      rcases h2.2.2 (q.pt_pt i) j with e | ⟨e, _⟩
      · rw [e]; exact a3 j hj
      · exact e
  · intro x j
    rcases h2.2.2 x j with e | ⟨e, i, hi, c1, c2, c3⟩
    · rcases h1.2.2 x j with a | ⟨a, i, hi, a1, a2, a3⟩
      · exact Or.inl (e.trans a)
      · right
        refine ⟨e.trans a, i, hi, a1, ?_, ?_⟩
        · rw [(h2.1 i a2).1]; exact a2
        · rw [(h2.1 i a2).2]; exact a3
    · right
      refine ⟨e, i, hi, ?_, c2, c3⟩
      cases hp : present (p.pt_dir i)
      · rfl
      · rw [← (h1.1 i hp).1, c1] at hp
        cases hp

theorem pt_ptalloc_grow (b : Build) (fh d : Nat) (st : vm_state) (who pde flags : Nat)
    (r : Status × vm_state) (hwho : who ≠ b.VM_PROC_NR) (hpde : pde < 1024)
    (habs : present ((st.vmproc_pt who).pt_dir pde) = false)
    (h : pt_ptalloc b (vm_allocpages b fh d) st who pde flags = Run.done r) :
    TableGrow (st.vmproc_pt who) (r.2.vmproc_pt who) := by
  obtain ⟨a, hal, h2⟩ := pt_ptalloc_done b _ st who pde flags r h
  have hsame : a.2.2.vmproc_pt who = st.vmproc_pt who :=
    (vm_allocpages_step b fh d st 1 a hal).others who hwho hwho
  have hne : ∀ i, present ((st.vmproc_pt who).pt_dir i) = true → i ≠ pde := by
    intro i hp he
    rw [he, habs] at hp
    cases hp
  rcases h2 with ⟨_, hr⟩ | ⟨ha0, hr, _⟩
  · rw [hr]
    simp only [set_pt_get, hsame]
    refine ⟨?_, ?_, ?_⟩
    · intro i hp
      simp [pt_ptalloc_null, upd, hne i hp]
    · intro i _
      left
      by_cases hi : i = pde
      · simp [pt_ptalloc_null, upd, hi]
      · simp [pt_ptalloc_null, upd, hi]
    · intro x j
      left
      rfl
  · rw [hr]
    simp only [set_pt_get, hsame]
    refine ⟨?_, ?_, ?_⟩
    · intro i hp
      simp [pt_ptalloc_table, upd, hne i hp]
    · intro i _
      by_cases hi : i = pde
      · right
        subst hi
        refine ⟨?_, ?_, ?_⟩
        · simp only [pt_ptalloc_table, upd, if_true]
          exact present_ptalloc_entry _ _
        · simpa [pt_ptalloc_table, upd] using ha0
        · intro j hj
          simp [pt_ptalloc_table, upd, I386_VM_PT_ENTRIES, hj]
      · left
        simp [pt_ptalloc_table, upd, hi]
    · intro x j
      by_cases hx : x = a.1 ∧ j < 1024
      · right
        refine ⟨?_, pde, hpde, habs, ?_, ?_⟩
        · simp [pt_ptalloc_table, I386_VM_PT_ENTRIES, hx]
        · simp only [pt_ptalloc_table, upd, if_true]
          exact present_ptalloc_entry _ _
        · simp [pt_ptalloc_table, upd, hx.1]
      · left
        simp only [pt_ptalloc_table, I386_VM_PT_ENTRIES]
        rw [if_neg hx]

theorem pt_writemap_tables_grow (b : Build) (fh d : Nat) (who flags : Nat)
    (hwho : who ≠ b.VM_PROC_NR) (n : Nat) :
    ∀ (pde : Nat) (st : vm_state) (r : Status × vm_state), pde + n ≤ 1024 →
      pt_writemap_tables b (vm_allocpages b fh d) who flags n pde st = Run.done r →
      TableGrow (st.vmproc_pt who) (r.2.vmproc_pt who) := by
  induction n with
  | zero =>
    intro pde st r _ h
    unfold pt_writemap_tables at h
    cases h
    exact tablegrow_refl _
  | succ n ih =>
    intro pde st r hb h
    unfold pt_writemap_tables at h
    have h1 := vm_assert_done _ _ _ _ h
    split at h1
    · cases h1
    · split at h1
      · rename_i hnp
        have habs : present ((st.vmproc_pt who).pt_dir pde) = false := by simpa using hnp
        have h2 := vm_assert_done _ _ _ _ h1
        obtain ⟨a, hal, h3⟩ := Run.bind_done _ _ _ h2
        have hs := pt_ptalloc_grow b fh d st who pde flags a hwho (by omega) habs hal
        split at h3
        · cases h3; exact hs
        · have h4 := vm_assert_done _ _ _ _ h3
          exact tablegrow_trans hs (ih _ _ _ (by omega) h4)
      · have h2 := vm_assert_done _ _ _ _ h1
        exact ih _ _ _ (by omega) h2

/-- The first loop of `pt_writemap`, as the function runs it: the slots from
that of `v` to that of `v + bytes` taken in 32 bits, which lie below 1024. -/
theorem pt_writemap_first_loop_grow (b : Build) (fh d : Nat) (who flags v x : Nat)
    (hwho : who ≠ b.VM_PROC_NR) (st : vm_state) (r : Status × vm_state)
    (h : pt_writemap_tables b (vm_allocpages b fh d) who flags
          (I386_VM_PDE (U32 x) + 1 - I386_VM_PDE v) (I386_VM_PDE v) st = Run.done r) :
    TableGrow (st.vmproc_pt who) (r.2.vmproc_pt who) := by
  by_cases hle : I386_VM_PDE v ≤ I386_VM_PDE (U32 x)
  · refine pt_writemap_tables_grow b fh d who flags hwho _ _ _ _ ?_ h
    have : I386_VM_PDE (U32 x) < 1024 := by unfold I386_VM_PDE U32; omega
    omega
  · have e : I386_VM_PDE (U32 x) + 1 - I386_VM_PDE v = 0 := by omega
    rw [e] at h
    unfold pt_writemap_tables at h
    cases h
    exact tablegrow_refl _

/-- A `vm_assert` that lets one continuation return lets any continuation run. -/
theorem vm_assert_skip {α β : Type} (b : Build) (c : Bool) (k : Run α) (x : α)
    (h : vm_assert b c k = Run.done x) (k' : Run β) : vm_assert b c k' = k' := by
  unfold vm_assert at *
  split at h
  · cases h
  · rename_i hc
    rw [if_neg hc]

/-- The first round of the first loop of `pt_writemap`, when the loop ends with
`OK`: the slot is present and the state is kept, or the slot is absent and
`pt_ptalloc` returns `OK`; the later rounds start from that state, however many
they are. -/
theorem pt_writemap_tables_head (b : Build) (alloc : Allocator) (who flags n pde : Nat)
    (st st' : vm_state)
    (h : pt_writemap_tables b alloc who flags (n + 1) pde st = Run.done (Status.OK, st')) :
    ∃ st1, pt_writemap_tables b alloc who flags n (pde + 1) st1 = Run.done (Status.OK, st')
      ∧ (∀ m, pt_writemap_tables b alloc who flags (m + 1) pde st
            = pt_writemap_tables b alloc who flags m (pde + 1) st1)
      ∧ ((st1 = st ∧ present ((st.vmproc_pt who).pt_dir pde) = true)
        ∨ (present ((st.vmproc_pt who).pt_dir pde) = false
            ∧ pt_ptalloc b alloc st who pde flags = Run.done (Status.OK, st1))) := by
  unfold pt_writemap_tables at h
  have a1 := fun (k' : Run (Status × vm_state)) => vm_assert_skip _ _ _ _ h k'
  have h1 := vm_assert_done _ _ _ _ h
  by_cases hbig : (st.vmproc_pt who).pt_dir pde &&& I386_VM_BIGPAGE ≠ 0
  · rw [if_pos hbig] at h1
    cases h1
  · rw [if_neg hbig] at h1
    by_cases habs : (!present ((st.vmproc_pt who).pt_dir pde)) = true
    · rw [if_pos habs] at h1
      have a2 := fun (k' : Run (Status × vm_state)) => vm_assert_skip _ _ _ _ h1 k'
      have h2 := vm_assert_done _ _ _ _ h1
      obtain ⟨r, hr, h3⟩ := Run.bind_done _ _ _ h2
      by_cases hne : r.1 ≠ Status.OK
      · rw [if_pos hne] at h3
        have : r.1 = Status.OK := by
          have := congrArg (fun x => (Run.get x (Status.ENOMEM, st)).1) h3
          simpa [Run.get] using this
        exact absurd this hne
      · rw [if_neg hne] at h3
        have a3 := fun (k' : Run (Status × vm_state)) => vm_assert_skip _ _ _ _ h3 k'
        have h4 := vm_assert_done _ _ _ _ h3
        refine ⟨r.2, h4, ?_, Or.inr ⟨by simpa using habs, ?_⟩⟩
        · intro m
          rw [pt_writemap_tables, a1, if_neg hbig, if_pos habs, a2, hr]
          simp only [Run.bind]
          rw [if_neg hne, a3]
        · rw [hr]
          have e : r.1 = Status.OK := by simpa using hne
          rw [← e]
    · rw [if_neg habs] at h1
      have a2 := fun (k' : Run (Status × vm_state)) => vm_assert_skip _ _ _ _ h1 k'
      have h2 := vm_assert_done _ _ _ _ h1
      refine ⟨st, h2, ?_, Or.inl ⟨rfl, by simpa using habs⟩⟩
      intro m
      rw [pt_writemap_tables, a1, if_neg hbig, if_neg habs, a2]

/-- When `vm_allocpages` returns a page it has written its physical address. -/
theorem vm_allocpages_some (b : Build) (fh d : Nat) (st : vm_state) (pages : Nat)
    (a : Nat × Option Nat × vm_state) (h : vm_allocpages b fh d st pages = Run.done a)
    (hne : a.1 ≠ 0) : ∃ p, a.2.1 = some p := by
  cases d with
  | zero => unfold vm_allocpages at h; cases h
  | succ d =>
    unfold vm_allocpages at h
    have h1 := vm_assert_done _ _ _ _ h
    have h2 := vm_assert_done _ _ _ _ h1
    have h3 := vm_assert_done _ _ _ _ h2
    split at h3
    · have h4 := vm_assert_done _ _ _ _ h3
      obtain ⟨g, _, h5⟩ := Run.bind_done _ _ _ h4
      cases h5
      exact ⟨_, rfl⟩
    · obtain ⟨f, _, h4⟩ := Run.bind_done _ _ _ h3
      dsimp only at h4
      split at h4
      · cases h4
        exact absurd rfl hne
      · split at h4
        · cases h4
          exact absurd rfl hne
        · obtain ⟨w, _, h5⟩ := Run.bind_done _ _ _ h4
          split at h5
          · cases h5
            exact ⟨_, rfl⟩
          · cases h5
            exact ⟨_, rfl⟩

/-- Where the second-level tables made by the first loop of `pt_writemap` come
from, on a table other than the manager's own: a slot that was absent and is
present when the loop ends with `OK` is one of the slots visited; when the loop
came to it, `vm_allocpages` returned a page, whose address is the pointer of
the slot and whose physical address is in the directory entry. -/
theorem pt_writemap_tables_alloc (b : Build) (fh d : Nat) (who flags : Nat)
    (hwho : who ≠ b.VM_PROC_NR) (n : Nat) :
    ∀ (pde : Nat) (st st' : vm_state),
      pt_writemap_tables b (vm_allocpages b fh d) who flags n pde st
        = Run.done (Status.OK, st') →
      ∀ k, present ((st.vmproc_pt who).pt_dir k) = false →
        present ((st'.vmproc_pt who).pt_dir k) = true →
        ∃ st0 ptr pt_phys st1, pde ≤ k ∧ k < pde + n
          ∧ pt_writemap_tables b (vm_allocpages b fh d) who flags (k - pde) pde st
              = Run.done (Status.OK, st0)
          ∧ vm_allocpages b fh d st0 1 = Run.done (ptr, some pt_phys, st1)
          ∧ ptr ≠ 0
          ∧ (st'.vmproc_pt who).pt_pt k = ptr
          ∧ (st'.vmproc_pt who).pt_dir k
              = (pt_phys &&& I386_VM_ADDR_MASK) ||| flags ||| I386_VM_PRESENT ||| I386_VM_USER
                  ||| I386_VM_WRITE := by
  induction n with
  | zero =>
    intro pde st st' h k h1 h2
    unfold pt_writemap_tables at h
    cases h
    rw [h1] at h2
    cases h2
  | succ n ih =>
    intro pde st st' h k habs hpres
    obtain ⟨st1, hrest, heq, hcase⟩ := pt_writemap_tables_head b _ who flags n pde st st' h
    have hout := pt_writemap_tables_outside b fh d who flags hwho n (pde + 1) st1 _ hrest
    by_cases hk : k = pde
    · subst hk
      rcases hcase with ⟨_, hp⟩ | ⟨_, hal⟩
      · rw [hp] at habs
        cases habs
      · obtain ⟨a, ha, h2⟩ := pt_ptalloc_done b _ st who k flags _ hal
        rcases h2 with ⟨_, hr⟩ | ⟨ha0, hr, _⟩
        · cases hr
        · obtain ⟨p, hp⟩ := vm_allocpages_some b fh d st 1 a ha ha0
          have hst1 : st1 = a.2.2.set_pt who
              (pt_ptalloc_table (a.2.2.vmproc_pt who) k a.1 (a.2.1.getD 0) flags) := by
            have := congrArg Prod.snd hr
            exact this
          obtain ⟨o1, o2⟩ := hout k (Or.inl (by omega))
          refine ⟨st, a.1, p, a.2.2, le_refl _, by omega, ?_, ?_, ha0, ?_, ?_⟩
          · rw [Nat.sub_self]
            rfl
          · rw [ha]
            have : a = (a.1, a.2.1, a.2.2) := rfl
            rw [this, hp]
          · show (st'.vmproc_pt who).pt_pt k = a.1
            rw [o2, hst1]
            simp [pt_ptalloc_table, upd]
          · show (st'.vmproc_pt who).pt_dir k = _
            rw [o1, hst1, hp]
            simp [pt_ptalloc_table, upd]
    · have hsame : (st1.vmproc_pt who).pt_dir k = (st.vmproc_pt who).pt_dir k := by
        rcases hcase with ⟨e, _⟩ | ⟨_, hal⟩
        · rw [e]
        · exact (pt_ptalloc_outside b fh d st who pde flags _ hwho hal k hk).1
      obtain ⟨st0, ptr, pt_phys, st2, k1, k2, k3, k4, k5, k6, k7⟩ :=
        ih (pde + 1) st1 st' hrest k (by rw [hsame]; exact habs) hpres
      refine ⟨st0, ptr, pt_phys, st2, by omega, by omega, ?_, k4, k5, k6, k7⟩
      have e : k - pde = (k - (pde + 1)) + 1 := by omega
      rw [e, heq]
      exact k3

/-- C17 (amended): `pt_writemap` on a table other than the manager's own, when it
returns `OK`.  Every page of the range has a second-level pointer that is not
`NULL`, and its directory entry is present if `vm_assert` is compiled in or
every slot of the table with a pointer had a present entry.  Every directory
slot `pde` that was absent before the call and is present after it was made by
the first loop: when the loop came to the slot, in the state `st0`,
`vm_allocpages` returned a page `ptr` and wrote its physical address
`pt_phys`; `ptr` is the pointer of the slot, and the directory entry is
`(pt_phys & I386_VM_ADDR_MASK) | flags | PRESENT | USER | WRITE`.  The leaf
entries of the new table outside the range are 0, provided that no other slot
of the range points to the same table when the call returns. -/
theorem pt_writemap_new_tables (b : Build) (fh d : Nat) (st st' : vm_state)
    (who v physaddr bytes flags writemapflags : Nat) (hwho : who ≠ b.VM_PROC_NR)
    (hv : v < 4294967296) (hbytes : bytes < 4294967296)
    (hsane : b.vm_assert_on = true ∨ ∀ i, (st.vmproc_pt who).pt_pt i ≠ 0 →
      present ((st.vmproc_pt who).pt_dir i) = true)
    (h : pt_writemap b fh d st who v physaddr bytes flags writemapflags
          = Run.done (Status.OK, st')) :
    (∀ i, i < bytes / 4096 →
        present ((st'.vmproc_pt who).pt_dir (I386_VM_PDE (U32 (v + 4096 * i)))) = true
          ∧ (st'.vmproc_pt who).pt_pt (I386_VM_PDE (U32 (v + 4096 * i))) ≠ 0)
      ∧ ∀ pde, present ((st.vmproc_pt who).pt_dir pde) = false →
          present ((st'.vmproc_pt who).pt_dir pde) = true →
          (∃ st0 ptr pt_phys st1,
              pt_writemap_tables b (vm_allocpages b fh d) who flags (pde - I386_VM_PDE v)
                  (I386_VM_PDE v) st = Run.done (Status.OK, st0)
              ∧ vm_allocpages b fh d st0 1 = Run.done (ptr, some pt_phys, st1)
              ∧ ptr ≠ 0
              ∧ (st'.vmproc_pt who).pt_pt pde = ptr
              ∧ (st'.vmproc_pt who).pt_dir pde
                  = (pt_phys &&& I386_VM_ADDR_MASK) ||| flags ||| I386_VM_PRESENT
                      ||| I386_VM_USER ||| I386_VM_WRITE)
            ∧ ((∀ i, i < bytes / 4096 → I386_VM_PDE (U32 (v + 4096 * i)) ≠ pde →
                  (st'.vmproc_pt who).pt_pt (I386_VM_PDE (U32 (v + 4096 * i)))
                    ≠ (st'.vmproc_pt who).pt_pt pde) →
                ∀ pte, pte < 1024 →
                  (∀ i, i < bytes / 4096 → ¬ (pde = I386_VM_PDE (U32 (v + 4096 * i))
                    ∧ pte = I386_VM_PTE (U32 (v + 4096 * i)))) →
                  (st'.vmproc_pt who).leaf pde pte = 0) := by
  unfold pt_writemap at h
  obtain ⟨r, ht, h2⟩ := pt_writemap_with_done _ _ _ _ _ _ _ _ _ _ _ h
  rcases h2 with ⟨hne, hs, _⟩ | ⟨hok, _, hp⟩
  · exact absurd hs.symm hne
  · have hm := pt_writemap_first_loop_grow b fh d who flags v _ hwho st r ht
    have ht' : pt_writemap_tables b (vm_allocpages b fh d) who flags
        (I386_VM_PDE (U32 (v + 4096 * (bytes / 4096))) + 1 - I386_VM_PDE v) (I386_VM_PDE v) st
        = Run.done (Status.OK, r.2) := by
      rw [ht, ← hok]
    obtain ⟨tab, hst, _, hall, hnn⟩ :=
      pt_writemap_pages_spec b who flags writemapflags (bytes / 4096) v physaddr r.2 st' hv
        (by omega) hp
    have hdir : (st'.vmproc_pt who).pt_dir = (r.2.vmproc_pt who).pt_dir := by rw [hst]; simp
    have hpt : (st'.vmproc_pt who).pt_pt = (r.2.vmproc_pt who).pt_pt := by rw [hst]; simp
    have htab : (st'.vmproc_pt who).pt_tab = tab := by rw [hst]; simp
    constructor
    · intro i hi
      rw [hdir, hpt]
      refine ⟨?_, hnn i hi⟩
      rcases hsane with hon | hwf
      · exact pt_writemap_pages_present b who flags writemapflags hon _ _ _ _ _ hv hp i hi
      · cases hd : present ((st.vmproc_pt who).pt_dir (I386_VM_PDE (U32 (v + 4096 * i))))
        · rcases hm.2.1 _ hd with ⟨_, c2⟩ | ⟨c1, _, _⟩
          · have := hnn i hi
            rcases c2 with c2 | c2
            · rw [c2] at this
              rw [hwf _ this] at hd
              cases hd
            · exact absurd c2 this
          · exact c1
        · rw [(hm.1 _ hd).1]; exact hd
    · intro pde habs hpres
      rw [hdir] at hpres
      obtain ⟨st0, ptr, pt_phys, st1, _, _, k3, k4, k5, k6, k7⟩ :=
        pt_writemap_tables_alloc b fh d who flags hwho _ _ _ _ ht' pde habs hpres
      refine ⟨⟨st0, ptr, pt_phys, st1, k3, k4, k5, by rw [hpt]; exact k6,
        by rw [hdir]; exact k7⟩, ?_⟩
      intro hsh pte hpte hout
      have hz : (r.2.vmproc_pt who).pt_tab ((r.2.vmproc_pt who).pt_pt pde) pte = 0 := by
        rcases hm.2.1 pde habs with ⟨c1, _⟩ | ⟨_, _, c3⟩
        · rw [c1, habs] at hpres
          cases hpres
        · exact c3 pte hpte
      unfold pt_t.leaf
      rw [hpt, htab]
      rcases hall ((r.2.vmproc_pt who).pt_pt pde) pte with ⟨_, e⟩ | ⟨i, hi, e1, e2, _⟩
      · rw [e]; exact hz
      · exfalso
        by_cases hk : I386_VM_PDE (U32 (v + 4096 * i)) = pde
        · exact hout i hi ⟨hk.symm, e2⟩
        · refine hsh i hi hk ?_
          rw [hpt, ← e1]

/-- The write loop runs through when every page of the range has a second-level
table, with `vm_assert` a present directory entry and an aligned address, and
with `SANITYCHECKS` a table that passes `PT_SANE` and leave to overwrite. -/
theorem pt_writemap_pages_total (b : Build) (who flags wmf : Nat)
    (hovw : b.SANITYCHECKS = false ∨ wmf &&& b.WMF_OVERWRITE ≠ 0) (n : Nat) :
    ∀ (v pa : Nat) (st : vm_state), v < 4294967296 → v % 4096 = 0 →
      (b.SANITYCHECKS = false ∨ pt_sanitycheck st who = true) →
      (∀ i, i < n → (st.vmproc_pt who).pt_pt (I386_VM_PDE (U32 (v + 4096 * i))) ≠ 0
        ∧ (b.vm_assert_on = true →
            present ((st.vmproc_pt who).pt_dir (I386_VM_PDE (U32 (v + 4096 * i)))) = true)) →
      ∃ st', pt_writemap_pages b who flags wmf n v pa st = Run.done st'
        ∧ (b.SANITYCHECKS = false ∨ pt_sanitycheck st' who = true) := by
  induction n with
  | zero => intro v pa st _ _ hs _; exact ⟨st, rfl, hs⟩
  | succ n ih =>
    intro v pa st hv32 hv hs hd
    obtain ⟨d2, d1⟩ := hd 0 (by omega)
    have h0 : U32 (v + 4096 * 0) = v := by unfold U32; omega
    rw [h0] at d1 d2
    have d1' : b.vm_assert_on = false
        ∨ present ((st.vmproc_pt who).pt_dir (I386_VM_PDE v)) = true := by
      cases hon : b.vm_assert_on
      · exact Or.inl rfl
      · exact Or.inr (d1 hon)
    have hs1 : b.SANITYCHECKS = false ∨ pt_sanitycheck (st.set_pt who
        { st.vmproc_pt who with
          pt_tab := upd2 (st.vmproc_pt who).pt_tab ((st.vmproc_pt who).pt_pt (I386_VM_PDE v))
            (I386_VM_PTE v) ((pa &&& I386_VM_ADDR_MASK) ||| flags) }) who = true := by
      rw [pt_sanitycheck_set_tab]; exact hs
    have hv1 : U32 (v + 4096) % 4096 = 0 := by unfold U32; omega
    obtain ⟨st', hr, hs'⟩ := ih (U32 (v + 4096)) (U32 (pa + 4096)) _ (by unfold U32; omega)
        hv1 hs1 (by
      intro i hi
      have := hd (i + 1) (by omega)
      have e : U32 (U32 (v + 4096) + 4096 * i) = U32 (v + 4096 * (i + 1)) := by
        unfold U32; omega
      rw [e]
      simpa using this)
    refine ⟨st', ?_, hs'⟩
    unfold pt_writemap_pages
    simp only []
    rw [PT_SANE_pass b st who _ hs]
    rw [vm_assert_pass b _ _ (Or.inr (by simp [I386_PAGE_SIZE, hv]))]
    rw [vm_assert_pass b _ _ (Or.inr (by
      simp only [I386_VM_PTE, I386_VM_PT_ENTRIES, decide_eq_true_eq]; omega))]
    rw [vm_assert_pass b _ _ (Or.inr (by
      simp only [I386_VM_PDE, I386_VM_DIR_ENTRIES, decide_eq_true_eq]
      omega))]
    rw [vm_assert_pass b _ _ d1']
    rw [vm_assert_pass b _ _ (by
      rcases d1' with h | h
      · exact Or.inl h
      · exact Or.inr (by simp [h, d2]))]
    rw [PT_SANE_pass b st who _ hs]
    rw [vm_assert_pass b _ _ (Or.inr (by
      rcases hovw with h | h
      · simp [h]
      · simp [h]))]
    rw [if_neg d2]
    rw [PT_SANE_pass b _ who _ hs1]
    exact hr

/-- C10: `vm_getsparepage` on a pool whose counter is within the bounds it
asserts, 0 to 5, and is 5 only when all five slots are empty (as it is in every
state the code reaches, where the counter is at most the number of empty
slots), or with `vm_assert` compiled out: it returns the page and the physical
address of the lowest non-empty slot, clears the page of exactly that slot,
adds one to `missing_spares` and changes nothing else; and it stops the server
exactly when all five slots are empty. -/
theorem vm_getsparepage_take (b : Build) (st : vm_state)
    (hinv : b.vm_assert_on = false
      ∨ (0 ≤ st.missing_spares ∧ st.missing_spares ≤ 5
          ∧ (st.missing_spares = 5 → ∀ j, j < 5 → st.spare_page j = 0))) :
    (∀ k, k < 5 → st.spare_page k ≠ 0 → (∀ j, j < k → st.spare_page j = 0) →
        vm_getsparepage b st
          = Run.done (st.spare_page k, st.spare_phys k,
              { st with spare_page := upd st.spare_page k 0
                        missing_spares := st.missing_spares + 1 }))
      ∧ (vm_getsparepage b st = Run.fatal ↔ ∀ j, j < 5 → st.spare_page j = 0) := by
  have hentry : vm_getsparepage b st = vm_getsparepage_loop b st 5 0 := by
    unfold vm_getsparepage
    apply vm_assert_pass
    rcases hinv with h | h
    · exact Or.inl h
    · right
      simp only [SPAREPAGES, Bool.and_eq_true, decide_eq_true_eq]
      constructor <;> omega
  have htake : ∀ k, k < 5 → st.spare_page k ≠ 0 → (∀ j, j < k → st.spare_page j = 0) →
      vm_getsparepage b st
        = Run.done (st.spare_page k, st.spare_phys k,
            { st with spare_page := upd st.spare_page k 0
                      missing_spares := st.missing_spares + 1 }) := by
    intro k hk hne hmin
    rw [hentry]
    refine vm_getsparepage_loop_take b st ?_ 5 0 k (by omega) (by omega) hne
      (fun j _ hj => hmin j hj)
    rcases hinv with h | ⟨h0, h5, hall⟩
    · exact Or.inl h
    · right
      refine ⟨h0, ?_⟩
      by_cases heq : st.missing_spares = 5
      · exact absurd (hall heq k hk) hne
      · omega
  refine ⟨htake, ?_, ?_⟩
  · intro hf
    by_contra hall
    have hex : ∃ j, 0 ≤ j ∧ j < 0 + 5 ∧ st.spare_page j ≠ 0 := by
      by_contra hno
      apply hall
      intro j hj
      by_contra hj0
      exact hno ⟨j, by omega, by omega, hj0⟩
    obtain ⟨k, _, k2, k3, k4⟩ := lowest_spare st.spare_page 5 0 hex
    have := htake k (by omega) k3 (fun j hj => k4 j (by omega) hj)
    rw [this] at hf
    cases hf
  · intro hall
    rw [hentry]
    exact vm_getsparepage_loop_empty b st 5 0 (fun j _ hj => hall j (by omega))

/-- C10 (witness): taking a spare page from the full pool of the example state,
and the panic on the pool from which all five pages have been taken, whose
counter is 5. -/
theorem vm_getsparepage_take_witness :
    vm_getsparepage Build.strict st_demo
        = Run.done (40960, 1048576,
            { st_demo with spare_page := upd st_demo.spare_page 0 0
                           missing_spares := st_demo.missing_spares + 1 })
      ∧ (vm_getsparepage Build.strict st_demo = Run.fatal
          ↔ ∀ j, j < 5 → st_demo.spare_page j = 0)
      ∧ st_no_spares.missing_spares = 5
      ∧ vm_getsparepage Build.strict st_no_spares = Run.fatal :=
  ⟨(vm_getsparepage_take Build.strict st_demo
      (Or.inr ⟨by decide, by decide, fun h => absurd h (by decide)⟩)).1 0 (by decide)
      (by decide) (fun j hj => absurd hj (by omega)),
   (vm_getsparepage_take Build.strict st_demo
      (Or.inr ⟨by decide, by decide, fun h => absurd h (by decide)⟩)).2,
   rfl,
   (vm_getsparepage_take Build.strict st_no_spares
      (Or.inr ⟨by decide, by decide, fun _ => by decide⟩)).2.mpr (by decide)⟩

/-- What does hold of the completeness of `findhole`: when `vm_assert` is compiled
in, or `NO_MEM` is 0 and `vmin` is above 0, a call that satisfies the asserted
preconditions with `virbytes > 0` and has a hole of `virbytes / 4096` unmapped
pages at a page-aligned `s` inside the window ends within 2097152 iterations
and does not return `NO_MEM`, for every cursor value.  It may return an offset
that is no hole, or stop at a `vm_assert`. -/
theorem findhole_ends_without_no_mem (b : Build) (pt : pt_t)
    (virbytes vmin vmax s fuel : Nat)
    (hnov : vmin + virbytes < 4294967296) (hfit : vmin + virbytes ≤ vmax)
    (hvb : virbytes % 4096 = 0) (hvmin4 : vmin % 4096 = 0) (hvmax4 : vmax % 4096 = 0)
    (hvmax32 : vmax < 4294967296) (hpos : 0 < virbytes)
    (hs4 : s % 4096 = 0) (hlo : vmin ≤ s) (hhi : s + virbytes ≤ vmax)
    (hfree : ∀ i, i < virbytes / 4096 → unmapped pt (s + 4096 * i) = true)
    (hnm : b.vm_assert_on = true ∨ (b.NO_MEM = 0 ∧ 0 < vmin))
    (hfuel : 2097152 ≤ fuel) :
    findhole b fuel pt virbytes vmin vmax ≠ Run.fuel_out
      ∧ ∀ p, findhole b fuel pt virbytes vmin vmax ≠ Run.done (b.NO_MEM, p) := by
  have h := findhole_complete_aux b pt virbytes vmin vmax s fuel hnov hfit hvb hvmin4 hvmax4
    hvmax32 hpos hs4 hlo hhi hfree hnm hfuel
  constructor
  · intro he; rw [he] at h; exact h
  · intro p he; rw [he] at h; exact h rfl

/-- C2 (the code at a failing input): the window [4194304, 4210688) of
`pt_tail_mapped` has a hole of one page at 4194304, its start, below the cursor
4202496, which lies in the window.  The scan from the cursor finds the pages
4202496 and 4206592 mapped, which leaves `freestart` at 4210688, the end of the
window; the retry from `vmin` (line 212) does not reset `freestart`, counts the
free page 4194304 and takes `freestart` for the start of the hole.  Without
`vm_assert` the call returns 4210688, which is outside the window, and moves
the cursor to 4214784; with `vm_assert` it stops at `vm_assert(v < vmax)`
(line 203).  The hole is not found. -/
theorem findhole_retry_misses_hole :
    (4194304 % 4096 = 0 ∧ 4194304 ≤ 4194304 ∧ 4194304 + 4096 ≤ 4210688
        ∧ unmapped pt_tail_mapped 4194304 = true)
      ∧ (4194304 ≤ pt_tail_mapped.pt_virtop ∧ pt_tail_mapped.pt_virtop ≤ 4210688 - 4096)
      ∧ unmapped pt_tail_mapped 4202496 = false ∧ unmapped pt_tail_mapped 4206592 = false
      ∧ findhole Build.release 8 pt_tail_mapped 4096 4194304 4210688
          = Run.done (4210688, { pt_tail_mapped with pt_virtop := 4214784 })
      ∧ ¬ (4210688 < 4210688)
      ∧ findhole Build.strict 8 pt_tail_mapped 4096 4194304 4210688 = Run.fatal :=
  ⟨⟨by decide, by decide, by decide, rfl⟩, ⟨by decide, by decide⟩, rfl, rfl, rfl, by decide,
    rfl⟩

/-- Without `vm_assert` and `SANITYCHECKS`, a `pt_writemap` whose first loop finds
every slot present and no big page, and whose pages all have a second-level
table, returns `OK` after running its second loop on the state as it is. -/
theorem pt_writemap_present_runs (b : Build) (fh d : Nat) (st : vm_state)
    (who v pa bytes flags wmf : Nat)
    (hon : b.vm_assert_on = false) (hsc : b.SANITYCHECKS = false)
    (hv : v < 4294967296) (hv4 : v % 4096 = 0)
    (hdirs : ∀ k, k < I386_VM_PDE (U32 (v + 4096 * (bytes / 4096))) + 1 - I386_VM_PDE v →
      I386_VM_PDE v + k < 1024
        ∧ present ((st.vmproc_pt who).pt_dir (I386_VM_PDE v + k)) = true
        ∧ (st.vmproc_pt who).pt_dir (I386_VM_PDE v + k) &&& I386_VM_BIGPAGE = 0)
    (hpt : ∀ i, i < bytes / 4096 →
      (st.vmproc_pt who).pt_pt (I386_VM_PDE (U32 (v + 4096 * i))) ≠ 0) :
    ∃ st', pt_writemap b fh d st who v pa bytes flags wmf = Run.done (Status.OK, st')
      ∧ pt_writemap_pages b who flags wmf (bytes / 4096) v pa st = Run.done st' := by
  have ht := pt_writemap_tables_present b (vm_allocpages b fh d) who flags _ _ st hdirs
  obtain ⟨st', hp, _⟩ := pt_writemap_pages_total b who flags wmf (Or.inl hsc) (bytes / 4096)
    v pa st hv hv4 (Or.inl hsc) (fun i hi => ⟨hpt i hi, fun h => by rw [hon] at h; cases h⟩)
  refine ⟨st', ?_, hp⟩
  unfold pt_writemap pt_writemap_with
  rw [vm_assert_pass b _ _ (Or.inl hon), vm_assert_pass b _ _ (Or.inl hon)]
  simp only [hsc, Bool.false_and, Bool.false_eq_true, if_false, I386_PAGE_SIZE]
  rw [PT_SANE_pass b st who _ (Or.inl hsc), ht]
  simp only [Run.bind, ne_eq, not_true_eq_false, if_false]
  rw [PT_SANE_pass b st who _ (Or.inl hsc), hp]
  simp only [Run.bind]
  rw [PT_SANE_pass b st' who _ (Or.inl hsc)]

set_option maxRecDepth 100000 in
/-- C3 (counterexample): the table in slot 1 in the state `st_shared`, reached by
a `pt_writemap`, a `pt_free` and a `pt_writemap`, in which the directory slots
1 and 2 hold the same pointer, 4194304.  Mapping the 1025 pages from 4194304 to
the frames from 5242880 on with `WMF_OVERWRITE` returns `OK`; the entry of the
last page, 8388608 in slot 2, is written to the word that holds the entry of
the first page, 4194304 in slot 1, which reads back as 9437191 and not as
`(5242880 & I386_VM_ADDR_MASK) | 7`, 5242887. -/
theorem pt_writemap_shared_table_reads_last :
    run_calls Build.release 8 2 [Call.writemap 1 4194304 5242880 4096 7 0, Call.free 1]
        st_small = Run.done st_freed
      ∧ pt_writemap Build.release 8 2 st_freed 1 8388608 6291456 4096 7 0
          = Run.done (Status.OK, st_shared)
      ∧ (st_shared.vmproc_pt 1).pt_pt 1 = 4194304 ∧ (st_shared.vmproc_pt 1).pt_pt 2 = 4194304
      ∧ (4198400 / 4096 = 1025 ∧ Build.release.WMF_OVERWRITE = 1)
      ∧ ((5242880 + 4096 * 0) &&& I386_VM_ADDR_MASK) ||| 7 = 5242887
      ∧ ∃ st', pt_writemap Build.release 8 2 st_shared 1 4194304 5242880 4198400 7 1
            = Run.done (Status.OK, st')
          ∧ (st'.vmproc_pt 1).leaf (I386_VM_PDE (U32 (4194304 + 4096 * 0)))
              (I386_VM_PTE (U32 (4194304 + 4096 * 0))) = 9437191 := by
  have hp1 : (st_shared.vmproc_pt 1).pt_pt 1 = 4194304 := rfl
  have hp2 : (st_shared.vmproc_pt 1).pt_pt 2 = 4194304 := rfl
  have hd1 : present ((st_shared.vmproc_pt 1).pt_dir 1) = true
      ∧ (st_shared.vmproc_pt 1).pt_dir 1 &&& I386_VM_BIGPAGE = 0 := ⟨rfl, rfl⟩
  have hd2 : present ((st_shared.vmproc_pt 1).pt_dir 2) = true
      ∧ (st_shared.vmproc_pt 1).pt_dir 2 &&& I386_VM_BIGPAGE = 0 := ⟨rfl, rfl⟩
  have hpde : ∀ i, i < 1025 → I386_VM_PDE (U32 (4194304 + 4096 * i)) = 1
      ∨ I386_VM_PDE (U32 (4194304 + 4096 * i)) = 2 := by
    intro i hi
    unfold I386_VM_PDE U32
    omega
  refine ⟨rfl, rfl, hp1, hp2, ⟨by decide, rfl⟩, by decide, ?_⟩
  obtain ⟨st', hcall, hpages⟩ := pt_writemap_present_runs Build.release 8 2 st_shared 1
    4194304 5242880 4198400 7 1 rfl rfl (by decide) (by decide)
    (by
      intro k hk
      have hk2 : k < 2 := hk
      have e1 : I386_VM_PDE 4194304 = 1 := by decide
      rw [e1]
      have hc : k = 0 ∨ k = 1 := by omega
      rcases hc with e | e <;> subst e
      · exact ⟨by decide, hd1⟩
      · exact ⟨by decide, hd2⟩)
    (by
      intro i hi
      have hi2 : i < 1025 := hi
      rcases hpde i hi2 with e | e <;> rw [e]
      · rw [hp1]; decide
      · rw [hp2]; decide)
  refine ⟨st', hcall, ?_⟩
  obtain ⟨tab, hst, hpost, _, _⟩ := pt_writemap_pages_spec Build.release 1 7 1 (4198400 / 4096)
    4194304 5242880 st_shared st' (by decide) (by decide) hpages
  have hlast := hpost 1024 (by decide) (fun k hk1 hk2 => by
    have : k < 1025 := hk2
    omega)
  have e1 : I386_VM_PDE (U32 (4194304 + 4096 * 1024)) = 2 := by decide
  have e2 : I386_VM_PTE (U32 (4194304 + 4096 * 1024)) = 0 := by decide
  have e3 : I386_VM_PDE (U32 (4194304 + 4096 * 0)) = 1 := by decide
  have e4 : I386_VM_PTE (U32 (4194304 + 4096 * 0)) = 0 := by decide
  have e5 : ((5242880 + 4096 * 1024) &&& I386_VM_ADDR_MASK) ||| 7 = 9437191 := by decide
  rw [e1, e2, hp2, e5] at hlast
  have hpp : (st'.vmproc_pt 1).pt_pt = (st_shared.vmproc_pt 1).pt_pt := by rw [hst]; simp
  have htt : (st'.vmproc_pt 1).pt_tab = tab := by rw [hst]; simp
  rw [e3, e4]
  unfold pt_t.leaf
  rw [hpp, htt, hp1]
  exact hlast

set_option maxRecDepth 100000 in
/-- C3 (witness): mapping the two pages from 4190208 on, the last page of
directory slot 0 and the first of slot 1, in the table of slot 1, which gets
two second-level tables, at 4194304 and 4198400: the leaf entries read back as
5242887 and 5246983. -/
theorem pt_writemap_postcondition_witness :
    pt_writemap Build.release 8 2 st_demo 1 4190208 5242880 8192 7 0
        = Run.done (Status.OK,
            after (pt_writemap Build.release 8 2 st_demo 1 4190208 5242880 8192 7 0) st_demo)
      ∧ ((after (pt_writemap Build.release 8 2 st_demo 1 4190208 5242880 8192 7 0)
            st_demo).vmproc_pt 1).pt_pt 0 ≠ 0
      ∧ ((after (pt_writemap Build.release 8 2 st_demo 1 4190208 5242880 8192 7 0)
            st_demo).vmproc_pt 1).leaf 0 1023 = 5242887
      ∧ ((after (pt_writemap Build.release 8 2 st_demo 1 4190208 5242880 8192 7 0)
            st_demo).vmproc_pt 1).leaf 1 0 = 5246983 :=
  have hd : ∀ i k, i < 8192 / 4096 → k < 8192 / 4096 →
      I386_VM_PDE (U32 (4190208 + 4096 * i)) ≠ I386_VM_PDE (U32 (4190208 + 4096 * k)) →
      ((after (pt_writemap Build.release 8 2 st_demo 1 4190208 5242880 8192 7 0)
          st_demo).vmproc_pt 1).pt_pt (I386_VM_PDE (U32 (4190208 + 4096 * i)))
        ≠ ((after (pt_writemap Build.release 8 2 st_demo 1 4190208 5242880 8192 7 0)
          st_demo).vmproc_pt 1).pt_pt (I386_VM_PDE (U32 (4190208 + 4096 * k))) := by
    intro i k hi hk hne
    have hi2 : i = 0 ∨ i = 1 := by omega
    have hk2 : k = 0 ∨ k = 1 := by omega
    rcases hi2 with e | e <;> rcases hk2 with f | f <;> subst e <;> subst f
    · exact absurd rfl hne
    · decide
    · decide
    · exact absurd rfl hne
  ⟨rfl,
   (pt_writemap_postcondition Build.release 8 2 st_demo _ 1 4190208 5242880 8192 7 0
    (by decide) (by decide) hd rfl 0 (by decide)).1,
   (pt_writemap_postcondition Build.release 8 2 st_demo _ 1 4190208 5242880 8192 7 0
    (by decide) (by decide) hd rfl 0 (by decide)).2,
   (pt_writemap_postcondition Build.release 8 2 st_demo _ 1 4190208 5242880 8192 7 0
    (by decide) (by decide) hd rfl 1 (by decide)).2⟩

set_option maxRecDepth 100000 in
/-- C17 (witness): mapping the page 4259840 in the table of slot 1, whose
directory slot 1 has no table: the table comes from a `vm_allocpages` that
returns a page, is entered in the directory, and its entry 17 is 0. -/
theorem pt_writemap_new_tables_witness :
    pt_writemap Build.release 8 2 st_demo 1 4259840 5242880 4096 7 0
        = Run.done (Status.OK,
            after (pt_writemap Build.release 8 2 st_demo 1 4259840 5242880 4096 7 0) st_demo)
      ∧ present (((after (pt_writemap Build.release 8 2 st_demo 1 4259840 5242880 4096 7 0)
          st_demo).vmproc_pt 1).pt_dir (I386_VM_PDE (U32 (4259840 + 4096 * 0)))) = true
      ∧ (∃ st0 ptr pt_phys st1,
          pt_writemap_tables Build.release (vm_allocpages Build.release 8 2) 1 7
              (1 - I386_VM_PDE 4259840) (I386_VM_PDE 4259840) st_demo
              = Run.done (Status.OK, st0)
          ∧ vm_allocpages Build.release 8 2 st0 1 = Run.done (ptr, some pt_phys, st1)
          ∧ ptr ≠ 0
          ∧ ((after (pt_writemap Build.release 8 2 st_demo 1 4259840 5242880 4096 7 0)
              st_demo).vmproc_pt 1).pt_pt 1 = ptr
          ∧ ((after (pt_writemap Build.release 8 2 st_demo 1 4259840 5242880 4096 7 0)
              st_demo).vmproc_pt 1).pt_dir 1
              = (pt_phys &&& I386_VM_ADDR_MASK) ||| 7 ||| I386_VM_PRESENT ||| I386_VM_USER
                  ||| I386_VM_WRITE)
      ∧ ((after (pt_writemap Build.release 8 2 st_demo 1 4259840 5242880 4096 7 0)
          st_demo).vmproc_pt 1).leaf 1 17 = 0 :=
  ⟨rfl,
   ((pt_writemap_new_tables Build.release 8 2 st_demo _ 1 4259840 5242880 4096 7 0 (by decide)
      (by decide) (by decide) (Or.inr (fun i h => absurd rfl h)) rfl).1 0 (by decide)).1,
   ((pt_writemap_new_tables Build.release 8 2 st_demo _ 1 4259840 5242880 4096 7 0 (by decide)
      (by decide) (by decide) (Or.inr (fun i h => absurd rfl h)) rfl).2 1 rfl rfl).1,
   ((pt_writemap_new_tables Build.release 8 2 st_demo _ 1 4259840 5242880 4096 7 0 (by decide)
      (by decide) (by decide) (Or.inr (fun i h => absurd rfl h)) rfl).2 1 rfl rfl).2
      (fun i hi hne => by
        have h0 : i = 0 := by omega
        subst h0
        exact absurd rfl hne)
      17 (by decide)
      (fun i hi hc => by
        have h0 : i = 0 := by omega
        subst h0
        exact absurd hc.2 (by decide))⟩

end Minix
